import Mathlib

/-!
# go-form3: the Form3 API client (`form3/form3.go`, `form3/accounts.go`)

A shallow embedding of the client library and of the parts of the Go standard
library it runs on (`encoding/json`, `net/url`, `net/http`, `context`).

Conventions of the embedding:

* a Go `string` / `[]byte` is a Lean `String` (text);
* a Go pointer that may be nil is an `Option`;
* a Go slice is an `Option (List _)`: `none` is the nil slice, `some []` the
  empty non-nil slice (`reflect.DeepEqual` tells them apart);
* a function that may panic returns in `Run`.
-/

namespace Form3

/-! ## encoding/json: values and the scanner -/

/-- A JSON value as the decoder sees it. A number keeps its literal text,
as the decoder converts it only once the target type is known. -/
inductive JSON where
  | null
  | bool (b : Bool)
  | num (lit : String)
  | str (s : String)
  | arr (xs : List JSON)
  | obj (kvs : List (String × JSON))
  deriving Repr, Inhabited

mutual
/-- Equality of JSON values is decidable. -/
def JSON.decEq : (a b : JSON) → Decidable (a = b)
  | JSON.null, b =>
    match b with
    | JSON.null => isTrue rfl
    | JSON.bool _ => isFalse (fun h => JSON.noConfusion h)
    | JSON.num _ => isFalse (fun h => JSON.noConfusion h)
    | JSON.str _ => isFalse (fun h => JSON.noConfusion h)
    | JSON.arr _ => isFalse (fun h => JSON.noConfusion h)
    | JSON.obj _ => isFalse (fun h => JSON.noConfusion h)
  | JSON.bool x, b =>
    match b with
    | JSON.bool y => if h : x = y then isTrue (h ▸ rfl) else isFalse (fun e => h (JSON.bool.inj e))
    | JSON.null => isFalse (fun h => JSON.noConfusion h)
    | JSON.num _ => isFalse (fun h => JSON.noConfusion h)
    | JSON.str _ => isFalse (fun h => JSON.noConfusion h)
    | JSON.arr _ => isFalse (fun h => JSON.noConfusion h)
    | JSON.obj _ => isFalse (fun h => JSON.noConfusion h)
  | JSON.num x, b =>
    match b with
    | JSON.num y => if h : x = y then isTrue (h ▸ rfl) else isFalse (fun e => h (JSON.num.inj e))
    | JSON.null => isFalse (fun h => JSON.noConfusion h)
    | JSON.bool _ => isFalse (fun h => JSON.noConfusion h)
    | JSON.str _ => isFalse (fun h => JSON.noConfusion h)
    | JSON.arr _ => isFalse (fun h => JSON.noConfusion h)
    | JSON.obj _ => isFalse (fun h => JSON.noConfusion h)
  | JSON.str x, b =>
    match b with
    | JSON.str y => if h : x = y then isTrue (h ▸ rfl) else isFalse (fun e => h (JSON.str.inj e))
    | JSON.null => isFalse (fun h => JSON.noConfusion h)
    | JSON.bool _ => isFalse (fun h => JSON.noConfusion h)
    | JSON.num _ => isFalse (fun h => JSON.noConfusion h)
    | JSON.arr _ => isFalse (fun h => JSON.noConfusion h)
    | JSON.obj _ => isFalse (fun h => JSON.noConfusion h)
  | JSON.arr x, b =>
    match b with
    | JSON.arr y =>
      match JSON.decEqList x y with
      | isTrue h => isTrue (h ▸ rfl)
      | isFalse h => isFalse (fun e => h (JSON.arr.inj e))
    | JSON.null => isFalse (fun h => JSON.noConfusion h)
    | JSON.bool _ => isFalse (fun h => JSON.noConfusion h)
    | JSON.num _ => isFalse (fun h => JSON.noConfusion h)
    | JSON.str _ => isFalse (fun h => JSON.noConfusion h)
    | JSON.obj _ => isFalse (fun h => JSON.noConfusion h)
  | JSON.obj x, b =>
    match b with
    | JSON.obj y =>
      match JSON.decEqMembers x y with
      | isTrue h => isTrue (h ▸ rfl)
      | isFalse h => isFalse (fun e => h (JSON.obj.inj e))
    | JSON.null => isFalse (fun h => JSON.noConfusion h)
    | JSON.bool _ => isFalse (fun h => JSON.noConfusion h)
    | JSON.num _ => isFalse (fun h => JSON.noConfusion h)
    | JSON.str _ => isFalse (fun h => JSON.noConfusion h)
    | JSON.arr _ => isFalse (fun h => JSON.noConfusion h)
/-- Equality of lists of JSON values is decidable. -/
def JSON.decEqList : (a b : List JSON) → Decidable (a = b)
  | [], [] => isTrue rfl
  | [], _ :: _ => isFalse (fun h => List.noConfusion h)
  | _ :: _, [] => isFalse (fun h => List.noConfusion h)
  | x :: xs, y :: ys =>
    match JSON.decEq x y, JSON.decEqList xs ys with
    | isTrue h1, isTrue h2 => isTrue (h1 ▸ h2 ▸ rfl)
    | isFalse h1, _ => isFalse (fun e => h1 (List.cons.inj e).1)
    | _, isFalse h2 => isFalse (fun e => h2 (List.cons.inj e).2)
/-- Equality of member lists is decidable. -/
def JSON.decEqMembers : (a b : List (String × JSON)) → Decidable (a = b)
  | [], [] => isTrue rfl
  | [], _ :: _ => isFalse (fun h => List.noConfusion h)
  | _ :: _, [] => isFalse (fun h => List.noConfusion h)
  | (k, x) :: xs, (l, y) :: ys =>
    if hk : k = l then
      match JSON.decEq x y, JSON.decEqMembers xs ys with
      | isTrue h1, isTrue h2 => isTrue (hk ▸ h1 ▸ h2 ▸ rfl)
      | isFalse h1, _ => isFalse (fun e => h1 (Prod.mk.inj (List.cons.inj e).1).2)
      | _, isFalse h2 => isFalse (fun e => h2 (List.cons.inj e).2)
    else isFalse (fun e => hk (Prod.mk.inj (List.cons.inj e).1).1)
end

instance : DecidableEq JSON := JSON.decEq

/-- The scanner's `isSpace`. -/
def isSpace (c : Char) : Bool :=
  c == ' ' || c == '\t' || c == '\r' || c == '\n'

/-- Drops leading JSON white space. -/
def skipWs : List Char → List Char
  | [] => []
  | c :: cs => if isSpace c then skipWs cs else c :: cs

/-- Value of a hexadecimal digit. -/
def hexVal (c : Char) : Option Nat :=
  if '0' ≤ c ∧ c ≤ '9' then some (c.toNat - '0'.toNat)
  else if 'a' ≤ c ∧ c ≤ 'f' then some (c.toNat - 'a'.toNat + 10)
  else if 'A' ≤ c ∧ c ≤ 'F' then some (c.toNat - 'A'.toNat + 10)
  else none

/-- The decoder's `getu4` on the four characters after a backslash and u. -/
def getu4 (a b c d : Char) : Option Nat :=
  match hexVal a, hexVal b, hexVal c, hexVal d with
  | some w, some x, some y, some z => some (((w * 16 + x) * 16 + y) * 16 + z)
  | _, _, _, _ => none

/-- The Unicode replacement character, which `unquote` writes for a lone surrogate. -/
def replacementChar : Char := Char.ofNat 0xFFFD

/-- The character an escape sequence of two characters stands for. -/
def simpleEscape (e : Char) : Option Char :=
  if e = '"' then some '"'
  else if e = '\\' then some '\\'
  else if e = '/' then some '/'
  else if e = 'b' then some (Char.ofNat 8)
  else if e = 'f' then some (Char.ofNat 12)
  else if e = 'n' then some '\n'
  else if e = 'r' then some '\r'
  else if e = 't' then some '\t'
  else none

/-- The rest of a string literal after its opening quote: the decoded text
(`unquote`) and the input after the closing quote. Control characters and
unknown escapes are rejected, as by `stateInString` and `stateInStringEsc`. A
surrogate written with a backslash and u combines with a low surrogate written
the same way right after it, and is replaced otherwise. -/
def parseStringBody : Nat → List Char → List Char → Option (String × List Char)
  | 0, _, _ => none
  | _ + 1, [], _ => none
  | fuel + 1, c :: rest, acc =>
    if c = '"' then some (String.mk acc.reverse, rest)
    else if c = '\\' then
      match rest with
      | [] => none
      | e :: r =>
        if e = 'u' then
          match r with
          | a :: b :: x :: y :: r1 =>
            match getu4 a b x y with
            | none => none
            | some rr =>
              if 0xD800 ≤ rr ∧ rr < 0xE000 then
                match r1 with
                | bs :: u2 :: a2 :: b2 :: x2 :: y2 :: r2 =>
                  match getu4 a2 b2 x2 y2 with
                  | some rr1 =>
                    if bs = '\\' ∧ u2 = 'u' ∧ rr < 0xDC00 ∧ 0xDC00 ≤ rr1 ∧ rr1 < 0xE000 then
                      parseStringBody fuel r2
                        (Char.ofNat ((rr - 0xD800) * 0x400 + (rr1 - 0xDC00) + 0x10000) :: acc)
                    else parseStringBody fuel r1 (replacementChar :: acc)
                  | none => parseStringBody fuel r1 (replacementChar :: acc)
                | _ => parseStringBody fuel r1 (replacementChar :: acc)
              else parseStringBody fuel r1 (Char.ofNat rr :: acc)
          | _ => none
        else
          match simpleEscape e with
          | some x => parseStringBody fuel r (x :: acc)
          | none => none
    else if c.toNat < 0x20 then none
    else parseStringBody fuel rest (c :: acc)

/-- Splits off the longest run of decimal digits. -/
def spanDigits : List Char → List Char × List Char
  | [] => ([], [])
  | c :: cs =>
    if c.isDigit then ((spanDigits cs).1.cons c, (spanDigits cs).2) else ([], c :: cs)

/-- The integer part of a number: a single 0, or a non-zero digit and more digits
(`state0`, `state1`). -/
def parseIntPart : List Char → Option (List Char × List Char)
  | [] => none
  | c :: rest =>
    if c = '0' then some (['0'], rest)
    else if c.isDigit then some (c :: (spanDigits rest).1, (spanDigits rest).2)
    else none

/-- The optional fraction (`stateDot`, `stateDot0`). -/
def parseFrac : List Char → Option (List Char × List Char)
  | [] => some ([], [])
  | c :: rest =>
    if c = '.' then
      match spanDigits rest with
      | ([], _) => none
      | (ds, r) => some ('.' :: ds, r)
    else some ([], c :: rest)

/-- The optional exponent (`stateE`, `stateESign`, `stateE0`). -/
def parseExp : List Char → Option (List Char × List Char)
  | [] => some ([], [])
  | e :: rest =>
    if e = 'e' ∨ e = 'E' then
      match rest with
      | [] => none
      | s :: r =>
        if s = '+' ∨ s = '-' then
          match spanDigits r with
          | ([], _) => none
          | (ds, r2) => some (e :: s :: ds, r2)
        else
          match spanDigits rest with
          | ([], _) => none
          | (ds, r2) => some (e :: ds, r2)
    else some ([], e :: rest)

/-- The optional minus sign of a number. -/
def parseSign : List Char → List Char × List Char
  | [] => ([], [])
  | c :: r => if c = '-' then (['-'], r) else ([], c :: r)

/-- A number literal: its text and the input after it. -/
def parseNumber (cs : List Char) : Option (String × List Char) :=
  match parseIntPart (parseSign cs).2 with
  | none => none
  | some (i, r1) =>
    match parseFrac r1 with
    | none => none
    | some (f, r2) =>
      match parseExp r2 with
      | none => none
      | some (e, r3) => some (String.mk ((parseSign cs).1 ++ i ++ f ++ e), r3)

mutual
/-- One JSON value at the head of the input (after white space), and the input
after it. -/
def parseValue : Nat → List Char → Option (JSON × List Char)
  | 0, _ => none
  | fuel + 1, cs =>
    match skipWs cs with
    | [] => none
    | c :: rest =>
      if c = '{' then
        match skipWs rest with
        | [] => none
        | d :: r =>
          if d = '}' then some (JSON.obj [], r)
          else
            match parseMembers fuel (d :: r) with
            | some (kvs, r2) => some (JSON.obj kvs, r2)
            | none => none
      else if c = '[' then
        match skipWs rest with
        | [] => none
        | d :: r =>
          if d = ']' then some (JSON.arr [], r)
          else
            match parseElements fuel (d :: r) with
            | some (vs, r2) => some (JSON.arr vs, r2)
            | none => none
      else if c = '"' then
        match parseStringBody (rest.length + 1) rest [] with
        | some (s, r) => some (JSON.str s, r)
        | none => none
      else if c = 't' then
        if rest.take 3 = ['r', 'u', 'e'] then some (JSON.bool true, rest.drop 3) else none
      else if c = 'f' then
        if rest.take 4 = ['a', 'l', 's', 'e'] then some (JSON.bool false, rest.drop 4) else none
      else if c = 'n' then
        if rest.take 3 = ['u', 'l', 'l'] then some (JSON.null, rest.drop 3) else none
      else
        match parseNumber (c :: rest) with
        | some (lit, r) => some (JSON.num lit, r)
        | none => none
/-- The elements of a non-empty array up to and including the closing bracket. -/
def parseElements : Nat → List Char → Option (List JSON × List Char)
  | 0, _ => none
  | fuel + 1, cs =>
    match parseValue fuel cs with
    | none => none
    | some (v, r) =>
      match skipWs r with
      | [] => none
      | c :: r2 =>
        if c = ',' then
          match parseElements fuel r2 with
          | some (vs, r3) => some (v :: vs, r3)
          | none => none
        else if c = ']' then some ([v], r2)
        else none
/-- The members of a non-empty object up to and including the closing brace. -/
def parseMembers : Nat → List Char → Option (List (String × JSON) × List Char)
  | 0, _ => none
  | fuel + 1, cs =>
    match skipWs cs with
    | [] => none
    | q :: rest =>
      if q = '"' then
        match parseStringBody (rest.length + 1) rest [] with
        | none => none
        | some (k, r) =>
          match skipWs r with
          | [] => none
          | colon :: r1 =>
            if colon = ':' then
              match parseValue fuel r1 with
              | none => none
              | some (v, r2) =>
                match skipWs r2 with
                | [] => none
                | c :: r3 =>
                  if c = ',' then
                    match parseMembers fuel r3 with
                    | some (kvs, r4) => some ((k, v) :: kvs, r4)
                    | none => none
                  else if c = '}' then some ([(k, v)], r3)
                  else none
            else none
      else none
end

/-- The first JSON value of a text and what follows it: what `Decoder.Decode`
reads from a stream. The fuel is more than the scanner can use
(`scanValue_complete`). Nesting is not limited, as in encoding/json before
Go 1.15; later versions reject a depth above 10000. -/
def scanValue (s : String) : Option (JSON × List Char) :=
  parseValue (2 * s.length + 2) s.data

/-- A whole text as one JSON value with white space around it only: what
`json.Unmarshal` accepts (`checkValid`). -/
def parseDocument (s : String) : Option JSON :=
  match scanValue s with
  | some (v, rest) => if skipWs rest = [] then some v else none
  | none => none

/-- Case folding of one character of a member name: ASCII letters, and the two
non-ASCII characters that fold to an ASCII letter (long s, Kelvin sign). -/
def foldChar (c : Char) : Char :=
  if 'a' ≤ c ∧ c ≤ 'z' then Char.ofNat (c.toNat - 32)
  else if c = Char.ofNat 0x17F then 'S'
  else if c = Char.ofNat 0x212A then 'K'
  else c

/-- Whether the object key selects the struct field of the given JSON name:
exact match, or a match under case folding. -/
def keyMatches (field key : String) : Bool :=
  key.data.map foldChar == field.data.map foldChar

/-! ## Errors, contexts, requests and responses -/

/-- Plain Go errors (everything but the API error). -/
inductive Err where
  | msg (s : String)
  | canceled
  | deadlineExceeded
  | syntaxError
  | unmarshalType
  | eof
  deriving DecidableEq, Repr

/-- A `context.Context` as seen at one instant: `Err()` is non-nil exactly when
`Done()` is closed. -/
structure Context where
  err : Option Err
  deriving DecidableEq, Repr

/-- The context `http.NewRequest` gives a request: `context.Background()`. -/
def Context.background : Context := ⟨none⟩

/-- A `url.Userinfo`. -/
structure Userinfo where
  username : String
  password : String
  passwordSet : Bool
  deriving DecidableEq, Repr

/-- A `url.URL`. -/
structure URL where
  Scheme : String := ""
  Opaque : String := ""
  User : Option Userinfo := none
  Host : String := ""
  Path : String := ""
  RawPath : String := ""
  ForceQuery : Bool := false
  RawQuery : String := ""
  Fragment : String := ""
  deriving DecidableEq, Repr

/-- The parts of an `http.Request` the client sets or reads. `Body` is the
payload (`none`: no body); `ctx` is the request's own context. -/
structure Request where
  Method : String
  URL : URL
  Header : List (String × String)
  Body : Option String
  ctx : Context
  deriving DecidableEq, Repr

/-- The method `Request.WithContext`: a copy of the request carrying `ctx`; the receiver is
left as it was. -/
def Request.WithContext (r : Request) (ctx : Context) : Request :=
  { r with ctx := ctx }

/-- A response body as a reader: the bytes `ReadAll` gets and the error, if
any, that ends the reading instead of EOF. -/
structure Body where
  data : String
  err : Option Err
  deriving DecidableEq, Repr

/-- The parts of an `http.Response` the client reads. `Body` is an interface
value (`none`: nil), `Request` a pointer. -/
structure Response where
  StatusCode : Int
  Body : Option Body
  Request : Option Request
  deriving DecidableEq, Repr

/-- The zero `http.Response`, as `reflect.New` allocates it. -/
def Response.zero : Response := ⟨0, none, none⟩

/-- What the `Response` pointer of an `ErrorResponse` points to: nothing, the
response handed to `CheckResponse`, or a response the JSON decoder allocated. -/
inductive RespRef where
  | nil
  | orig
  | fresh (r : Response)
  deriving DecidableEq, Repr

/-- The struct `ErrorResponse`: fields `Response *http.Response` (no tag, so its JSON
name is Response) and `ErrorMessage` (JSON name error_message). -/
structure ErrorResponse where
  Response : RespRef
  ErrorMessage : String
  deriving DecidableEq, Repr

/-- A Go `error` value returned by the client. -/
inductive Error where
  | plain (e : Err)
  | api (e : ErrorResponse)
  deriving DecidableEq, Repr

instance {ε α : Type} [DecidableEq ε] [DecidableEq α] : DecidableEq (Except ε α) :=
  fun a b =>
    match a, b with
    | Except.ok x, Except.ok y =>
      if h : x = y then isTrue (h ▸ rfl) else isFalse (fun e => h (Except.ok.inj e))
    | Except.error x, Except.error y =>
      if h : x = y then isTrue (h ▸ rfl) else isFalse (fun e => h (Except.error.inj e))
    | Except.ok _, Except.error _ => isFalse (fun e => Except.noConfusion e)
    | Except.error _, Except.ok _ => isFalse (fun e => Except.noConfusion e)

/-- A computation that returns or panics. -/
inductive Run (α : Type) where
  | ret (a : α)
  | panic
  deriving DecidableEq, Repr

/-- The decoding of a non-null JSON value into an existing `http.Response` by
reflection over its exported fields: the updated response, and whether a type
error was recorded. `http.Response` is declared in net/http, not in this
repository, so the client's functions take this as a parameter. -/
abbrev ResponseDecoder := JSON → Response → Response × Bool

/-! ## form3.go: CheckResponse -/

/-- The state of `json.Unmarshal(data, errorResponse)` while it walks the
members of the object: the two fields of the `ErrorResponse`, the response
`r` the error was created for, and whether a type error was saved. -/
structure ErrState where
  ref : RespRef
  msg : String
  orig : Response
  failed : Bool

/-- One object member stored into the `ErrorResponse`. A JSON null leaves a
string as it is and sets a pointer to nil; another value for the pointer
field is decoded into what the pointer points to, after allocating if it is
nil; a value of the wrong kind for the string is a type error and decoding
goes on; unknown keys are skipped. -/
def storeErrorMember (hr : ResponseDecoder) (st : ErrState) (kv : String × JSON) : ErrState :=
  if keyMatches "error_message" kv.1 then
    match kv.2 with
    | JSON.str s => { st with msg := s }
    | JSON.null => st
    | _ => { st with failed := true }
  else if keyMatches "Response" kv.1 then
    match kv.2 with
    | JSON.null => { st with ref := RespRef.nil }
    | v =>
      match st.ref with
      | RespRef.nil =>
        { st with ref := RespRef.fresh (hr v Response.zero).1,
                  failed := st.failed || (hr v Response.zero).2 }
      | RespRef.orig =>
        { st with orig := (hr v st.orig).1, failed := st.failed || (hr v st.orig).2 }
      | RespRef.fresh x =>
        { st with ref := RespRef.fresh (hr v x).1, failed := st.failed || (hr v x).2 }
  else st

/-- The call `json.Unmarshal(data, errorResponse)` with `errorResponse.Response == r`: the
`ErrorResponse` and `r` afterwards, and the error returned. A text that is
not JSON is a syntax error and changes nothing; null changes nothing; a value
that is not an object is a type error. -/
def unmarshalErrorResponse (hr : ResponseDecoder) (data : String) (e : ErrorResponse)
    (r : Response) : ErrorResponse × Response × Option Err :=
  match parseDocument data with
  | none => (e, r, some Err.syntaxError)
  | some (JSON.obj kvs) =>
    let st := kvs.foldl (storeErrorMember hr) ⟨e.Response, e.ErrorMessage, r, false⟩
    (⟨st.ref, st.msg⟩, st.orig, if st.failed then some Err.unmarshalType else none)
  | some JSON.null => (e, r, none)
  | some _ => (e, r, some Err.unmarshalType)

/-- The function `CheckResponse(r)`: the error returned (`none`: nil) and the response `r`
afterwards. The body is read only when the status is outside 200..299; reading a
nil body panics. -/
def CheckResponse (hr : ResponseDecoder) (r : Response) : Run (Response × Option ErrorResponse) :=
  if 200 ≤ r.StatusCode ∧ r.StatusCode ≤ 299 then Run.ret (r, none)
  else
    match r.Body with
    | none => Run.panic
    | some b =>
      let errorResponse : ErrorResponse := ⟨RespRef.orig, ""⟩
      if b.err = none ∧ b.data.length > 0 then
        match unmarshalErrorResponse hr b.data errorResponse r with
        | (e, r1, some _) => Run.ret (r1, some { e with ErrorMessage := b.data })
        | (e, r1, none) => Run.ret (r1, some e)
      else Run.ret (r, some errorResponse)

/-- The status code an `ErrorResponse` reports through its `Response` pointer
(`r.Response.StatusCode` in `Error()`); `none` when the pointer is nil, where
the dereference panics. `r` is the response handed to `CheckResponse`, as it
is afterwards. -/
def ErrorResponse.status (e : ErrorResponse) (r : Form3.Response) : Option Int :=
  match e.Response with
  | RespRef.nil => none
  | RespRef.orig => some r.StatusCode
  | RespRef.fresh x => some x.StatusCode

/-- The call `strconv.ParseInt(lit, 10, 64)` on a JSON number literal: an optional minus sign
and digits only, within the range of int64. -/
def parseInt64 (lit : String) : Option Int :=
  let digitsVal (ds : List Char) : Nat := ds.foldl (fun n c => n * 10 + (c.toNat - '0'.toNat)) 0
  match lit.data with
  | '-' :: ds =>
    if ds ≠ [] ∧ ds.all Char.isDigit ∧ digitsVal ds ≤ 2 ^ 63 then some (-(digitsVal ds : Int))
    else none
  | ds =>
    if ds ≠ [] ∧ ds.all Char.isDigit ∧ digitsVal ds < 2 ^ 63 then some (digitsVal ds : Int)
    else none

/-- One member stored into an `http.Response`, for the three fields of the
embedding: `StatusCode` takes an integer literal, `Body` and `Request` are set
to nil by null. -/
def storeResponseMember (st : Response × Bool) (kv : String × JSON) : Response × Bool :=
  if keyMatches "StatusCode" kv.1 then
    match kv.2 with
    | JSON.null => st
    | JSON.num lit =>
      match parseInt64 lit with
      | some n => ({ st.1 with StatusCode := n }, st.2)
      | none => (st.1, true)
    | _ => (st.1, true)
  else if keyMatches "Body" kv.1 then
    match kv.2 with
    | JSON.null => ({ st.1 with Body := none }, st.2)
    | _ => (st.1, true)
  else if keyMatches "Request" kv.1 then
    match kv.2 with
    | JSON.null => ({ st.1 with Request := none }, st.2)
    | _ => (st.1, true)
  else st

/-- A `ResponseDecoder` to evaluate the client on concrete bodies. It covers an
object whose members name the fields `StatusCode`, `Body` and `Request` (the ones
the client reads), the latter two with null; a value that is not an object is
a type error. Members for the other fields of `http.Response` are outside it
(they are skipped here). -/
def decodeResponseFields : ResponseDecoder := fun v r =>
  match v with
  | JSON.obj kvs => kvs.foldl storeResponseMember (r, false)
  | _ => (r, true)

/-! ## form3.go: Client.Do -/

/-- An `http.Client`, given by what the network answers to a request. -/
structure HTTPClient where
  roundTrip : Request → Except Err Response

/-- The method `http.Client.Do`: the transport first looks at the request's own context
and, if it is done, returns its error without a network call; otherwise the
request goes out. The second component lists the requests sent. -/
def HTTPClient.Do (h : HTTPClient) (req : Request) : Except Err Response × List Request :=
  match req.ctx.err with
  | some e => (Except.error e, [])
  | none => (h.roundTrip req, [req])

/-- The struct `Client`. -/
structure Client where
  httpClient : HTTPClient
  baseURL : URL

/-- What `json.NewDecoder(body).Decode` reads: the first JSON value of the
stream. A value that ends only at the end of the stream (a number, a literal,
a string) needs the stream to end with EOF rather than with a read error. -/
def decodeStream (b : Body) : Except Err JSON :=
  match scanValue b.data with
  | none =>
    match b.err with
    | some e => Except.error e
    | none => if skipWs b.data.data = [] then Except.error Err.eof else Except.error Err.syntaxError
  | some (JSON.obj kvs, _) => Except.ok (JSON.obj kvs)
  | some (JSON.arr vs, _) => Except.ok (JSON.arr vs)
  | some (v, rest) =>
    match rest, b.err with
    | [], some e => Except.error e
    | _, _ => Except.ok v

/-- What `Do` returns, the value `v` points to afterwards, and the requests that
went out on the network. -/
structure DoResult (τ : Type) where
  resp : Option Response
  err : Option Error
  v : τ
  sent : List Request

/-- The deferred `resp.Body.Close()`, run when `Do` returns: a call on a nil
interface panics. -/
def closeBody {α : Type} (resp : Response) (result : α) : Run α :=
  match resp.Body with
  | none => Run.panic
  | some _ => Run.ret result

/-- The method `Client.Do(ctx, req, v)`. `ctx` is `none` for a nil context. The target `v`
is given by its current value and, unless the interface is nil (`dec = none`),
by how a JSON value is decoded into it (the new value, and whether a type
error was recorded). -/
def Client.Do {τ : Type} (hr : ResponseDecoder) (c : Client) (ctx : Option Context)
    (req : Request) (dec : Option (JSON → τ → τ × Bool)) (v : τ) : Run (DoResult τ) :=
  match ctx with
  | none => Run.ret ⟨none, some (Error.plain (Err.msg "context should not be nil")), v, []⟩
  | some cx =>
    -- `req.WithContext(ctx)`: the copy it returns is dropped, `req` is unchanged
    let _dropped := req.WithContext cx
    match c.httpClient.Do req with
    | (Except.error e, sent) =>
      match cx.err with
      | some ce => Run.ret ⟨none, some (Error.plain ce), v, sent⟩
      | none => Run.ret ⟨none, some (Error.plain e), v, sent⟩
    | (Except.ok resp, sent) =>
      match CheckResponse hr resp with
      | Run.panic => Run.panic
      | Run.ret (resp1, some e) => closeBody resp1 ⟨some resp1, some (Error.api e), v, sent⟩
      | Run.ret (resp1, none) =>
        match dec with
        | none => closeBody resp1 ⟨some resp1, none, v, sent⟩
        | some d =>
          match resp1.Body with
          | none => Run.panic
          | some b =>
            match decodeStream b with
            | Except.error e => Run.ret ⟨some resp1, some (Error.plain e), v, sent⟩
            | Except.ok j =>
              Run.ret ⟨some resp1,
                if (d j v).2 then some (Error.plain Err.unmarshalType) else none, (d j v).1, sent⟩

/-! ## net/url -/

/-- The UTF-8 bytes of a character. -/
def utf8Bytes (c : Char) : List Nat :=
  let n := c.toNat
  if n < 0x80 then [n]
  else if n < 0x800 then [0xC0 + n / 64, 0x80 + n % 64]
  else if n < 0x10000 then [0xE0 + n / 4096, 0x80 + n / 64 % 64, 0x80 + n % 64]
  else [0xF0 + n / 262144, 0x80 + n / 4096 % 64, 0x80 + n / 64 % 64, 0x80 + n % 64]

/-- Whether a byte is a UTF-8 continuation byte. -/
def isCont (b : Nat) : Bool := 0x80 ≤ b && b < 0xC0

/-- The text a byte sequence encodes in UTF-8; `none` when it is not valid
UTF-8 (such a Go string has no counterpart in the embedding). -/
def utf8Decode : Nat → List Nat → Option (List Char)
  | 0, _ => none
  | _ + 1, [] => some []
  | fuel + 1, b0 :: rest =>
    if b0 < 0x80 then (utf8Decode fuel rest).map (List.cons (Char.ofNat b0))
    else if 0xC2 ≤ b0 ∧ b0 < 0xE0 then
      match rest with
      | b1 :: r =>
        if isCont b1 then
          (utf8Decode fuel r).map (List.cons (Char.ofNat ((b0 - 0xC0) * 64 + (b1 - 0x80))))
        else none
      | _ => none
    else if 0xE0 ≤ b0 ∧ b0 < 0xF0 then
      match rest with
      | b1 :: b2 :: r =>
        let n := (b0 - 0xE0) * 4096 + (b1 - 0x80) * 64 + (b2 - 0x80)
        if isCont b1 ∧ isCont b2 ∧ 0x800 ≤ n ∧ ¬ (0xD800 ≤ n ∧ n < 0xE000) then
          (utf8Decode fuel r).map (List.cons (Char.ofNat n))
        else none
      | _ => none
    else if 0xF0 ≤ b0 ∧ b0 < 0xF5 then
      match rest with
      | b1 :: b2 :: b3 :: r =>
        let n := (b0 - 0xF0) * 262144 + (b1 - 0x80) * 4096 + (b2 - 0x80) * 64 + (b3 - 0x80)
        if isCont b1 ∧ isCont b2 ∧ isCont b3 ∧ 0x10000 ≤ n ∧ n < 0x110000 then
          (utf8Decode fuel r).map (List.cons (Char.ofNat n))
        else none
      | _ => none
    else none

/-- The escaping modes of net/url. -/
inductive Encoding where
  | encodePath
  | encodePathSegment
  | encodeHost
  | encodeZone
  | encodeUserPassword
  | encodeQueryComponent
  | encodeFragment
  deriving DecidableEq, Repr

/-- The function `shouldEscape(c, mode)` for an ASCII character; every byte of a
non-ASCII character is escaped. -/
def shouldEscape (c : Char) (mode : Encoding) : Bool :=
  if c.isAlphanum then false
  else if (mode = Encoding.encodeHost ∨ mode = Encoding.encodeZone) ∧
      c ∈ ['!', '$', '&', '\'', '(', ')', '*', '+', ',', ';', '=', ':', '[', ']', '<', '>', '"']
    then false
  else if c ∈ ['-', '_', '.', '~'] then false
  else if c ∈ ['$', '&', '+', ',', '/', ':', ';', '=', '?', '@'] ∧
      mode = Encoding.encodePath then c = '?'
  else if c ∈ ['$', '&', '+', ',', '/', ':', ';', '=', '?', '@'] ∧
      mode = Encoding.encodePathSegment then c = '/' ∨ c = ';' ∨ c = ',' ∨ c = '?'
  else if c ∈ ['$', '&', '+', ',', '/', ':', ';', '=', '?', '@'] ∧
      mode = Encoding.encodeUserPassword then c = '@' ∨ c = '/' ∨ c = '?' ∨ c = ':'
  else if c ∈ ['$', '&', '+', ',', '/', ':', ';', '=', '?', '@'] ∧
      mode = Encoding.encodeQueryComponent then true
  else if c ∈ ['$', '&', '+', ',', '/', ':', ';', '=', '?', '@'] ∧
      mode = Encoding.encodeFragment then false
  else if mode = Encoding.encodeFragment ∧ c ∈ ['!', '(', ')', '*'] then false
  else true

/-- An upper-case hexadecimal digit. -/
def upperHex (n : Nat) : Char :=
  if n < 10 then Char.ofNat ('0'.toNat + n) else Char.ofNat ('A'.toNat + (n - 10))

/-- The function `escape(s, mode)`, character by character. -/
def escapeChars (mode : Encoding) : List Char → List Char
  | [] => []
  | c :: cs =>
    if c.toNat < 0x80 then
      if shouldEscape c mode then
        if c = ' ' ∧ mode = Encoding.encodeQueryComponent then '+' :: escapeChars mode cs
        else '%' :: upperHex (c.toNat / 16) :: upperHex (c.toNat % 16) :: escapeChars mode cs
      else c :: escapeChars mode cs
    else
      (utf8Bytes c).foldr (fun b out => '%' :: upperHex (b / 16) :: upperHex (b % 16) :: out)
        (escapeChars mode cs)

/-- The function `escape(s, mode)`. -/
def escape (s : String) (mode : Encoding) : String :=
  String.mk (escapeChars mode s.data)

/-- The first pass of `unescape`: every percent sign is followed by two
hexadecimal digits, and the host and zone modes admit only what they may
hold. -/
def unescapeCheck (mode : Encoding) : List Char → Bool
  | [] => true
  | '%' :: a :: b :: rest =>
    match hexVal a, hexVal b with
    | some x, some y =>
      if mode = Encoding.encodeHost ∧ x < 8 ∧ ¬ (a = '2' ∧ b = '5') then false
      else if mode = Encoding.encodeZone ∧ ¬ (a = '2' ∧ b = '5') ∧ x * 16 + y ≠ 32 ∧
          (x * 16 + y ≥ 0x80 ∨ shouldEscape (Char.ofNat (x * 16 + y)) Encoding.encodeHost)
        then false
      else unescapeCheck mode rest
    | _, _ => false
  | '%' :: _ => false
  | c :: rest =>
    if (mode = Encoding.encodeHost ∨ mode = Encoding.encodeZone) ∧ c.toNat < 0x80 ∧
        shouldEscape c Encoding.encodeHost then false
    else unescapeCheck mode rest

/-- The second pass of `unescape`: the bytes written. -/
def unescapeBytes (mode : Encoding) : List Char → List Nat
  | [] => []
  | '%' :: a :: b :: rest =>
    ((hexVal a).getD 0 * 16 + (hexVal b).getD 0) :: unescapeBytes mode rest
  | c :: rest =>
    if c = '+' ∧ mode = Encoding.encodeQueryComponent then 32 :: unescapeBytes mode rest
    else utf8Bytes c ++ unescapeBytes mode rest

/-- The function `unescape(s, mode)`. A text without a percent sign (and, in a query
component, without a plus sign) is returned as it is. -/
def unescape (s : String) (mode : Encoding) : Except Err String :=
  if unescapeCheck mode s.data = false then Except.error (Err.msg "invalid URL escape")
  else if '%' ∉ s.data ∧ ¬ (mode = Encoding.encodeQueryComponent ∧ '+' ∈ s.data) then Except.ok s
  else
    match utf8Decode ((unescapeBytes mode s.data).length + 1) (unescapeBytes mode s.data) with
    | some cs => Except.ok (String.mk cs)
    | none => Except.error (Err.msg "unescaped bytes are not UTF-8 text")

/-- The function `split(s, sep, true)`: the text before the first `sep` and the text
after it; all of `s` and nothing when there is no `sep`. -/
def cutFirst (sep : Char) : List Char → List Char × List Char
  | [] => ([], [])
  | c :: cs => if c = sep then ([], cs) else (c :: (cutFirst sep cs).1, (cutFirst sep cs).2)

/-- The function `split(s, sep, false)`: the text before the first `sep` and the text
from it on. -/
def breakFirst (sep : Char) : List Char → List Char × List Char
  | [] => ([], [])
  | c :: cs =>
    if c = sep then ([], c :: cs) else (c :: (breakFirst sep cs).1, (breakFirst sep cs).2)

/-- The text before the last `sep` and the text after it (`strings.LastIndex`),
`none` when there is no `sep`. -/
def cutLast (sep : Char) : List Char → Option (List Char × List Char)
  | [] => none
  | c :: cs =>
    match cutLast sep cs with
    | some (a, b) => some (c :: a, b)
    | none => if c = sep then some ([], cs) else none

/-- The scan of `getscheme` from a position on: `first` tells whether it is the start
of the text, `acc` holds the characters passed (reversed). The result is the
scheme and what follows its colon, or `none` when the text has no scheme. -/
def getschemeScan : Bool → List Char → List Char → Except Err (Option (List Char × List Char))
  | _, _, [] => Except.ok none
  | first, acc, c :: cs =>
    if c.isAlpha then getschemeScan false (c :: acc) cs
    else if c.isDigit ∨ c = '+' ∨ c = '-' ∨ c = '.' then
      if first then Except.ok none else getschemeScan false (c :: acc) cs
    else if c = ':' then
      if first then Except.error (Err.msg "missing protocol scheme")
      else Except.ok (some (acc.reverse, cs))
    else Except.ok none

/-- The function `getscheme(rawurl)`: the scheme and the rest, or no scheme and the whole
text. -/
def getscheme (raw : List Char) : Except Err (List Char × List Char) :=
  match getschemeScan true [] raw with
  | Except.error e => Except.error e
  | Except.ok none => Except.ok ([], raw)
  | Except.ok (some found) => Except.ok found

/-- The function `validOptionalPort`: empty, or a colon and digits. -/
def validOptionalPort : List Char → Bool
  | [] => true
  | c :: cs => c = ':' && cs.all Char.isDigit

/-- The function `validUserinfo`. -/
def validUserinfo (s : List Char) : Bool :=
  s.all (fun c => c.isAlphanum ||
    c ∈ ['-', '.', '_', ':', '~', '!', '$', '&', '\'', '(', ')', '*', '+', ',', ';', '=', '%', '@'])

/-- Splits a text at the first occurrence of the escape `%25`: what is before
it and what is from it on (`strings.Index(s, "%25")`). -/
def breakZone : List Char → Option (List Char × List Char)
  | [] => none
  | c :: cs =>
    match c, cs with
    | '%', '2' :: '5' :: _ => some ([], c :: cs)
    | _, _ =>
      match breakZone cs with
      | some (a, b) => some (c :: a, b)
      | none => none

/-- The function `parseHost(host)`. -/
def parseHost (host : List Char) : Except Err String :=
  match host with
  | '[' :: _ =>
    match cutLast ']' host with
    | none => Except.error (Err.msg "missing ']' in host")
    | some (inner, colonPort) =>
      if validOptionalPort colonPort = false then
        Except.error (Err.msg "invalid port after host")
      else
        match breakZone inner with
        | some (h1, zone) =>
          match unescape (String.mk h1) Encoding.encodeHost,
                unescape (String.mk zone) Encoding.encodeZone,
                unescape (String.mk (']' :: colonPort)) Encoding.encodeHost with
          | Except.ok a, Except.ok b, Except.ok c => Except.ok (a ++ b ++ c)
          | Except.error e, _, _ => Except.error e
          | _, Except.error e, _ => Except.error e
          | _, _, Except.error e => Except.error e
        | none => unescape (String.mk host) Encoding.encodeHost
  | _ =>
    match cutLast ':' host with
    | some (_, port) =>
      if validOptionalPort (':' :: port) = false then
        Except.error (Err.msg "invalid port after host")
      else unescape (String.mk host) Encoding.encodeHost
    | none => unescape (String.mk host) Encoding.encodeHost

/-- The function `parseAuthority(authority)`: the user information, if any, and the
host. -/
def parseAuthority (authority : List Char) : Except Err (Option Userinfo × String) :=
  match cutLast '@' authority with
  | none =>
    match parseHost authority with
    | Except.ok h => Except.ok (none, h)
    | Except.error e => Except.error e
  | some (userinfo, hostPart) =>
    match parseHost hostPart with
    | Except.error e => Except.error e
    | Except.ok h =>
      if validUserinfo userinfo = false then Except.error (Err.msg "net/url: invalid userinfo")
      else if ':' ∉ userinfo then
        match unescape (String.mk userinfo) Encoding.encodeUserPassword with
        | Except.ok u => Except.ok (some ⟨u, "", false⟩, h)
        | Except.error e => Except.error e
      else
        match unescape (String.mk (cutFirst ':' userinfo).1) Encoding.encodeUserPassword,
              unescape (String.mk (cutFirst ':' userinfo).2) Encoding.encodeUserPassword with
        | Except.ok u, Except.ok pw => Except.ok (some ⟨u, pw, true⟩, h)
        | Except.error e, _ => Except.error e
        | _, Except.error e => Except.error e

/-- The method `URL.setPath(p)`: `Path` is the unescaped text; `RawPath` is kept only when
the default escaping of `Path` differs from `p`. -/
def URL.setPath (u : URL) (p : String) : Except Err URL :=
  match unescape p Encoding.encodePath with
  | Except.error e => Except.error e
  | Except.ok path =>
    if escape path Encoding.encodePath = p then Except.ok { u with Path := path, RawPath := "" }
    else Except.ok { u with Path := path, RawPath := p }

/-- The part of `parse(rawurl, false)` after the query is split off: `url` holds the
scheme and the query, `rest` is what is left between them. -/
def parseAfterQuery (url : URL) (rest : List Char) : Except Err URL :=
  if rest.head? ≠ some '/' ∧ url.Scheme ≠ "" then
    Except.ok { url with Opaque := String.mk rest }
  else if rest.head? ≠ some '/' ∧ ':' ∈ (cutFirst '/' rest).1 then
    Except.error (Err.msg "first path segment in URL cannot contain colon")
  else
    match rest with
    | '/' :: '/' :: afterSlashes =>
      if url.Scheme ≠ "" ∨ afterSlashes.head? ≠ some '/' then
        match parseAuthority (breakFirst '/' afterSlashes).1 with
        | Except.error e => Except.error e
        | Except.ok (user, host) =>
          URL.setPath { url with User := user, Host := host }
            (String.mk (breakFirst '/' afterSlashes).2)
      else URL.setPath url (String.mk rest)
    | _ => URL.setPath url (String.mk rest)

/-- The function `parse(rawurl, false)`: a URL without its fragment. -/
def parseNoFragment (raw : List Char) : Except Err URL :=
  if raw.any (fun c => c.toNat < 0x20 || c.toNat = 0x7F) then
    Except.error (Err.msg "net/url: invalid control character in URL")
  else if raw = ['*'] then Except.ok { Path := "*" }
  else
    match getscheme raw with
    | Except.error e => Except.error e
    | Except.ok (scheme, afterScheme) =>
      if afterScheme.getLast? = some '?' ∧ afterScheme.count '?' = 1 then
        parseAfterQuery { Scheme := String.mk (scheme.map Char.toLower), ForceQuery := true }
          afterScheme.dropLast
      else
        parseAfterQuery
          { Scheme := String.mk (scheme.map Char.toLower),
            RawQuery := String.mk (cutFirst '?' afterScheme).2 }
          (cutFirst '?' afterScheme).1

/-- The function `url.Parse(rawurl)`. -/
def urlParse (rawurl : String) : Except Err URL :=
  match parseNoFragment (cutFirst '#' rawurl.data).1 with
  | Except.error e => Except.error e
  | Except.ok url =>
    if (cutFirst '#' rawurl.data).2 = [] then Except.ok url
    else
      match unescape (String.mk (cutFirst '#' rawurl.data).2) Encoding.encodeFragment with
      | Except.ok f => Except.ok { url with Fragment := f }
      | Except.error e => Except.error e

/-- The function `validEncodedPath(s)`. -/
def validEncodedPath (s : String) : Bool :=
  s.data.all (fun c =>
    c ∈ ['!', '$', '&', '\'', '(', ')', '*', '+', ',', ';', '=', ':', '@', '[', ']', '%'] ||
      (c.toNat < 0x80 && !shouldEscape c Encoding.encodePath))

/-- The method `URL.EscapedPath()`. -/
def URL.EscapedPath (u : URL) : String :=
  if u.RawPath ≠ "" ∧ validEncodedPath u.RawPath = true ∧
      unescape u.RawPath Encoding.encodePath = Except.ok u.Path then u.RawPath
  else if u.Path = "*" then "*"
  else escape u.Path Encoding.encodePath

/-- The method `Userinfo.String()`. -/
def userinfoString (ui : Userinfo) : String :=
  if ui.passwordSet then
    escape ui.username Encoding.encodeUserPassword ++ ":" ++
      escape ui.password Encoding.encodeUserPassword
  else escape ui.username Encoding.encodeUserPassword

/-- The method `URL.String()`. -/
def urlString (u : URL) : String :=
  let scheme : String := if u.Scheme ≠ "" then u.Scheme ++ ":" else ""
  let body : String :=
    if u.Opaque ≠ "" then scheme ++ u.Opaque
    else
      let authority : String :=
        if u.Scheme ≠ "" ∨ u.Host ≠ "" ∨ u.User ≠ none then
          (if u.Host ≠ "" ∨ u.Path ≠ "" ∨ u.User ≠ none then "//" else "") ++
          (match u.User with
            | some ui => userinfoString ui ++ "@"
            | none => "") ++
          (if u.Host ≠ "" then escape u.Host Encoding.encodeHost else "")
        else ""
      let path := u.EscapedPath
      let slash : String := if path.data.head? ≠ none ∧ path.data.head? ≠ some '/' ∧ u.Host ≠ ""
        then "/" else ""
      let dot : String :=
        if scheme ++ authority ++ slash = "" ∧ ':' ∈ (cutFirst '/' path.data).1 then "./"
        else ""
      scheme ++ authority ++ slash ++ dot ++ path
  let query : String := if u.ForceQuery = true ∨ u.RawQuery ≠ "" then "?" ++ u.RawQuery else ""
  let fragment : String :=
    if u.Fragment ≠ "" then "#" ++ escape u.Fragment Encoding.encodeFragment else ""
  body ++ query ++ fragment

/-- The function `strings.Split(s, "/")`. -/
def splitSlash : List Char → List (List Char)
  | [] => [[]]
  | c :: cs =>
    if c = '/' then [] :: splitSlash cs
    else
      match splitSlash cs with
      | seg :: segs => (c :: seg) :: segs
      | [] => [[c]]

/-- The function `strings.Join(segs, "/")`. -/
def joinSlash : List (List Char) → List Char
  | [] => []
  | [seg] => seg
  | seg :: segs => seg ++ '/' :: joinSlash segs

/-- The loop of `resolvePath` over the path elements: a dot is dropped, two dots
drop the element before, anything else is kept (`dst` is kept reversed). -/
def removeDots (dst : List (List Char)) : List (List Char) → List (List Char)
  | [] => dst.reverse
  | seg :: segs =>
    if seg = ['.'] then removeDots dst segs
    else if seg = ['.', '.'] then removeDots dst.tail segs
    else removeDots (seg :: dst) segs

/-- The function `resolvePath(base, ref)`. -/
def resolvePath (base ref : String) : String :=
  let full : List Char :=
    if ref = "" then base.data
    else if ref.data.head? ≠ some '/' then
      (match cutLast '/' base.data with
        | some (dir, _) => dir ++ ['/']
        | none => []) ++ ref.data
    else ref.data
  if full = [] then ""
  else
    let src := splitSlash full
    let dst := removeDots [] src
    let dst := if src.getLast? = some ['.'] ∨ src.getLast? = some ['.', '.'] then dst ++ [[]]
      else dst
    let joined := joinSlash dst
    String.mk ('/' :: (if joined.head? = some '/' then joined.tail else joined))

/-- Sets the path as `setPath` does where the caller ignores its error (the URL
is left as it was then). -/
def URL.setPathIgnoringError (u : URL) (p : String) : URL :=
  match u.setPath p with
  | Except.ok v => v
  | Except.error _ => u

/-- The method `URL.ResolveReference(ref)`. -/
def URL.ResolveReference (u ref : URL) : URL :=
  let url : URL := if ref.Scheme = "" then { ref with Scheme := u.Scheme } else ref
  if ref.Scheme ≠ "" ∨ ref.Host ≠ "" ∨ ref.User ≠ none then
    url.setPathIgnoringError (resolvePath ref.EscapedPath "")
  else if ref.Opaque ≠ "" then { url with User := none, Host := "", Path := "" }
  else
    let url : URL :=
      if ref.Path = "" ∧ ref.RawQuery = "" then
        { url with RawQuery := u.RawQuery,
                   Fragment := if ref.Fragment = "" then u.Fragment else url.Fragment }
      else url
    ({ url with Host := u.Host, User := u.User } : URL).setPathIgnoringError
      (resolvePath u.EscapedPath ref.EscapedPath)

/-- The method `URL.Parse(ref)`: parses `ref` and resolves it against `u`. -/
def URL.Parse (u : URL) (ref : String) : Except Err URL :=
  match urlParse ref with
  | Except.error e => Except.error e
  | Except.ok refurl => Except.ok (u.ResolveReference refurl)

/-! ## encoding/json: the encoder -/

/-- The formatting of an integer in decimal (`strconv.AppendInt`, the verb `%d`). -/
def fmtInt (i : Int) : String :=
  match i with
  | Int.ofNat n => String.mk (Nat.toDigits 10 n)
  | Int.negSucc n => String.mk ('-' :: Nat.toDigits 10 (n + 1))

/-- A lower-case hexadecimal digit. -/
def lowerHex (n : Nat) : Char :=
  if n < 10 then Char.ofNat ('0'.toNat + n) else Char.ofNat ('a'.toNat + (n - 10))

/-- One character of a string as the encoder writes it, with HTML escaping on
(the default of `json.NewEncoder`). -/
def renderChar (c : Char) : List Char :=
  if c = '"' then ['\\', '"']
  else if c = '\\' then ['\\', '\\']
  else if c = '\n' then ['\\', 'n']
  else if c = '\r' then ['\\', 'r']
  else if c = '\t' then ['\\', 't']
  else if c.toNat < 0x20 ∨ c = '<' ∨ c = '>' ∨ c = '&' then
    ['\\', 'u', '0', '0', lowerHex (c.toNat / 16), lowerHex (c.toNat % 16)]
  else if c.toNat = 0x2028 then ['\\', 'u', '2', '0', '2', '8']
  else if c.toNat = 0x2029 then ['\\', 'u', '2', '0', '2', '9']
  else [c]

/-- A string literal as the encoder writes it. -/
def renderString (s : String) : List Char :=
  '"' :: (s.data.foldr (fun c out => renderChar c ++ out) ['"'])

mutual
/-- The compact text of a JSON value. -/
def render : JSON → List Char
  | JSON.null => ['n', 'u', 'l', 'l']
  | JSON.bool true => ['t', 'r', 'u', 'e']
  | JSON.bool false => ['f', 'a', 'l', 's', 'e']
  | JSON.num lit => lit.data
  | JSON.str s => renderString s
  | JSON.arr [] => ['[', ']']
  | JSON.arr (v :: vs) => '[' :: (render v ++ renderElements vs)
  | JSON.obj [] => ['{', '}']
  | JSON.obj ((k, v) :: kvs) => '{' :: (renderString k ++ ':' :: (render v ++ renderMembers kvs))
/-- The further elements of an array and its closing bracket. -/
def renderElements : List JSON → List Char
  | [] => [']']
  | v :: vs => ',' :: (render v ++ renderElements vs)
/-- The further members of an object and its closing brace. -/
def renderMembers : List (String × JSON) → List Char
  | [] => ['}']
  | (k, v) :: kvs => ',' :: (renderString k ++ ':' :: (render v ++ renderMembers kvs))
end

/-! ## accounts.go: the account types and their JSON form -/

/-- The struct `AccountAttributes`. -/
structure AccountAttributes where
  Country : String
  BaseCurrency : String
  AccountNumber : String
  BankID : String
  BankIDCode : String
  Bic : String
  Iban : String
  CustomerID : String
  Name : Option (List String)
  AlternativeNames : Option (List String)
  AccountClassification : String
  JointAccount : Bool
  AccountMatchingOptOut : Bool
  SecondaryIdentification : String
  Switched : Bool
  Status : String
  deriving DecidableEq, Repr

/-- The struct `AccountData` (its field `Type` is `Type_` here). -/
structure AccountData where
  Type_ : String
  ID : String
  OrganisationID : String
  Version : Int
  Attributes : Option AccountAttributes
  CreatedOn : String
  ModifiedOn : String
  deriving DecidableEq, Repr

/-- The struct `Account`. -/
structure Account where
  Data : Option AccountData
  deriving DecidableEq, Repr

/-- The struct `AccountList`. -/
structure AccountList where
  Data : Option (List (Option AccountData))
  deriving DecidableEq, Repr

/-- The zero value of `AccountAttributes`. -/
def AccountAttributes.zero : AccountAttributes :=
  ⟨"", "", "", "", "", "", "", "", none, none, "", false, false, "", false, ""⟩

/-- The zero value of `AccountData`. -/
def AccountData.zero : AccountData := ⟨"", "", "", 0, none, "", ""⟩

/-- A string member with the omitempty option. -/
def omitEmptyStr (name value : String) : List (String × JSON) :=
  if value = "" then [] else [(name, JSON.str value)]

/-- A boolean member with the omitempty option. -/
def omitEmptyBool (name : String) (value : Bool) : List (String × JSON) :=
  if value = false then [] else [(name, JSON.bool value)]

/-- A `[]string` as JSON: null for the nil slice, an array otherwise. -/
def encodeStrings : Option (List String) → JSON
  | none => JSON.null
  | some xs => JSON.arr (xs.map JSON.str)

/-- A `[]string` member with the omitempty option: left out when the slice has
length zero, nil or not. -/
def omitEmptyStrings (name : String) (value : Option (List String)) : List (String × JSON) :=
  match value with
  | none => []
  | some [] => []
  | some (x :: xs) => [(name, JSON.arr ((x :: xs).map JSON.str))]

/-- The JSON form of `AccountAttributes`, by its struct tags. -/
def encodeAttributes (a : AccountAttributes) : JSON :=
  JSON.obj (
    [("country", JSON.str a.Country)] ++
    omitEmptyStr "base_currency" a.BaseCurrency ++
    omitEmptyStr "account_number" a.AccountNumber ++
    omitEmptyStr "bank_id" a.BankID ++
    omitEmptyStr "bank_id_code" a.BankIDCode ++
    omitEmptyStr "bic" a.Bic ++
    omitEmptyStr "iban" a.Iban ++
    omitEmptyStr "customer_id" a.CustomerID ++
    [("name", encodeStrings a.Name)] ++
    omitEmptyStrings "alternative_names" a.AlternativeNames ++
    omitEmptyStr "account_classification" a.AccountClassification ++
    omitEmptyBool "joint_account" a.JointAccount ++
    omitEmptyBool "account_matching_opt_out" a.AccountMatchingOptOut ++
    omitEmptyStr "secondary_identification" a.SecondaryIdentification ++
    omitEmptyBool "switched" a.Switched ++
    [("status", JSON.str a.Status)])

/-- The JSON form of a `*AccountAttributes`. -/
def encodeAttributesPtr : Option AccountAttributes → JSON
  | none => JSON.null
  | some a => encodeAttributes a

/-- The JSON form of `AccountData`, by its struct tags. -/
def encodeAccountData (d : AccountData) : JSON :=
  JSON.obj (
    [("type", JSON.str d.Type_),
     ("id", JSON.str d.ID),
     ("organisation_id", JSON.str d.OrganisationID),
     ("version", JSON.num (fmtInt d.Version)),
     ("attributes", encodeAttributesPtr d.Attributes)] ++
    omitEmptyStr "created_on" d.CreatedOn ++
    omitEmptyStr "modified_on" d.ModifiedOn)

/-- The JSON form of a `*AccountData`. -/
def encodeAccountDataPtr : Option AccountData → JSON
  | none => JSON.null
  | some d => encodeAccountData d

/-- The JSON form of `Account`. -/
def encodeAccount (a : Account) : JSON :=
  JSON.obj [("data", encodeAccountDataPtr a.Data)]

/-- The JSON form of `AccountList`. -/
def encodeAccountList (l : AccountList) : JSON :=
  JSON.obj [("data", match l.Data with
    | none => JSON.null
    | some ds => JSON.arr (ds.map encodeAccountDataPtr))]

/-- The call `json.Marshal` on a `*Account` (a nil pointer is written as null). -/
def marshalAccount : Option Account → Except Err String
  | none => Except.ok (String.mk (render JSON.null))
  | some a => Except.ok (String.mk (render (encodeAccount a)))

/-- A JSON value stored into a string. -/
def decodeString (v : JSON) (cur : String) : String × Bool :=
  match v with
  | JSON.str s => (s, false)
  | JSON.null => (cur, false)
  | _ => (cur, true)

/-- A JSON value stored into a bool. -/
def decodeBool (v : JSON) (cur : Bool) : Bool × Bool :=
  match v with
  | JSON.bool b => (b, false)
  | JSON.null => (cur, false)
  | _ => (cur, true)

/-- A JSON value stored into an int. -/
def decodeInt (v : JSON) (cur : Int) : Int × Bool :=
  match v with
  | JSON.num lit =>
    match parseInt64 lit with
    | some n => (n, false)
    | none => (cur, true)
  | JSON.null => (cur, false)
  | _ => (cur, true)

/-- The elements of a JSON array stored into the elements of a slice, from the
first on: the i-th value goes into the i-th element there is, and into a zero
element beyond the length (a backing array that still holds older elements
beyond the length is not modelled). -/
def decodeElements {α : Type} (zero : α) (dec : JSON → α → α × Bool) :
    List JSON → List α → List α × Bool
  | [], _ => ([], false)
  | v :: vs, [] =>
    ((dec v zero).1 :: (decodeElements zero dec vs []).1,
      (dec v zero).2 || (decodeElements zero dec vs []).2)
  | v :: vs, x :: xs =>
    ((dec v x).1 :: (decodeElements zero dec vs xs).1,
      (dec v x).2 || (decodeElements zero dec vs xs).2)

/-- A JSON value stored into a slice: null makes it nil, an array gives it the
length of the array (the empty array gives the empty non-nil slice). -/
def decodeSlice {α : Type} (zero : α) (dec : JSON → α → α × Bool) (v : JSON)
    (cur : Option (List α)) : Option (List α) × Bool :=
  match v with
  | JSON.null => (none, false)
  | JSON.arr vs => (some (decodeElements zero dec vs (cur.getD [])).1,
      (decodeElements zero dec vs (cur.getD [])).2)
  | _ => (cur, true)

/-- A JSON value stored into a pointer to a struct: null makes it nil; any
other value is decoded into what it points to, allocated first if it is nil. -/
def decodePtr {α : Type} (zero : α) (dec : JSON → α → α × Bool) (v : JSON)
    (cur : Option α) : Option α × Bool :=
  match v with
  | JSON.null => (none, false)
  | _ => (some (dec v (cur.getD zero)).1, (dec v (cur.getD zero)).2)

/-- One object member stored into an `AccountAttributes`. -/
def storeAttributesMember (st : AccountAttributes × Bool) (kv : String × JSON) :
    AccountAttributes × Bool :=
  let a := st.1
  if keyMatches "country" kv.1 then
    ({ a with Country := (decodeString kv.2 a.Country).1 }, st.2 || (decodeString kv.2 a.Country).2)
  else if keyMatches "base_currency" kv.1 then
    ({ a with BaseCurrency := (decodeString kv.2 a.BaseCurrency).1 },
      st.2 || (decodeString kv.2 a.BaseCurrency).2)
  else if keyMatches "account_number" kv.1 then
    ({ a with AccountNumber := (decodeString kv.2 a.AccountNumber).1 },
      st.2 || (decodeString kv.2 a.AccountNumber).2)
  else if keyMatches "bank_id" kv.1 then
    ({ a with BankID := (decodeString kv.2 a.BankID).1 }, st.2 || (decodeString kv.2 a.BankID).2)
  else if keyMatches "bank_id_code" kv.1 then
    ({ a with BankIDCode := (decodeString kv.2 a.BankIDCode).1 },
      st.2 || (decodeString kv.2 a.BankIDCode).2)
  else if keyMatches "bic" kv.1 then
    ({ a with Bic := (decodeString kv.2 a.Bic).1 }, st.2 || (decodeString kv.2 a.Bic).2)
  else if keyMatches "iban" kv.1 then
    ({ a with Iban := (decodeString kv.2 a.Iban).1 }, st.2 || (decodeString kv.2 a.Iban).2)
  else if keyMatches "customer_id" kv.1 then
    ({ a with CustomerID := (decodeString kv.2 a.CustomerID).1 },
      st.2 || (decodeString kv.2 a.CustomerID).2)
  else if keyMatches "name" kv.1 then
    ({ a with Name := (decodeSlice "" decodeString kv.2 a.Name).1 },
      st.2 || (decodeSlice "" decodeString kv.2 a.Name).2)
  else if keyMatches "alternative_names" kv.1 then
    ({ a with AlternativeNames := (decodeSlice "" decodeString kv.2 a.AlternativeNames).1 },
      st.2 || (decodeSlice "" decodeString kv.2 a.AlternativeNames).2)
  else if keyMatches "account_classification" kv.1 then
    ({ a with AccountClassification := (decodeString kv.2 a.AccountClassification).1 },
      st.2 || (decodeString kv.2 a.AccountClassification).2)
  else if keyMatches "joint_account" kv.1 then
    ({ a with JointAccount := (decodeBool kv.2 a.JointAccount).1 },
      st.2 || (decodeBool kv.2 a.JointAccount).2)
  else if keyMatches "account_matching_opt_out" kv.1 then
    ({ a with AccountMatchingOptOut := (decodeBool kv.2 a.AccountMatchingOptOut).1 },
      st.2 || (decodeBool kv.2 a.AccountMatchingOptOut).2)
  else if keyMatches "secondary_identification" kv.1 then
    ({ a with SecondaryIdentification := (decodeString kv.2 a.SecondaryIdentification).1 },
      st.2 || (decodeString kv.2 a.SecondaryIdentification).2)
  else if keyMatches "switched" kv.1 then
    ({ a with Switched := (decodeBool kv.2 a.Switched).1 }, st.2 || (decodeBool kv.2 a.Switched).2)
  else if keyMatches "status" kv.1 then
    ({ a with Status := (decodeString kv.2 a.Status).1 }, st.2 || (decodeString kv.2 a.Status).2)
  else st

/-- A JSON value stored into a struct: the members of an object one by one,
nothing for null, a type error for any other value. -/
def decodeStruct {α : Type} (store : α × Bool → String × JSON → α × Bool) (v : JSON) (cur : α) :
    α × Bool :=
  match v with
  | JSON.obj kvs => kvs.foldl store (cur, false)
  | JSON.null => (cur, false)
  | _ => (cur, true)

/-- A JSON value decoded into an `AccountAttributes`. -/
def decodeAttributes : JSON → AccountAttributes → AccountAttributes × Bool :=
  decodeStruct storeAttributesMember

/-- One object member stored into an `AccountData`. -/
def storeAccountDataMember (st : AccountData × Bool) (kv : String × JSON) : AccountData × Bool :=
  let d := st.1
  if keyMatches "type" kv.1 then
    ({ d with Type_ := (decodeString kv.2 d.Type_).1 }, st.2 || (decodeString kv.2 d.Type_).2)
  else if keyMatches "id" kv.1 then
    ({ d with ID := (decodeString kv.2 d.ID).1 }, st.2 || (decodeString kv.2 d.ID).2)
  else if keyMatches "organisation_id" kv.1 then
    ({ d with OrganisationID := (decodeString kv.2 d.OrganisationID).1 },
      st.2 || (decodeString kv.2 d.OrganisationID).2)
  else if keyMatches "version" kv.1 then
    ({ d with Version := (decodeInt kv.2 d.Version).1 }, st.2 || (decodeInt kv.2 d.Version).2)
  else if keyMatches "attributes" kv.1 then
    ({ d with Attributes :=
        (decodePtr AccountAttributes.zero decodeAttributes kv.2 d.Attributes).1 },
      st.2 || (decodePtr AccountAttributes.zero decodeAttributes kv.2 d.Attributes).2)
  else if keyMatches "created_on" kv.1 then
    ({ d with CreatedOn := (decodeString kv.2 d.CreatedOn).1 },
      st.2 || (decodeString kv.2 d.CreatedOn).2)
  else if keyMatches "modified_on" kv.1 then
    ({ d with ModifiedOn := (decodeString kv.2 d.ModifiedOn).1 },
      st.2 || (decodeString kv.2 d.ModifiedOn).2)
  else st

/-- A JSON value decoded into an `AccountData`. -/
def decodeAccountData : JSON → AccountData → AccountData × Bool :=
  decodeStruct storeAccountDataMember

/-- A JSON value decoded into a `*AccountData`. -/
def decodeAccountDataPtr : JSON → Option AccountData → Option AccountData × Bool :=
  decodePtr AccountData.zero decodeAccountData

/-- One object member stored into an `Account`. -/
def storeAccountMember (st : Account × Bool) (kv : String × JSON) : Account × Bool :=
  if keyMatches "data" kv.1 then
    (⟨(decodeAccountDataPtr kv.2 st.1.Data).1⟩, st.2 || (decodeAccountDataPtr kv.2 st.1.Data).2)
  else st

/-- A JSON value decoded into the `Account` that `acc` points to, as `Do` does for
`Create` and `Fetch` (`v` is `acc`, a `*Account`). -/
def decodeAccount : JSON → Account → Account × Bool :=
  decodeStruct storeAccountMember

/-- One object member stored into an `AccountList`. -/
def storeAccountListMember (st : AccountList × Bool) (kv : String × JSON) : AccountList × Bool :=
  if keyMatches "data" kv.1 then
    (⟨(decodeSlice none decodeAccountDataPtr kv.2 st.1.Data).1⟩,
      st.2 || (decodeSlice none decodeAccountDataPtr kv.2 st.1.Data).2)
  else st

/-- A JSON value decoded into an `AccountList`. -/
def decodeAccountList : JSON → AccountList → AccountList × Bool :=
  decodeStruct storeAccountListMember

/-- A JSON value decoded through `&acc`, as `Do` does for `List` (`v` is a
`**AccountList`): the pointer `acc` itself is what null sets to nil. -/
def decodeAccountListPtr : JSON → Option AccountList → Option AccountList × Bool :=
  decodePtr ⟨none⟩ decodeAccountList

/-! ## form3.go: NewClient and NewRequest -/

/-- The constant `applicationJson`. -/
def applicationJson : String := "application/json; charset=utf-8"

/-- The constant `accountsPath`. -/
def accountsPath : String := "organisation/accounts"

/-- The function `strings.HasSuffix`. -/
def hasSuffix (s suffix : String) : Bool := suffix.data.isSuffixOf s.data

/-- The function `NewClient(baseURL, httpClient)`; `DefaultClient` stands for
`http.DefaultClient`, used when `httpClient` is nil. -/
def NewClient (DefaultClient : HTTPClient) (baseURL : String) (httpClient : Option HTTPClient) :
    Except Err Client :=
  let httpClient := httpClient.getD DefaultClient
  match urlParse baseURL with
  | Except.error err => Except.error err
  | Except.ok parsedURL =>
    let parsedURL : URL :=
      if !hasSuffix parsedURL.Path "/" then { parsedURL with Path := parsedURL.Path ++ "/" }
      else parsedURL
    let parsedURL : URL :=
      if !hasSuffix parsedURL.Path "/v1/" then { parsedURL with Path := parsedURL.Path ++ "v1/" }
      else parsedURL
    Except.ok ⟨httpClient, parsedURL⟩

/-- The characters of an HTTP token (`httpguts.IsTokenRune`). -/
def isTokenChar (c : Char) : Bool :=
  c.isAlphanum ||
    c ∈ ['!', '#', '$', '%', '&', '\'', '*', '+', '-', '.', '^', '_', (Char.ofNat 96), '|', '~']

/-- The function `validMethod` of net/http. -/
def validMethod (method : String) : Bool :=
  method.length > 0 && method.data.all isTokenChar

/-- The function `removeEmptyPort` of net/http: a host that ends in a bare colon loses it. -/
def removeEmptyPort (host : String) : String :=
  match cutLast ':' host.data with
  | some (h, []) => if ']' ∈ h ∨ cutLast ']' host.data = none then String.mk h else host
  | _ => host

/-- The method `Header.Set` for a key in canonical form. -/
def headerSet (h : List (String × String)) (key value : String) : List (String × String) :=
  h.filter (fun kv => kv.1 ≠ key) ++ [(key, value)]

/-- The method `Header.Get` for a key in canonical form: the empty string when absent. -/
def headerGet (h : List (String × String)) (key : String) : String :=
  match h.find? (fun kv => kv.1 = key) with
  | some kv => kv.2
  | none => ""

/-- The function `http.NewRequest(method, url, body)`: the request has the background
context, no headers, and the body given (`none`: nil reader). -/
def httpNewRequest (method url : String) (body : Option String) : Except Err Request :=
  let method := if method = "" then "GET" else method
  if validMethod method = false then Except.error (Err.msg "net/http: invalid method")
  else
    match urlParse url with
    | Except.error e => Except.error e
    | Except.ok u =>
      Except.ok ⟨method, { u with Host := removeEmptyPort u.Host }, [], body, Context.background⟩

/-- The method `Client.NewRequest(method, path, body)`. `body` is `none` for the nil
interface; otherwise it holds a value and `marshal` is `json.Marshal` for its
type. The encoder ends what it writes with a newline. -/
def Client.NewRequest {β : Type} (c : Client) (marshal : β → Except Err String)
    (method path : String) (body : Option β) : Except Err Request :=
  match c.baseURL.Parse path with
  | Except.error err => Except.error err
  | Except.ok requestURL =>
    let buf : Except Err (Option String) :=
      match body with
      | none => Except.ok none
      | some b =>
        match marshal b with
        | Except.ok text => Except.ok (some (text ++ "\n"))
        | Except.error err => Except.error err
    match buf with
    | Except.error err => Except.error err
    | Except.ok buf =>
      match httpNewRequest method (urlString requestURL) buf with
      | Except.error err => Except.error err
      | Except.ok req =>
        let req : Request :=
          if body.isSome then { req with Header := headerSet req.Header "Content-Type" applicationJson }
          else req
        Except.ok { req with Header := headerSet req.Header "Accept" applicationJson }

/-! ## accounts.go: the account operations -/

/-- What `Create` and `Fetch` return (`*Account`, `*http.Response`, `error`) and,
for the model, the requests sent. -/
structure AccountResult where
  acc : Option Account
  resp : Option Response
  err : Option Error
  sent : List Request

/-- What `List` returns. -/
structure AccountListResult where
  acc : Option AccountList
  resp : Option Response
  err : Option Error
  sent : List Request

/-- What `Delete` returns. -/
structure DeleteResult where
  resp : Option Response
  err : Option Error
  sent : List Request

/-- The type `AccountsService`: a `service`, holding the client. -/
structure AccountsService where
  client : Client

/-- The path `List` asks for. -/
def listPath (pageNumber pageSize : Int) : String :=
  accountsPath ++ "?page[number]=" ++ fmtInt pageNumber ++ "&page[size]=" ++ fmtInt pageSize

/-- The method `AccountsService.Create(ctx, account)`. The `*Account` handed over as the body
is a non-nil interface even when the pointer is nil. -/
def AccountsService.Create (hr : ResponseDecoder) (s : AccountsService) (ctx : Option Context)
    (account : Option Account) : Run AccountResult :=
  match s.client.NewRequest marshalAccount "POST" accountsPath (some account) with
  | Except.error err => Run.ret ⟨none, none, some (Error.plain err), []⟩
  | Except.ok request =>
    match s.client.Do hr ctx request (some decodeAccount) (⟨none⟩ : Account) with
    | Run.panic => Run.panic
    | Run.ret r =>
      match r.err with
      | some err => Run.ret ⟨none, r.resp, some err, r.sent⟩
      | none => Run.ret ⟨some r.v, r.resp, none, r.sent⟩

/-- The method `AccountsService.Fetch(ctx, accountID)`. -/
def AccountsService.Fetch (hr : ResponseDecoder) (s : AccountsService) (ctx : Option Context)
    (accountID : String) : Run AccountResult :=
  match s.client.NewRequest marshalAccount "GET" (accountsPath ++ "/" ++ accountID) none with
  | Except.error err => Run.ret ⟨none, none, some (Error.plain err), []⟩
  | Except.ok request =>
    match s.client.Do hr ctx request (some decodeAccount) (⟨none⟩ : Account) with
    | Run.panic => Run.panic
    | Run.ret r =>
      match r.err with
      | some err => Run.ret ⟨none, r.resp, some err, r.sent⟩
      | none => Run.ret ⟨some r.v, r.resp, none, r.sent⟩

/-- The method `AccountsService.Delete(ctx, accountID, version)`. -/
def AccountsService.Delete (hr : ResponseDecoder) (s : AccountsService) (ctx : Option Context)
    (accountID : String) (version : Int) : Run DeleteResult :=
  match s.client.NewRequest marshalAccount "DELETE"
      (accountsPath ++ "/" ++ accountID ++ "?version=" ++ fmtInt version) none with
  | Except.error err => Run.ret ⟨none, some (Error.plain err), []⟩
  | Except.ok request =>
    match s.client.Do hr ctx request (none : Option (JSON → Unit → Unit × Bool)) () with
    | Run.panic => Run.panic
    | Run.ret r => Run.ret ⟨r.resp, r.err, r.sent⟩

/-- The method `AccountsService.List(ctx, pageNumber, pageSize)`. `Do` is given `&acc`, so
the value decoded into is the pointer `acc`. -/
def AccountsService.List (hr : ResponseDecoder) (s : AccountsService) (ctx : Option Context)
    (pageNumber pageSize : Int) : Run AccountListResult :=
  match s.client.NewRequest marshalAccount "GET" (listPath pageNumber pageSize) none with
  | Except.error err => Run.ret ⟨none, none, some (Error.plain err), []⟩
  | Except.ok request =>
    match s.client.Do hr ctx request (some decodeAccountListPtr) (some (⟨none⟩ : AccountList)) with
    | Run.panic => Run.panic
    | Run.ret r =>
      match r.err with
      | some err => Run.ret ⟨none, r.resp, some err, r.sent⟩
      | none => Run.ret ⟨r.v, r.resp, none, r.sent⟩

/-- The message an error envelope carries, in the spec's words: the
error_message of the JSON document, empty when it has none. -/
def envelopeMessage : JSON → String
  | JSON.obj kvs =>
    kvs.foldl (fun m kv =>
      if keyMatches "error_message" kv.1 then
        match kv.2 with
        | JSON.str s => s
        | _ => m
      else m) ""
  | _ => ""

/-- Whether a status code is in 200..299. -/
def is2xx (code : Int) : Prop := 200 ≤ code ∧ code ≤ 299

instance (code : Int) : Decidable (is2xx code) := by unfold is2xx; exact inferInstance

/-- The path of a base URL as `NewClient` is said to normalise it: a slash is
appended unless the path ends with one, then `v1/` unless the path ends with
`/v1/`. -/
def normalisePath (path : String) : String :=
  let withSlash := if hasSuffix path "/" then path else path ++ "/"
  if hasSuffix withSlash "/v1/" then withSlash else withSlash ++ "v1/"

/-- A character that stands for itself in a path: ASCII and not escaped. -/
def pathChar (c : Char) : Prop := c.toNat < 0x80 ∧ shouldEscape c Encoding.encodePath = false

instance (c : Char) : Decidable (pathChar c) := by unfold pathChar; exact inferInstance

/-- The text of a URL up to its path: scheme and authority. -/
def urlHead (scheme : String) (user : Option Userinfo) (host : String) : String :=
  (if scheme ≠ "" then scheme ++ ":" else "") ++
    (if scheme ≠ "" ∨ host ≠ "" ∨ user ≠ none then
      "//" ++
      (match user with
        | some ui => userinfoString ui ++ "@"
        | none => "") ++
      (if host ≠ "" then escape host Encoding.encodeHost else "")
    else "")

/-- The number of places at which `sub` occurs in a text; for a `sub` that does
not overlap itself, such as `v1/`, this is `strings.Count`. -/
def countSub (sub : List Char) : List Char → Nat
  | [] => 0
  | c :: cs => (if sub.isPrefixOf (c :: cs) then 1 else 0) + countSub sub cs

/-! ## Fixtures for the closed statements -/

/-- A network that answers every request with the given status and body. -/
def respondWith (code : Int) (body : String) : HTTPClient :=
  ⟨fun req => Except.ok ⟨code, some ⟨body, none⟩, some req⟩⟩

/-- The client `NewClient` builds for the base URL `http://localhost`. -/
def localClient (h : HTTPClient) : Client :=
  ⟨h, { Scheme := "http", Host := "localhost", Path := "/v1/" }⟩

/-- The request `NewRequest` builds for GET `organisation/accounts/1` on `localClient`. -/
def fetchRequest : Request :=
  ⟨"GET", { Scheme := "http", Host := "localhost", Path := "/v1/organisation/accounts/1" },
    [("Accept", applicationJson)], none, Context.background⟩

/-- The body `{"Response":null}`. -/
def bodyNullResponse : String := "\x7b\"Response\":null\x7d"

/-- The body `{"Response":{"Body":null}}`. -/
def bodyNilBody : String := "\x7b\"Response\":\x7b\"Body\":null\x7d\x7d"

/-- The body `{"code":"x"}`. -/
def bodyOtherFields : String := "\x7b\"code\":\"x\"\x7d"

/-- The body `{}`. -/
def bodyEmptyObject : String := "\x7b\x7d"

/-- The body of the repository's `TestCheckResponse_statusErr`,
`{"status:"}:"Internal Server Error"}`, which is not a JSON document. -/
def bodyNotJSON : String := "\x7b\"status:\"\x7d:\"Internal Server Error\"\x7d"

deriving instance DecidableEq for DoResult

deriving instance DecidableEq for AccountResult

deriving instance DecidableEq for AccountListResult

/-- The value of a run of decimal digits, as `parseInt64` computes it. -/
def digitsValue (ds : List Char) (init : Nat) : Nat :=
  ds.foldl (fun n c => n * 10 + (c.toNat - '0'.toNat)) init

/-- Whether an integer fits a Go `int` (64 bits). -/
def isInt64 (n : Int) : Prop := -(2 ^ 63 : Int) ≤ n ∧ n < (2 ^ 63 : Int)

instance (n : Int) : Decidable (isInt64 n) := by unfold isInt64; exact inferInstance

/-- The records whose JSON form decodes to themselves: the version fits a Go
`int`, and `AlternativeNames` is not an empty non-nil slice. -/
def AccountData.faithful (d : AccountData) : Prop :=
  isInt64 d.Version ∧ ∀ a, d.Attributes = some a → a.AlternativeNames ≠ some []

/-- The URL with another query. -/
def URL.withQuery (u : URL) (q : String) : URL := { u with RawQuery := q }

/-- The query `List` asks with. -/
def listQuery (pageNumber pageSize : Int) : String :=
  "page[number]=" ++ fmtInt pageNumber ++ "&page[size]=" ++ fmtInt pageSize

/-- The request `List` sends, given the URL `u` that the client's base URL
followed by `organisation/accounts` parses to. -/
def listRequest (u : URL) (pageNumber pageSize : Int) : Request :=
  ⟨"GET", { u.withQuery (listQuery pageNumber pageSize) with Host := removeEmptyPort u.Host },
    [("Accept", applicationJson)], none, Context.background⟩

/-- The body `{"data":[]}`. -/
def bodyEmptyList : String := "\x7b\"data\":[]\x7d"

/-- The URL of the accounts on the server of `localClient`. -/
def localAccountsURL : URL :=
  { Scheme := "http", Host := "localhost", Path := "/v1/organisation/accounts" }

/-- The characters of a string as the encoder writes them, before `tail`. -/
def renderChars (cs : List Char) (tail : List Char) : List Char :=
  cs.foldr (fun c out => renderChar c ++ out) tail

/-- What may follow a JSON value in the encoder's text: a comma, a closing
brace or bracket, or the final newline. -/
def okRest (rest : List Char) : Prop :=
  ∀ c, rest.head? = some c → c = ',' ∨ c = '}' ∨ c = ']' ∨ c = '\n'

/-- The scanner reads the encoder's text of the value back, whatever follows. -/
def Parses (v : JSON) : Prop :=
  (∃ c cs, render v = c :: cs ∧ isSpace c = false ∧ c ≠ ']') ∧
  ∀ rest fuel, okRest rest → (render v).length + 1 ≤ fuel →
    parseValue fuel (render v ++ rest) = some (v, rest)

/-- The account of the repository's tests (`expectedAccount`). -/
def expectedAccount : Account :=
  ⟨some ⟨"accounts", "ad27e265-9605-4b4b-a0e5-3003ea9cc4dc",
    "eb0bd6f5-c3f5-44b2-b677-acd23cdde73c", 0,
    some { AccountAttributes.zero with
      Country := "GB", BaseCurrency := "GBP", BankID := "400300", BankIDCode := "GBDSC",
      Bic := "NWBKGB22", Name := some ["Samantha Holder"],
      AlternativeNames := some ["Sam Holder"], AccountClassification := "Personal",
      SecondaryIdentification := "A1B2C3D4" },
    "", ""⟩⟩

/-- An account whose `AlternativeNames` is an empty slice that is not nil. -/
def accountNoAlternativeNames : Account :=
  ⟨some ⟨"accounts", "1", "2", 0,
    some { AccountAttributes.zero with Country := "GB", AlternativeNames := some [] }, "", ""⟩⟩

/-- A server that answers 200 with the body of the request. -/
def echoServer : HTTPClient :=
  ⟨fun req => Except.ok ⟨200, some ⟨req.Body.getD "", none⟩, some req⟩⟩

/-- The request `Create` builds on `localClient` for an account. -/
def createRequest (a : Account) : Request :=
  ⟨"POST", localAccountsURL,
    [("Content-Type", applicationJson), ("Accept", applicationJson)],
    some (String.mk (render (encodeAccount a)) ++ "\n"), Context.background⟩

/-- The body `{"Response":{"StatusCode":200}}`. -/
def bodyStatusCode : String := "\x7b\"Response\":\x7b\"StatusCode\":200\x7d\x7d"

/-- The body `{"Response":null,"Response":{}}`. -/
def bodyFreshResponse : String := "\x7b\"Response\":null,\"Response\":\x7b\x7d\x7d"

/-- The body `null`. -/
def bodyNull : String := "null"


/-- A JSON document that is an error envelope for the decoder `hr`: null, or an
object in which every error_message member holds a string or null and
every Response member holds null or a value that `hr` decodes without a type
error. -/
def isEnvelope (hr : ResponseDecoder) : JSON → Prop
  | JSON.null => True
  | JSON.obj kvs =>
    (∀ kv ∈ kvs, keyMatches "error_message" kv.1 = true →
      kv.2 = JSON.null ∨ ∃ s, kv.2 = JSON.str s) ∧
    (∀ kv ∈ kvs, keyMatches "Response" kv.1 = true →
      kv.2 = JSON.null ∨ ∀ x, (hr kv.2 x).2 = false)
  | _ => False

/-- The body `{"error_message":"boom"}`. -/
def bodyBoom : String := "\x7b\"error_message\":\"boom\"\x7d"

/-- A character that stands for itself in a host and does not open a bracketed
address: ASCII, not escaped in a host, not `[`. -/
def hostChar (c : Char) : Prop :=
  c.toNat < 0x80 ∧ shouldEscape c Encoding.encodeHost = false ∧ c ≠ '['

instance (c : Char) : Decidable (hostChar c) := by unfold hostChar; exact inferInstance

/-! ## Theorems -/

set_option maxRecDepth 100000

/-! ### CheckResponse -/

theorem string_length_pos_iff (s : String) : s.length > 0 ↔ s ≠ "" := by
  cases s with
  | mk l =>
    cases l with
    | nil => simp [String.length]
    | cons a t =>
      simp only [String.length, List.length_cons, gt_iff_lt, Nat.zero_lt_succ, ne_eq, true_iff]
      intro h
      exact absurd (congrArg String.data h) (by simp)

/-- Storing members never touches the message except through an error_message
member holding a string. -/
theorem storeErrorMember_msg (hr : ResponseDecoder) (kvs : List (String × JSON)) (st : ErrState) :
    (kvs.foldl (storeErrorMember hr) st).msg =
      kvs.foldl (fun m kv =>
        if keyMatches "error_message" kv.1 then
          match kv.2 with
          | JSON.str s => s
          | _ => m
        else m) st.msg := by
  induction kvs generalizing st with
  | nil => rfl
  | cons kv rest ih =>
    simp only [List.foldl_cons]
    rw [ih]
    congr 1
    unfold storeErrorMember
    by_cases h1 : keyMatches "error_message" kv.1 = true
    · simp only [h1, if_true]
      cases kv.2 <;> rfl
    · simp only [h1, if_false, Bool.false_eq_true]
      by_cases h2 : keyMatches "Response" kv.1 = true
      · simp only [h2, if_true]
        cases kv.2 <;> cases st.ref <;> rfl
      · simp only [h2, if_false, Bool.false_eq_true]

/-- A saved type error stays saved. -/
theorem storeErrorMember_failed (hr : ResponseDecoder) (kvs : List (String × JSON)) (st : ErrState)
    (h : st.failed = true) : (kvs.foldl (storeErrorMember hr) st).failed = true := by
  induction kvs generalizing st with
  | nil => exact h
  | cons kv rest ih =>
    simp only [List.foldl_cons]
    apply ih
    unfold storeErrorMember
    by_cases h1 : keyMatches "error_message" kv.1 = true
    · simp only [h1, if_true]
      cases kv.2 <;> simp [h]
    · simp only [h1, if_false, Bool.false_eq_true]
      by_cases h2 : keyMatches "Response" kv.1 = true
      · simp only [h2, if_true]
        cases kv.2 <;> cases st.ref <;> simp [h]
      · simp only [h2, if_false, Bool.false_eq_true]
        exact h

/-- Members that name neither field leave the state as it is. -/
theorem storeErrorMember_other (hr : ResponseDecoder) (kvs : List (String × JSON)) (st : ErrState)
    (h : ∀ kv ∈ kvs, keyMatches "error_message" kv.1 = false ∧ keyMatches "Response" kv.1 = false) :
    kvs.foldl (storeErrorMember hr) st = st := by
  induction kvs generalizing st with
  | nil => rfl
  | cons kv rest ih =>
    simp only [List.foldl_cons]
    have hk := h kv (List.mem_cons_self _ _)
    have : storeErrorMember hr st kv = st := by
      unfold storeErrorMember
      simp [hk.1, hk.2]
    rw [this]
    exact ih st (fun kv2 hm => h kv2 (List.mem_cons_of_mem _ hm))

/-- An error_message member that holds neither a string nor null makes the
decoding fail, wherever it stands in the object. -/
theorem storeErrorMember_bad_message (hr : ResponseDecoder) (kvs : List (String × JSON))
    (st : ErrState)
    (h : ∃ kv ∈ kvs, keyMatches "error_message" kv.1 = true ∧ kv.2 ≠ JSON.null ∧
      ∀ s, kv.2 ≠ JSON.str s) :
    (kvs.foldl (storeErrorMember hr) st).failed = true := by
  obtain ⟨kv, hmem, hk, hnull, hstr⟩ := h
  obtain ⟨l1, l2, rfl⟩ := List.append_of_mem hmem
  rw [List.foldl_append, List.foldl_cons]
  apply storeErrorMember_failed
  unfold storeErrorMember
  rw [if_pos hk]
  cases hv : kv.2 with
  | null => exact absurd hv hnull
  | str s => exact absurd hv (hstr s)
  | bool b => rfl
  | num l => rfl
  | arr xs => rfl
  | obj m => rfl

/-- With a body, `CheckResponse` returns nil exactly on a status in 200..299. -/
theorem CheckResponse_nil_iff (hr : ResponseDecoder) (r : Response) (b : Body)
    (hb : r.Body = some b) :
    (∃ r1, CheckResponse hr r = Run.ret (r1, none)) ↔ is2xx r.StatusCode := by
  unfold CheckResponse is2xx
  by_cases hs : 200 ≤ r.StatusCode ∧ r.StatusCode ≤ 299
  · simp [hs]
  · simp only [hs, if_false, hb, iff_false, not_exists]
    intro r1
    split
    · split <;> simp
    · simp

/-- C1, at the failing input: for status 500 and the body `{"Response":null}`,
`CheckResponse` returns an `ErrorResponse` whose `Response` pointer is nil, so the
error carries no status code at all (reading it panics), though the response
has status 500. -/
theorem C1_status_lost_on_null_response :
    CheckResponse decodeResponseFields ⟨500, some ⟨bodyNullResponse, none⟩, none⟩
        = Run.ret (⟨500, some ⟨bodyNullResponse, none⟩, none⟩, some ⟨RespRef.nil, ""⟩)
      ∧ ErrorResponse.status ⟨RespRef.nil, ""⟩ ⟨500, some ⟨bodyNullResponse, none⟩, none⟩
        = none := by
  decide

/-- The message of the error `CheckResponse` returns, by the outcome of
`json.Unmarshal`: an empty body gives the empty message; a non-empty body that
`json.Unmarshal` decodes without error is a JSON document and the message is
that document's error_message; a non-empty body on which `json.Unmarshal`
fails gives the raw body text. -/
theorem CheckResponse_message_cases (hr : ResponseDecoder) (r : Response) (b : Body)
    (hs : ¬ is2xx r.StatusCode) (hb : r.Body = some b) :
    ∃ r1 e, CheckResponse hr r = Run.ret (r1, some e) ∧
      (b.data = "" → e.ErrorMessage = "") ∧
      (b.data ≠ "" → b.err = none →
        (unmarshalErrorResponse hr b.data ⟨RespRef.orig, ""⟩ r).2.2 = none →
        ∃ v, parseDocument b.data = some v ∧ e.ErrorMessage = envelopeMessage v) ∧
      (b.data ≠ "" → b.err = none →
        (unmarshalErrorResponse hr b.data ⟨RespRef.orig, ""⟩ r).2.2 ≠ none →
        e.ErrorMessage = b.data) := by
  unfold is2xx at hs
  unfold CheckResponse
  simp only [hs, if_false, hb]
  by_cases hc : b.err = none ∧ b.data.length > 0
  · have hne : b.data ≠ "" := (string_length_pos_iff _).1 hc.2
    simp only [hc, and_self, if_true]
    rcases hu : unmarshalErrorResponse hr b.data ⟨RespRef.orig, ""⟩ r with ⟨e, r1, err⟩
    cases err with
    | some x =>
      refine ⟨r1, _, rfl, fun h => absurd h hne, ?_, fun _ _ _ => rfl⟩
      intro _ _ h
      simp at h
    | none =>
      refine ⟨r1, _, rfl, fun h => absurd h hne, ?_, fun _ _ h => absurd rfl h⟩
      intro _ _ _
      unfold unmarshalErrorResponse at hu
      cases hp : parseDocument b.data with
      | none => rw [hp] at hu; simp at hu
      | some v =>
        rw [hp] at hu
        refine ⟨v, rfl, ?_⟩
        cases v with
        | null =>
          simp only [Prod.mk.injEq] at hu
          rw [← hu.1]; rfl
        | obj kvs =>
          simp only [Prod.mk.injEq] at hu
          rw [← hu.1]
          simp only [envelopeMessage]
          exact storeErrorMember_msg hr kvs _
        | bool x => simp at hu
        | num x => simp at hu
        | str x => simp at hu
        | arr x => simp at hu
  · simp only [hc, if_false]
    refine ⟨r, _, rfl, fun _ => rfl, ?_, ?_⟩
    · intro hne he
      exact absurd ⟨he, (string_length_pos_iff _).2 hne⟩ hc
    · intro hne he
      exact absurd ⟨he, (string_length_pos_iff _).2 hne⟩ hc

/-- C10, counterexample: status 404 with the body `{"code":"x"}`, a JSON object
with other fields: the message of the returned error is empty, not the raw
body. -/
theorem C10_counterexample :
    CheckResponse decodeResponseFields ⟨404, some ⟨bodyOtherFields, none⟩, none⟩
        = Run.ret (⟨404, some ⟨bodyOtherFields, none⟩, none⟩, some ⟨RespRef.orig, ""⟩)
      ∧ ("" : String) ≠ bodyOtherFields := by
  decide

/-- C10, amended: for every response with a status outside 200..299 and a
non-empty body, if the body is not a JSON document, or is a JSON value other
than an object or null, or is an object with an error_message member that is
neither a string nor null, then `CheckResponse` swallows the failure and
returns an error whose message is the raw body text; whereas an object whose
members name neither field of `ErrorResponse` decodes without error and gives
the empty message. -/
theorem C10_raw_body_when_decoding_fails (hr : ResponseDecoder) (r : Response) (b : Body)
    (hs : ¬ is2xx r.StatusCode) (hb : r.Body = some b) (he : b.err = none)
    (hd : b.data ≠ "") :
    ((parseDocument b.data = none ∨
        ∃ v, parseDocument b.data = some v ∧ v ≠ JSON.null ∧ ∀ kvs, v ≠ JSON.obj kvs) →
      CheckResponse hr r = Run.ret (r, some ⟨RespRef.orig, b.data⟩)) ∧
    (∀ kvs, parseDocument b.data = some (JSON.obj kvs) →
      (∃ kv ∈ kvs, keyMatches "error_message" kv.1 = true ∧ kv.2 ≠ JSON.null ∧
        ∀ s, kv.2 ≠ JSON.str s) →
      ∃ r1 e, CheckResponse hr r = Run.ret (r1, some e) ∧ e.ErrorMessage = b.data) ∧
    (∀ kvs, parseDocument b.data = some (JSON.obj kvs) →
      (∀ kv ∈ kvs, keyMatches "error_message" kv.1 = false ∧
        keyMatches "Response" kv.1 = false) →
      CheckResponse hr r = Run.ret (r, some ⟨RespRef.orig, ""⟩)) := by
  unfold is2xx at hs
  have hlen : b.data.length > 0 := (string_length_pos_iff _).2 hd
  refine ⟨?_, ?_, ?_⟩
  · intro h
    unfold CheckResponse
    simp only [hs, if_false, hb, he, hlen, and_self, if_true]
    unfold unmarshalErrorResponse
    rcases h with h | ⟨v, hv, hnull, hobj⟩
    · rw [h]
    · rw [hv]
      cases v with
      | null => exact absurd rfl hnull
      | obj kvs => exact absurd rfl (hobj kvs)
      | bool x => rfl
      | num x => rfl
      | str x => rfl
      | arr x => rfl
  · intro kvs hp hbad
    unfold CheckResponse
    simp only [hs, if_false, hb, he, hlen, and_self, if_true]
    unfold unmarshalErrorResponse
    rw [hp]
    simp only [storeErrorMember_bad_message hr kvs _ hbad, if_true]
    exact ⟨_, _, rfl, rfl⟩
  · intro kvs hp hother
    unfold CheckResponse
    simp only [hs, if_false, hb, he, hlen, and_self, if_true]
    unfold unmarshalErrorResponse
    rw [hp]
    simp only [storeErrorMember_other hr kvs _ hother]
    rfl

/-- C10, witness: status 500 with the body of the repository's test, which is not a
JSON document. -/
theorem C10_raw_body_when_decoding_fails_witness :
    CheckResponse decodeResponseFields
        ⟨500, some ⟨bodyNotJSON, none⟩, none⟩
      = Run.ret (⟨500, some ⟨bodyNotJSON, none⟩, none⟩,
          some ⟨RespRef.orig, bodyNotJSON⟩) :=
  (C10_raw_body_when_decoding_fails decodeResponseFields
    ⟨500, some ⟨bodyNotJSON, none⟩, none⟩
    ⟨bodyNotJSON, none⟩
    (by decide) rfl rfl (by decide)).1 (Or.inl (by decide))

/-! ### Client.Do -/

/-- Members that do not name the field `Response` leave the pointer and the
response it points to as they are. -/
theorem storeErrorMember_frame (hr : ResponseDecoder) (kvs : List (String × JSON))
    (st : ErrState) (h : ∀ kv ∈ kvs, keyMatches "Response" kv.1 = false) :
    (kvs.foldl (storeErrorMember hr) st).ref = st.ref ∧
      (kvs.foldl (storeErrorMember hr) st).orig = st.orig := by
  induction kvs generalizing st with
  | nil => exact ⟨rfl, rfl⟩
  | cons kv rest ih =>
    simp only [List.foldl_cons]
    have hk := h kv (List.mem_cons_self _ _)
    have hstep : (storeErrorMember hr st kv).ref = st.ref ∧
        (storeErrorMember hr st kv).orig = st.orig := by
      unfold storeErrorMember
      by_cases h1 : keyMatches "error_message" kv.1 = true
      · simp only [h1, if_true]
        cases kv.2 <;> exact ⟨rfl, rfl⟩
      · simp [h1, hk]
    have := ih (storeErrorMember hr st kv) (fun kv2 hm => h kv2 (List.mem_cons_of_mem _ hm))
    exact ⟨this.1.trans hstep.1, this.2.trans hstep.2⟩

/-- On a body without a `Response` member, `CheckResponse` on a status outside
200..299 returns an `ErrorResponse` that points to the response, and the
response is unchanged. -/
theorem CheckResponse_frame (hr : ResponseDecoder) (r : Response) (b : Body)
    (hs : ¬ is2xx r.StatusCode) (hb : r.Body = some b)
    (hno : ∀ kvs, parseDocument b.data = some (JSON.obj kvs) →
      ∀ kv ∈ kvs, keyMatches "Response" kv.1 = false) :
    ∃ msg, CheckResponse hr r = Run.ret (r, some ⟨RespRef.orig, msg⟩) := by
  unfold is2xx at hs
  unfold CheckResponse
  simp only [hs, if_false, hb]
  by_cases hc : b.err = none ∧ b.data.length > 0
  · simp only [hc, and_self, if_true]
    unfold unmarshalErrorResponse
    cases hp : parseDocument b.data with
    | none => exact ⟨_, rfl⟩
    | some v =>
      cases v with
      | obj kvs =>
        have hf := storeErrorMember_frame hr kvs ⟨RespRef.orig, "", r, false⟩ (hno kvs hp)
        simp only at hf
        simp only [hf.1, hf.2]
        cases (kvs.foldl (storeErrorMember hr) ⟨RespRef.orig, "", r, false⟩).failed with
        | true => exact ⟨_, rfl⟩
        | false => exact ⟨_, rfl⟩
      | null => exact ⟨_, rfl⟩
      | bool x => exact ⟨_, rfl⟩
      | num x => exact ⟨_, rfl⟩
      | str x => exact ⟨_, rfl⟩
      | arr x => exact ⟨_, rfl⟩
  · simp only [hc, if_false]
    exact ⟨_, rfl⟩

/-- On a body without a `Response` member, `Do` with a non-nil context returns the
response the network delivered in every outcome: with the `ErrorResponse` and
the target untouched on a status outside 200..299; with a nil error on a
status in 200..299 when there is no target or the body decodes into it; with
the decoding error otherwise. -/
theorem Do_returns_response {τ : Type} (hr : ResponseDecoder) (c : Client) (cx : Context)
    (req : Request) (dec : Option (JSON → τ → τ × Bool)) (v0 : τ) (resp : Response) (b : Body)
    (hctx : req.ctx.err = none)
    (hnet : c.httpClient.roundTrip req = Except.ok resp) (hb : resp.Body = some b)
    (hno : ∀ kvs, parseDocument b.data = some (JSON.obj kvs) →
      ∀ kv ∈ kvs, keyMatches "Response" kv.1 = false) :
    ∃ err v1, c.Do hr (some cx) req dec v0 = Run.ret ⟨some resp, err, v1, [req]⟩ ∧
      (¬ is2xx resp.StatusCode → v1 = v0 ∧ ∃ msg, err = some (Error.api ⟨RespRef.orig, msg⟩)) ∧
      (is2xx resp.StatusCode → dec = none → err = none ∧ v1 = v0) ∧
      (is2xx resp.StatusCode → ∀ d, dec = some d →
        (∀ j, decodeStream b = Except.ok j → v1 = (d j v0).1 ∧
          err = if (d j v0).2 then some (Error.plain Err.unmarshalType) else none) ∧
        (∀ e, decodeStream b = Except.error e → v1 = v0 ∧ err = some (Error.plain e))) := by
  by_cases hs : is2xx resp.StatusCode
  · have hs2 := hs
    unfold is2xx at hs2
    cases dec with
    | none =>
      refine ⟨none, v0, ?_, fun h => absurd hs h, fun _ _ => ⟨rfl, rfl⟩, fun _ d hd => by simp at hd⟩
      unfold Client.Do HTTPClient.Do CheckResponse closeBody
      simp only [hctx, hnet, hs2, and_self, if_true, hb]
    | some d =>
      cases hj : decodeStream b with
      | ok j =>
        refine ⟨if (d j v0).2 then some (Error.plain Err.unmarshalType) else none, (d j v0).1, ?_,
          fun h => absurd hs h, fun _ h => by simp at h, ?_⟩
        · unfold Client.Do HTTPClient.Do CheckResponse
          simp only [hctx, hnet, hs2, and_self, if_true, hb, hj]
        · intro _ d2 hd
          simp only [Option.some.injEq] at hd
          subst hd
          exact ⟨fun j2 h2 => by cases h2; exact ⟨rfl, rfl⟩, fun e h2 => by simp at h2⟩
      | error e =>
        refine ⟨some (Error.plain e), v0, ?_, fun h => absurd hs h, fun _ h => by simp at h, ?_⟩
        · unfold Client.Do HTTPClient.Do CheckResponse
          simp only [hctx, hnet, hs2, and_self, if_true, hb, hj]
        · intro _ d2 _
          exact ⟨fun j2 h2 => by simp at h2, fun e2 h2 => by cases h2; exact ⟨rfl, rfl⟩⟩
  · obtain ⟨msg, hcr⟩ := CheckResponse_frame hr resp b hs hb hno
    refine ⟨some (Error.api ⟨RespRef.orig, msg⟩), v0, ?_, fun _ => ⟨rfl, msg, rfl⟩,
      fun h => absurd h hs, fun h => absurd h hs⟩
    unfold Client.Do HTTPClient.Do
    simp only [hctx, hnet, hcr, closeBody, hb]

/-- C3, at the failing input: the context handed to `Do` is already cancelled,
the request is the one `NewRequest` builds (it carries the background context,
and the copy made by `WithContext` is dropped), and the network would answer
200. `Do` sends the request and returns the response with a nil error, not
the context's error. -/
theorem C3_cancelled_context_is_ignored :
    (localClient (respondWith 200 "")).NewRequest marshalAccount "GET" "organisation/accounts/1"
        none = Except.ok fetchRequest
      ∧ (localClient (respondWith 200 "")).Do decodeResponseFields (some ⟨some Err.canceled⟩)
          fetchRequest (none : Option (JSON → Unit → Unit × Bool)) ()
        = Run.ret ⟨some ⟨200, some ⟨"", none⟩, some fetchRequest⟩, none, (), [fetchRequest]⟩ := by
  decide

/-- C7, at the failing input: the network delivers a response with status 500
and the body `{"Response":{"Body":null}}`. Decoding the body into the
`ErrorResponse` sets the `Body` of the response to nil, and the deferred
`resp.Body.Close()` panics: `Do` returns nothing. -/
theorem C7_do_panics_on_nil_body :
    (localClient (respondWith 500 bodyNilBody)).Do decodeResponseFields
        (some Context.background) fetchRequest (none : Option (JSON → Unit → Unit × Bool)) ()
      = Run.panic := by
  decide

/-! ### NewRequest and NewClient -/

/-- What a request built by `http.NewRequest` looks like. -/
theorem httpNewRequest_ok (method url : String) (body : Option String) (r : Request)
    (h : httpNewRequest method url body = Except.ok r) :
    r.Header = [] ∧ r.Body = body ∧ r.ctx = Context.background ∧
      r.Method = (if method = "" then "GET" else method) ∧
      ∃ u, urlParse url = Except.ok u ∧ r.URL = { u with Host := removeEmptyPort u.Host } := by
  unfold httpNewRequest at h
  simp only at h
  by_cases hv : validMethod (if method = "" then "GET" else method) = false
  · rw [if_pos hv] at h; simp at h
  · rw [if_neg hv] at h
    cases hu : urlParse url with
    | error e => rw [hu] at h; simp at h
    | ok u =>
      rw [hu] at h
      simp only [Except.ok.injEq] at h
      rw [← h]
      exact ⟨rfl, rfl, rfl, rfl, u, rfl, rfl⟩

/-- C9: every request `NewRequest` builds has the Accept header
`application/json; charset=utf-8`; with a non-nil body it has the Content-Type
header of the same value and a payload, with a nil body it has no Content-Type
header and no payload. -/
theorem C9_headers_of_new_request {β : Type} (c : Client) (marshal : β → Except Err String)
    (method path : String) (body : Option β) (req : Request)
    (h : c.NewRequest marshal method path body = Except.ok req) :
    headerGet req.Header "Accept" = applicationJson ∧
    ((∃ v, ("Content-Type", v) ∈ req.Header) ↔ body ≠ none) ∧
    (body ≠ none → headerGet req.Header "Content-Type" = applicationJson ∧ req.Body ≠ none) ∧
    (body = none → req.Header = [("Accept", applicationJson)] ∧ req.Body = none) := by
  unfold Client.NewRequest at h
  cases hp : c.baseURL.Parse path with
  | error e => rw [hp] at h; simp at h
  | ok requestURL =>
    rw [hp] at h
    cases body with
    | none =>
      simp only at h
      cases hn : httpNewRequest method (urlString requestURL) none with
      | error e => rw [hn] at h; simp at h
      | ok r0 =>
        rw [hn] at h
        have hh : r0.Header = [] ∧ r0.Body = none :=
          ⟨(httpNewRequest_ok _ _ _ _ hn).1, (httpNewRequest_ok _ _ _ _ hn).2.1⟩
        simp only [Option.isSome_none, Bool.false_eq_true, if_false, Except.ok.injEq] at h
        rw [← h]
        simp only [hh.1, hh.2]
        refine ⟨by decide, ?_, ?_, ?_⟩
        · simp [headerSet]
        · intro hne; exact absurd rfl hne
        · intro _; trivial
    | some b =>
      cases hm : marshal b with
      | error e => simp only [hm] at h; simp at h
      | ok text =>
        simp only [hm] at h
        cases hn : httpNewRequest method (urlString requestURL) (some (text ++ "\n")) with
        | error e => rw [hn] at h; simp at h
        | ok r0 =>
          rw [hn] at h
          have hh : r0.Header = [] ∧ r0.Body = some (text ++ "\n") :=
            ⟨(httpNewRequest_ok _ _ _ _ hn).1, (httpNewRequest_ok _ _ _ _ hn).2.1⟩
          simp only [Option.isSome_some, if_true, Except.ok.injEq] at h
          rw [← h]
          simp only [hh.1, hh.2]
          refine ⟨by decide, ?_, ?_, ?_⟩
          · simp [headerSet]
          · intro _; exact ⟨by decide, by simp⟩
          · intro hne; simp at hne

/-- C9, witness: the request `NewRequest` builds for GET `organisation/accounts/1`
without a body. -/
theorem C9_headers_of_new_request_witness :
    headerGet fetchRequest.Header "Accept" = applicationJson ∧
      fetchRequest.Header = [("Accept", applicationJson)] ∧ fetchRequest.Body = none :=
  have h := C9_headers_of_new_request (localClient (respondWith 200 "")) marshalAccount "GET"
    "organisation/accounts/1" none fetchRequest (by decide)
  ⟨h.1, h.2.2.2 rfl⟩

theorem hasSuffix_iff (s t : String) : hasSuffix s t = true ↔ t.data <:+ s.data := by
  unfold hasSuffix
  exact List.isSuffixOf_iff_suffix

/-- A normalised path ends with `/v1/`. -/
theorem normalisePath_hasSuffix (path : String) : hasSuffix (normalisePath path) "/v1/" = true := by
  unfold normalisePath
  simp only
  by_cases h2 : hasSuffix (if hasSuffix path "/" = true then path else path ++ "/") "/v1/" = true
  · rw [if_pos h2]; exact h2
  · rw [if_neg h2]
    have h1 : hasSuffix (if hasSuffix path "/" = true then path else path ++ "/") "/" = true := by
      by_cases h : hasSuffix path "/" = true
      · rw [if_pos h]; exact h
      · rw [if_neg h, hasSuffix_iff, String.data_append]
        exact List.suffix_append _ _
    rw [hasSuffix_iff] at h1 ⊢
    obtain ⟨t, ht⟩ := h1
    rw [String.data_append, ← ht]
    exact ⟨t, by simp⟩

/-- A path that ends with `/v1/` is normalised already. -/
theorem normalisePath_of_hasSuffix (path : String) (h : hasSuffix path "/v1/" = true) :
    normalisePath path = path := by
  have h1 : hasSuffix path "/" = true := by
    rw [hasSuffix_iff] at h ⊢
    exact List.IsSuffix.trans (⟨['/', 'v', '1'], rfl⟩ : "/".data <:+ "/v1/".data) h
  unfold normalisePath
  simp only [h1, if_true, h]

/-- Normalising keeps the path as the beginning of the result. -/
theorem normalisePath_extends (path : String) : ∃ t, normalisePath path = path ++ t := by
  unfold normalisePath
  simp only
  by_cases h : hasSuffix path "/" = true
  · simp only [h, if_true]
    by_cases h2 : hasSuffix path "/v1/" = true
    · exact ⟨"", by simp [h2]⟩
    · exact ⟨"v1/", by simp [h2]⟩
  · simp only [h, if_false, Bool.false_eq_true]
    by_cases h2 : hasSuffix (path ++ "/") "/v1/" = true
    · exact ⟨"/", by simp [h2]⟩
    · exact ⟨"/v1/", by simp [h2, String.append_assoc]⟩

/-- The base URL of the client `NewClient` builds. -/
theorem NewClient_ok (D : HTTPClient) (baseURL : String) (httpClient : Option HTTPClient)
    (u : URL) (h : urlParse baseURL = Except.ok u) :
    NewClient D baseURL httpClient
      = Except.ok ⟨httpClient.getD D, { u with Path := normalisePath u.Path }⟩ := by
  unfold NewClient normalisePath
  simp only [h]
  by_cases h1 : hasSuffix u.Path "/" = true
  · simp only [h1, Bool.not_true, Bool.false_eq_true, if_false, if_true]
    by_cases h2 : hasSuffix u.Path "/v1/" = true
    · simp [h2]
    · simp [h2]
  · simp only [h1, Bool.not_false, Bool.false_eq_true, if_false, if_true]
    by_cases h2 : hasSuffix (u.Path ++ "/") "/v1/" = true
    · simp [h2]
    · simp [h2]

/-- C4: for every base URL string that parses, `NewClient` succeeds, and the
base URL of the client is the parsed URL with its path normalised: the path
is the original path with a slash appended unless it ends with one, and then
`v1/` appended unless it ends with `/v1/`; it ends with `/v1/`, it begins with
the original path, and normalising it again changes nothing. -/
theorem C4_base_url_ends_with_v1 (D : HTTPClient) (baseURL : String)
    (httpClient : Option HTTPClient) (u : URL) (h : urlParse baseURL = Except.ok u) :
    ∃ c, NewClient D baseURL httpClient = Except.ok c ∧
      c.baseURL = { u with Path := c.baseURL.Path } ∧
      c.baseURL.Path =
        (if hasSuffix (if hasSuffix u.Path "/" then u.Path else u.Path ++ "/") "/v1/"
          then (if hasSuffix u.Path "/" then u.Path else u.Path ++ "/")
          else (if hasSuffix u.Path "/" then u.Path else u.Path ++ "/") ++ "v1/") ∧
      hasSuffix c.baseURL.Path "/v1/" = true ∧
      (∃ t, c.baseURL.Path = u.Path ++ t) ∧
      normalisePath c.baseURL.Path = c.baseURL.Path :=
  ⟨_, NewClient_ok D baseURL httpClient u h, rfl, rfl, normalisePath_hasSuffix u.Path,
    normalisePath_extends u.Path,
    normalisePath_of_hasSuffix _ (normalisePath_hasSuffix u.Path)⟩

/-- C4, witness: the base URL of the repository's test, `http://localhost`, becomes
`http://localhost/v1/`. -/
theorem C4_base_url_ends_with_v1_witness :
    ∃ c, NewClient (respondWith 200 "") "http://localhost" none = Except.ok c ∧
      urlString c.baseURL = "http://localhost/v1/" := by
  obtain ⟨c, hc, hb, hp, _⟩ := C4_base_url_ends_with_v1 (respondWith 200 "") "http://localhost"
    none { Scheme := "http", Host := "localhost" } (by decide)
  refine ⟨c, hc, ?_⟩
  rw [hb, hp]
  decide

/-! ### URL resolution -/

theorem escapeChars_plain (mode : Encoding) (s : List Char)
    (h : ∀ c ∈ s, c.toNat < 0x80 ∧ shouldEscape c mode = false) : escapeChars mode s = s := by
  induction s with
  | nil => rfl
  | cons c cs ih =>
    have hc := h c (List.mem_cons_self _ _)
    unfold escapeChars
    rw [if_pos hc.1, hc.2]
    simp only [Bool.false_eq_true, if_false]
    rw [ih (fun d hd => h d (List.mem_cons_of_mem _ hd))]

theorem unescapeCheck_path (s : List Char) (h : '%' ∉ s) :
    unescapeCheck Encoding.encodePath s = true := by
  induction s with
  | nil => rfl
  | cons c cs ih =>
    have hc : c ≠ '%' := fun e => h (e ▸ List.mem_cons_self _ _)
    have hcs : '%' ∉ cs := fun e => h (List.mem_cons_of_mem _ e)
    unfold unescapeCheck
    split <;> simp_all

theorem percent_not_pathChar (s : List Char) (h : ∀ c ∈ s, pathChar c) : '%' ∉ s := by
  intro hm
  have := (h '%' hm).2
  revert this
  decide

theorem unescape_plain (s : String) (h : ∀ c ∈ s.data, pathChar c) :
    unescape s Encoding.encodePath = Except.ok s := by
  have hp := percent_not_pathChar s.data h
  unfold unescape
  rw [unescapeCheck_path s.data hp]
  simp [hp]

theorem escape_plain (s : String) (h : ∀ c ∈ s.data, pathChar c) :
    escape s Encoding.encodePath = s := by
  unfold escape
  rw [escapeChars_plain Encoding.encodePath s.data h]

theorem setPath_plain (u : URL) (p : String) (h : ∀ c ∈ p.data, pathChar c) :
    u.setPath p = Except.ok { u with Path := p, RawPath := "" } := by
  unfold URL.setPath
  rw [unescape_plain p h]
  simp [escape_plain p h]

theorem splitSlash_ne_nil (s : List Char) : splitSlash s ≠ [] := by
  cases s with
  | nil => simp [splitSlash]
  | cons c cs =>
    unfold splitSlash
    split
    · simp
    · split <;> simp

theorem joinSlash_splitSlash (s : List Char) : joinSlash (splitSlash s) = s := by
  induction s with
  | nil => rfl
  | cons c cs ih =>
    unfold splitSlash
    by_cases hc : c = '/'
    · rw [if_pos hc]
      cases hs : splitSlash cs with
      | nil => exact absurd hs (splitSlash_ne_nil cs)
      | cons seg segs =>
        rw [hs] at ih
        simp only [joinSlash, List.nil_append, ih, hc]
    · rw [if_neg hc]
      cases hs : splitSlash cs with
      | nil => exact absurd hs (splitSlash_ne_nil cs)
      | cons seg segs =>
        rw [hs] at ih
        simp only
        cases segs with
        | nil =>
          simp only [joinSlash] at ih ⊢
          rw [ih]
        | cons s2 rest =>
          simp only [joinSlash] at ih ⊢
          rw [← ih]
          rfl

theorem splitSlash_cons_slash (cs : List Char) : splitSlash ('/' :: cs) = [] :: splitSlash cs := by
  rw [splitSlash]
  simp

theorem splitSlash_cons_other (c : Char) (cs : List Char) (hc : c ≠ '/') :
    splitSlash (c :: cs) = ((c :: (splitSlash cs).headD [])) :: (splitSlash cs).tail := by
  rw [splitSlash]
  rw [if_neg hc]
  cases hs : splitSlash cs with
  | nil => exact absurd hs (splitSlash_ne_nil cs)
  | cons seg segs => rfl

theorem splitSlash_append_slash (xs ys : List Char) :
    splitSlash (xs ++ '/' :: ys) = splitSlash xs ++ splitSlash ys := by
  induction xs with
  | nil => rw [List.nil_append, splitSlash_cons_slash]; rfl
  | cons c cs ih =>
    simp only [List.cons_append]
    by_cases hc : c = '/'
    · subst hc
      rw [splitSlash_cons_slash, splitSlash_cons_slash, ih]
      rfl
    · rw [splitSlash_cons_other _ _ hc, splitSlash_cons_other _ _ hc, ih]
      cases hs : splitSlash cs with
      | nil => exact absurd hs (splitSlash_ne_nil cs)
      | cons seg segs => rfl

theorem removeDots_no_dots (dst segs : List (List Char))
    (h : ∀ seg ∈ segs, seg ≠ ['.'] ∧ seg ≠ ['.', '.']) :
    removeDots dst segs = dst.reverse ++ segs := by
  induction segs generalizing dst with
  | nil => simp [removeDots]
  | cons seg rest ih =>
    have hs := h seg (List.mem_cons_self _ _)
    unfold removeDots
    rw [if_neg hs.1, if_neg hs.2, ih _ (fun s hm => h s (List.mem_cons_of_mem _ hm))]
    simp

theorem cutLast_append_sep (sep : Char) (t : List Char) :
    cutLast sep (t ++ [sep]) = some (t, []) := by
  induction t with
  | nil => simp [cutLast]
  | cons c cs ih =>
    simp only [List.cons_append]
    unfold cutLast
    rw [ih]

theorem string_eq_empty_iff (s : String) : s = "" ↔ s.data = [] := by
  constructor
  · intro h; rw [h]
  · intro h
    cases s with
    | mk l =>
      simp only at h
      rw [h]

/-- Resolving a relative path without dot elements against a directory: the
path is appended. -/
theorem resolvePath_plain (t : List Char) (p : String)
    (hrel : p.data.head? ≠ some '/')
    (hroot : (t ++ ['/']).head? = some '/')
    (hdots : ∀ seg ∈ splitSlash (t ++ '/' :: p.data), seg ≠ ['.'] ∧ seg ≠ ['.', '.']) :
    resolvePath (String.mk (t ++ ['/'])) p = String.mk (t ++ '/' :: p.data) := by
  have hfull : (if p = "" then (String.mk (t ++ ['/'])).data
      else if p.data.head? ≠ some '/' then
        (match cutLast '/' (String.mk (t ++ ['/'])).data with
          | some (dir, _) => dir ++ ['/']
          | none => []) ++ p.data
      else p.data) = t ++ '/' :: p.data := by
    by_cases hp : p = ""
    · rw [if_pos hp]
      rw [(string_eq_empty_iff p).1 hp]
    · rw [if_neg hp, if_pos hrel]
      simp only [cutLast_append_sep]
      simp
  unfold resolvePath
  simp only [hfull]
  have hne : t ++ '/' :: p.data ≠ [] := by simp
  rw [if_neg hne]
  have hlast : ¬ ((splitSlash (t ++ '/' :: p.data)).getLast? = some ['.'] ∨
      (splitSlash (t ++ '/' :: p.data)).getLast? = some ['.', '.']) := by
    intro h
    rcases h with h | h
    · exact (hdots _ (List.mem_of_getLast?_eq_some h)).1 rfl
    · exact (hdots _ (List.mem_of_getLast?_eq_some h)).2 rfl
  rw [if_neg hlast, removeDots_no_dots [] _ hdots]
  simp only [List.reverse_nil, List.nil_append, joinSlash_splitSlash]
  have hhead : (t ++ '/' :: p.data).head? = some '/' := by
    cases t with
    | nil => rfl
    | cons c cs => simpa using hroot
  rw [if_pos hhead]
  congr 1
  cases hl : t ++ '/' :: p.data with
  | nil => exact absurd hl hne
  | cons c cs =>
    rw [hl] at hhead
    simp only [List.head?_cons, Option.some.injEq] at hhead
    rw [hhead]
    rfl

theorem escapedPath_plain (u : URL) (hraw : u.RawPath = "") (h : ∀ c ∈ u.Path.data, pathChar c) :
    u.EscapedPath = u.Path := by
  unfold URL.EscapedPath
  simp only [hraw, ne_eq, not_true_eq_false, false_and, if_false]
  by_cases hs : u.Path = "*"
  · rw [if_pos hs, hs]
  · rw [if_neg hs, escape_plain _ h]

/-- The text of a URL that has only scheme, authority and a plain absolute path. -/
theorem urlString_plain (u : URL) (hop : u.Opaque = "") (hraw : u.RawPath = "")
    (hfq : u.ForceQuery = false) (hq : u.RawQuery = "") (hf : u.Fragment = "")
    (h : ∀ c ∈ u.Path.data, pathChar c) (hroot : u.Path.data.head? = some '/') :
    urlString u = urlHead u.Scheme u.User u.Host ++ u.Path := by
  have hne : u.Path ≠ "" := by
    intro e
    rw [e] at hroot
    simp at hroot
  have hcut : (cutFirst '/' u.Path.data).1 = [] := by
    cases hd : u.Path.data with
    | nil => rw [hd] at hroot; simp at hroot
    | cons c cs =>
      rw [hd] at hroot
      simp only [List.head?_cons, Option.some.injEq] at hroot
      rw [hroot]
      simp [cutFirst]
  unfold urlString urlHead
  simp only [hop, hfq, hq, hf, escapedPath_plain u hraw h, hroot, hcut, ne_eq, not_true_eq_false,
    if_false, List.not_mem_nil, false_and, and_false, String.append_empty, or_self,
    Bool.false_eq_true, hne, not_false_eq_true, or_true, true_or, if_true, and_true]

/-- Resolving a bare relative path `p` against a base URL that has only scheme,
authority and a plain path ending in a slash: the path is the base path
followed by `p`, everything else is as in the base. -/
theorem resolveReference_plain (base : URL) (p : String)
    (hop : base.Opaque = "") (hraw : base.RawPath = "") (hfq : base.ForceQuery = false)
    (hq : base.RawQuery = "") (hf : base.Fragment = "")
    (hbase : ∀ c ∈ base.Path.data, pathChar c) (hroot : base.Path.data.head? = some '/')
    (hslash : hasSuffix base.Path "/" = true)
    (hp : ∀ c ∈ p.data, pathChar c) (hrel : p.data.head? ≠ some '/')
    (hdb : ∀ seg ∈ splitSlash base.Path.data, seg ≠ ['.'] ∧ seg ≠ ['.', '.'])
    (hdp : ∀ seg ∈ splitSlash p.data, seg ≠ ['.'] ∧ seg ≠ ['.', '.']) :
    base.ResolveReference { Path := p } = { base with Path := base.Path ++ p } := by
  obtain ⟨t, ht⟩ := (hasSuffix_iff _ _).1 hslash
  have ht2 : base.Path.data = t ++ ['/'] := ht.symm
  have hbp : base.Path = String.mk (t ++ ['/']) := by
    apply String.ext
    exact ht2
  have hsegs : ∀ seg ∈ splitSlash (t ++ '/' :: p.data), seg ≠ ['.'] ∧ seg ≠ ['.', '.'] := by
    intro seg hm
    rw [splitSlash_append_slash] at hm
    rcases List.mem_append.1 hm with h1 | h1
    · apply hdb
      rw [ht2]
      have : t ++ ['/'] = t ++ '/' :: [] := rfl
      rw [this, splitSlash_append_slash]
      exact List.mem_append_left _ h1
    · exact hdp seg h1
  have hres : resolvePath base.Path p = base.Path ++ p := by
    rw [hbp, resolvePath_plain t p hrel (by rw [← ht2]; exact hroot) hsegs]
    apply String.ext
    simp
  have hall : ∀ c ∈ (base.Path ++ p).data, pathChar c := by
    intro c hc
    rw [String.data_append] at hc
    rcases List.mem_append.1 hc with h1 | h1
    · exact hbase c h1
    · exact hp c h1
  have hrefEsc : ({ Path := p } : URL).EscapedPath = p :=
    escapedPath_plain { Path := p } rfl hp
  unfold URL.ResolveReference
  simp only [ne_eq, not_true_eq_false, or_self, if_false, if_true, hrefEsc,
    escapedPath_plain base hraw hbase, hres]
  unfold URL.setPathIgnoringError
  rw [setPath_plain _ _ hall]
  cases base with
  | mk sch op us ho pa rp fq rq fr =>
    simp only at hop hraw hfq hq hf
    subst hop hraw hfq hq hf
    by_cases hpe : p = "" <;> simp [hpe]

theorem NewClient_inv (D : HTTPClient) (baseURL : String) (httpClient : Option HTTPClient)
    (c : Client) (h : NewClient D baseURL httpClient = Except.ok c) :
    ∃ u, urlParse baseURL = Except.ok u ∧ c.baseURL = { u with Path := normalisePath u.Path } := by
  cases hu : urlParse baseURL with
  | error e =>
    unfold NewClient at h
    simp [hu] at h
  | ok u =>
    rw [NewClient_ok D baseURL httpClient u hu] at h
    simp only [Except.ok.injEq] at h
    exact ⟨u, rfl, by rw [← h]⟩

/-- C5, counterexample: for the client built from `http://localhost`, the
relative path `v1/accounts` gives a request URL with `v1/` twice, and the
relative path `../accounts` gives a request URL without `v1/`, which is not
the base URL followed by the path. -/
theorem C5_counterexample :
    (NewClient (respondWith 200 "") "http://localhost" none).map Client.baseURL
        = Except.ok (localClient (respondWith 200 "")).baseURL
      ∧ ((localClient (respondWith 200 "")).NewRequest marshalAccount "GET" "v1/accounts"
          none).map (fun r => urlString r.URL) = Except.ok "http://localhost/v1/v1/accounts"
      ∧ countSub "v1/".data "http://localhost/v1/v1/accounts".data = 2
      ∧ ((localClient (respondWith 200 "")).NewRequest marshalAccount "GET" "../accounts"
          none).map (fun r => urlString r.URL) = Except.ok "http://localhost/accounts"
      ∧ countSub "v1/".data "http://localhost/accounts".data = 0 := by
  decide


/-! ### Encoding and decoding of accounts -/

theorem decodeElements_strings (xs : List String) :
    decodeElements "" decodeString (xs.map JSON.str) [] = (xs, false) := by
  induction xs with
  | nil => rfl
  | cons x rest ih =>
    simp only [List.map_cons, decodeElements, ih, decodeString, Bool.or_false]

theorem decodeSlice_encodeStrings (o : Option (List String)) :
    decodeSlice "" decodeString (encodeStrings o) none = (o, false) := by
  cases o with
  | none => rfl
  | some xs =>
    simp only [encodeStrings, decodeSlice, Option.getD_none, decodeElements_strings]

theorem storeAttributes_country (st : AccountAttributes × Bool) (v : JSON) :
    storeAttributesMember st ("country", v) =
      ({ st.1 with Country := (decodeString v st.1.Country).1 }, st.2 || (decodeString v st.1.Country).2) := by
  rfl

theorem storeAttributes_base_currency (st : AccountAttributes × Bool) (v : JSON) :
    storeAttributesMember st ("base_currency", v) =
      ({ st.1 with BaseCurrency := (decodeString v st.1.BaseCurrency).1 }, st.2 || (decodeString v st.1.BaseCurrency).2) := by
  rfl

theorem foldAttributes_base_currency (st : AccountAttributes × Bool) (v : String) (h0 : st.1.BaseCurrency = "") :
    (omitEmptyStr "base_currency" v).foldl storeAttributesMember st = ({ st.1 with BaseCurrency := v }, st.2) := by
  unfold omitEmptyStr
  by_cases hv : v = ""
  · rw [if_pos hv, hv, ← h0]
    rfl
  · rw [if_neg hv]
    simp only [List.foldl_cons, List.foldl_nil, storeAttributes_base_currency, decodeString, Bool.or_false]

theorem storeAttributes_account_number (st : AccountAttributes × Bool) (v : JSON) :
    storeAttributesMember st ("account_number", v) =
      ({ st.1 with AccountNumber := (decodeString v st.1.AccountNumber).1 }, st.2 || (decodeString v st.1.AccountNumber).2) := by
  rfl

theorem foldAttributes_account_number (st : AccountAttributes × Bool) (v : String) (h0 : st.1.AccountNumber = "") :
    (omitEmptyStr "account_number" v).foldl storeAttributesMember st = ({ st.1 with AccountNumber := v }, st.2) := by
  unfold omitEmptyStr
  by_cases hv : v = ""
  · rw [if_pos hv, hv, ← h0]
    rfl
  · rw [if_neg hv]
    simp only [List.foldl_cons, List.foldl_nil, storeAttributes_account_number, decodeString, Bool.or_false]

theorem storeAttributes_bank_id (st : AccountAttributes × Bool) (v : JSON) :
    storeAttributesMember st ("bank_id", v) =
      ({ st.1 with BankID := (decodeString v st.1.BankID).1 }, st.2 || (decodeString v st.1.BankID).2) := by
  rfl

theorem foldAttributes_bank_id (st : AccountAttributes × Bool) (v : String) (h0 : st.1.BankID = "") :
    (omitEmptyStr "bank_id" v).foldl storeAttributesMember st = ({ st.1 with BankID := v }, st.2) := by
  unfold omitEmptyStr
  by_cases hv : v = ""
  · rw [if_pos hv, hv, ← h0]
    rfl
  · rw [if_neg hv]
    simp only [List.foldl_cons, List.foldl_nil, storeAttributes_bank_id, decodeString, Bool.or_false]

theorem storeAttributes_bank_id_code (st : AccountAttributes × Bool) (v : JSON) :
    storeAttributesMember st ("bank_id_code", v) =
      ({ st.1 with BankIDCode := (decodeString v st.1.BankIDCode).1 }, st.2 || (decodeString v st.1.BankIDCode).2) := by
  rfl

theorem foldAttributes_bank_id_code (st : AccountAttributes × Bool) (v : String) (h0 : st.1.BankIDCode = "") :
    (omitEmptyStr "bank_id_code" v).foldl storeAttributesMember st = ({ st.1 with BankIDCode := v }, st.2) := by
  unfold omitEmptyStr
  by_cases hv : v = ""
  · rw [if_pos hv, hv, ← h0]
    rfl
  · rw [if_neg hv]
    simp only [List.foldl_cons, List.foldl_nil, storeAttributes_bank_id_code, decodeString, Bool.or_false]

theorem storeAttributes_bic (st : AccountAttributes × Bool) (v : JSON) :
    storeAttributesMember st ("bic", v) =
      ({ st.1 with Bic := (decodeString v st.1.Bic).1 }, st.2 || (decodeString v st.1.Bic).2) := by
  rfl

theorem foldAttributes_bic (st : AccountAttributes × Bool) (v : String) (h0 : st.1.Bic = "") :
    (omitEmptyStr "bic" v).foldl storeAttributesMember st = ({ st.1 with Bic := v }, st.2) := by
  unfold omitEmptyStr
  by_cases hv : v = ""
  · rw [if_pos hv, hv, ← h0]
    rfl
  · rw [if_neg hv]
    simp only [List.foldl_cons, List.foldl_nil, storeAttributes_bic, decodeString, Bool.or_false]

theorem storeAttributes_iban (st : AccountAttributes × Bool) (v : JSON) :
    storeAttributesMember st ("iban", v) =
      ({ st.1 with Iban := (decodeString v st.1.Iban).1 }, st.2 || (decodeString v st.1.Iban).2) := by
  rfl

theorem foldAttributes_iban (st : AccountAttributes × Bool) (v : String) (h0 : st.1.Iban = "") :
    (omitEmptyStr "iban" v).foldl storeAttributesMember st = ({ st.1 with Iban := v }, st.2) := by
  unfold omitEmptyStr
  by_cases hv : v = ""
  · rw [if_pos hv, hv, ← h0]
    rfl
  · rw [if_neg hv]
    simp only [List.foldl_cons, List.foldl_nil, storeAttributes_iban, decodeString, Bool.or_false]

theorem storeAttributes_customer_id (st : AccountAttributes × Bool) (v : JSON) :
    storeAttributesMember st ("customer_id", v) =
      ({ st.1 with CustomerID := (decodeString v st.1.CustomerID).1 }, st.2 || (decodeString v st.1.CustomerID).2) := by
  rfl

theorem foldAttributes_customer_id (st : AccountAttributes × Bool) (v : String) (h0 : st.1.CustomerID = "") :
    (omitEmptyStr "customer_id" v).foldl storeAttributesMember st = ({ st.1 with CustomerID := v }, st.2) := by
  unfold omitEmptyStr
  by_cases hv : v = ""
  · rw [if_pos hv, hv, ← h0]
    rfl
  · rw [if_neg hv]
    simp only [List.foldl_cons, List.foldl_nil, storeAttributes_customer_id, decodeString, Bool.or_false]

theorem storeAttributes_name (st : AccountAttributes × Bool) (v : JSON) :
    storeAttributesMember st ("name", v) =
      ({ st.1 with Name := (decodeSlice "" decodeString v st.1.Name).1 }, st.2 || (decodeSlice "" decodeString v st.1.Name).2) := by
  rfl

theorem storeAttributes_alternative_names (st : AccountAttributes × Bool) (v : JSON) :
    storeAttributesMember st ("alternative_names", v) =
      ({ st.1 with AlternativeNames := (decodeSlice "" decodeString v st.1.AlternativeNames).1 }, st.2 || (decodeSlice "" decodeString v st.1.AlternativeNames).2) := by
  rfl

theorem foldAttributes_alternative_names (st : AccountAttributes × Bool) (v : Option (List String))
    (h0 : st.1.AlternativeNames = none) (hv : v ≠ some []) :
    (omitEmptyStrings "alternative_names" v).foldl storeAttributesMember st = ({ st.1 with AlternativeNames := v }, st.2) := by
  cases v with
  | none =>
    simp only [omitEmptyStrings, List.foldl_nil]
    rw [← h0]
  | some xs =>
    cases xs with
    | nil => exact absurd rfl hv
    | cons x rest =>
      simp only [omitEmptyStrings, List.foldl_cons, List.foldl_nil, storeAttributes_alternative_names,
        decodeSlice, h0, Option.getD_none, decodeElements_strings, Bool.or_false]

theorem storeAttributes_account_classification (st : AccountAttributes × Bool) (v : JSON) :
    storeAttributesMember st ("account_classification", v) =
      ({ st.1 with AccountClassification := (decodeString v st.1.AccountClassification).1 }, st.2 || (decodeString v st.1.AccountClassification).2) := by
  rfl

theorem foldAttributes_account_classification (st : AccountAttributes × Bool) (v : String) (h0 : st.1.AccountClassification = "") :
    (omitEmptyStr "account_classification" v).foldl storeAttributesMember st = ({ st.1 with AccountClassification := v }, st.2) := by
  unfold omitEmptyStr
  by_cases hv : v = ""
  · rw [if_pos hv, hv, ← h0]
    rfl
  · rw [if_neg hv]
    simp only [List.foldl_cons, List.foldl_nil, storeAttributes_account_classification, decodeString, Bool.or_false]

theorem storeAttributes_joint_account (st : AccountAttributes × Bool) (v : JSON) :
    storeAttributesMember st ("joint_account", v) =
      ({ st.1 with JointAccount := (decodeBool v st.1.JointAccount).1 }, st.2 || (decodeBool v st.1.JointAccount).2) := by
  rfl

theorem foldAttributes_joint_account (st : AccountAttributes × Bool) (v : Bool) (h0 : st.1.JointAccount = false) :
    (omitEmptyBool "joint_account" v).foldl storeAttributesMember st = ({ st.1 with JointAccount := v }, st.2) := by
  unfold omitEmptyBool
  by_cases hv : v = false
  · rw [if_pos hv, hv, ← h0]
    rfl
  · rw [if_neg hv]
    simp only [List.foldl_cons, List.foldl_nil, storeAttributes_joint_account, decodeBool, Bool.or_false]

theorem storeAttributes_account_matching_opt_out (st : AccountAttributes × Bool) (v : JSON) :
    storeAttributesMember st ("account_matching_opt_out", v) =
      ({ st.1 with AccountMatchingOptOut := (decodeBool v st.1.AccountMatchingOptOut).1 }, st.2 || (decodeBool v st.1.AccountMatchingOptOut).2) := by
  rfl

theorem foldAttributes_account_matching_opt_out (st : AccountAttributes × Bool) (v : Bool) (h0 : st.1.AccountMatchingOptOut = false) :
    (omitEmptyBool "account_matching_opt_out" v).foldl storeAttributesMember st = ({ st.1 with AccountMatchingOptOut := v }, st.2) := by
  unfold omitEmptyBool
  by_cases hv : v = false
  · rw [if_pos hv, hv, ← h0]
    rfl
  · rw [if_neg hv]
    simp only [List.foldl_cons, List.foldl_nil, storeAttributes_account_matching_opt_out, decodeBool, Bool.or_false]

theorem storeAttributes_secondary_identification (st : AccountAttributes × Bool) (v : JSON) :
    storeAttributesMember st ("secondary_identification", v) =
      ({ st.1 with SecondaryIdentification := (decodeString v st.1.SecondaryIdentification).1 }, st.2 || (decodeString v st.1.SecondaryIdentification).2) := by
  rfl

theorem foldAttributes_secondary_identification (st : AccountAttributes × Bool) (v : String) (h0 : st.1.SecondaryIdentification = "") :
    (omitEmptyStr "secondary_identification" v).foldl storeAttributesMember st = ({ st.1 with SecondaryIdentification := v }, st.2) := by
  unfold omitEmptyStr
  by_cases hv : v = ""
  · rw [if_pos hv, hv, ← h0]
    rfl
  · rw [if_neg hv]
    simp only [List.foldl_cons, List.foldl_nil, storeAttributes_secondary_identification, decodeString, Bool.or_false]

theorem storeAttributes_switched (st : AccountAttributes × Bool) (v : JSON) :
    storeAttributesMember st ("switched", v) =
      ({ st.1 with Switched := (decodeBool v st.1.Switched).1 }, st.2 || (decodeBool v st.1.Switched).2) := by
  rfl

theorem foldAttributes_switched (st : AccountAttributes × Bool) (v : Bool) (h0 : st.1.Switched = false) :
    (omitEmptyBool "switched" v).foldl storeAttributesMember st = ({ st.1 with Switched := v }, st.2) := by
  unfold omitEmptyBool
  by_cases hv : v = false
  · rw [if_pos hv, hv, ← h0]
    rfl
  · rw [if_neg hv]
    simp only [List.foldl_cons, List.foldl_nil, storeAttributes_switched, decodeBool, Bool.or_false]

theorem storeAttributes_status (st : AccountAttributes × Bool) (v : JSON) :
    storeAttributesMember st ("status", v) =
      ({ st.1 with Status := (decodeString v st.1.Status).1 }, st.2 || (decodeString v st.1.Status).2) := by
  rfl

/-- Decoding the JSON form of attributes gives the attributes back, unless
`AlternativeNames` is an empty non-nil slice. -/
theorem decode_encodeAttributes (a : AccountAttributes) (h : a.AlternativeNames ≠ some []) :
    decodeAttributes (encodeAttributes a) AccountAttributes.zero = (a, false) := by
  unfold decodeAttributes decodeStruct encodeAttributes
  simp only [List.foldl_append, List.foldl_cons, List.foldl_nil]
  rw [storeAttributes_country]
  rw [foldAttributes_base_currency _ _ rfl, foldAttributes_account_number _ _ rfl,
    foldAttributes_bank_id _ _ rfl, foldAttributes_bank_id_code _ _ rfl,
    foldAttributes_bic _ _ rfl, foldAttributes_iban _ _ rfl, foldAttributes_customer_id _ _ rfl,
    storeAttributes_name, foldAttributes_alternative_names _ _ rfl h,
    foldAttributes_account_classification _ _ rfl, foldAttributes_joint_account _ _ rfl,
    foldAttributes_account_matching_opt_out _ _ rfl,
    foldAttributes_secondary_identification _ _ rfl, foldAttributes_switched _ _ rfl,
    storeAttributes_status]
  simp only [AccountAttributes.zero, decodeString, decodeSlice_encodeStrings, Bool.or_false]

theorem digitChar_lt_ten : ∀ k, k < 10 →
    (Nat.digitChar k).isDigit = true ∧ (Nat.digitChar k).toNat - '0'.toNat = k ∧
      Nat.digitChar k ≠ '-' := by
  decide

/-- The digits `Nat.toDigitsCore` writes in front of `ds`: not none, all decimal
digits, and their value is `n`. -/
theorem toDigitsCore_spec (fuel : Nat) : ∀ (n : Nat) (ds : List Char), n < fuel →
    ∃ pre, Nat.toDigitsCore 10 fuel n ds = pre ++ ds ∧ pre ≠ [] ∧
      (∀ c ∈ pre, c.isDigit = true ∧ c ≠ '-') ∧
      ∀ init, digitsValue pre init = init * 10 ^ pre.length + n := by
  induction fuel with
  | zero => intro n ds h; exact absurd h (Nat.not_lt_zero n)
  | succ fuel ih =>
    intro n ds h
    have hd := digitChar_lt_ten (n % 10) (Nat.mod_lt n (by decide))
    unfold Nat.toDigitsCore
    simp only
    by_cases hz : n / 10 = 0
    · rw [if_pos hz]
      refine ⟨[Nat.digitChar (n % 10)], rfl, by simp, ?_, ?_⟩
      · intro c hc
        simp only [List.mem_singleton] at hc
        rw [hc]
        exact ⟨hd.1, hd.2.2⟩
      · intro init
        have hn : n % 10 = n := Nat.mod_eq_of_lt (by omega)
        simp only [digitsValue, List.foldl_cons, List.foldl_nil, List.length_singleton, pow_one]
        rw [hd.2.1, hn]
    · rw [if_neg hz]
      have hlt : n / 10 < fuel := by omega
      obtain ⟨pre, hpre, hne, hall, hval⟩ := ih (n / 10) (Nat.digitChar (n % 10) :: ds) hlt
      refine ⟨pre ++ [Nat.digitChar (n % 10)], ?_, by simp, ?_, ?_⟩
      · rw [hpre]; simp
      · intro c hc
        rcases List.mem_append.1 hc with h1 | h1
        · exact hall c h1
        · simp only [List.mem_singleton] at h1
          rw [h1]
          exact ⟨hd.1, hd.2.2⟩
      · intro init
        have h1 : digitsValue (pre ++ [Nat.digitChar (n % 10)]) init
            = digitsValue pre init * 10 + ((Nat.digitChar (n % 10)).toNat - '0'.toNat) := by
          simp [digitsValue, List.foldl_append]
        rw [h1, hval, hd.2.1]
        simp only [List.length_append, List.length_singleton, pow_succ]
        have := Nat.div_add_mod n 10
        nlinarith [this]

theorem toDigits_spec (n : Nat) :
    Nat.toDigits 10 n ≠ [] ∧ (∀ c ∈ Nat.toDigits 10 n, c.isDigit = true ∧ c ≠ '-') ∧
      digitsValue (Nat.toDigits 10 n) 0 = n := by
  obtain ⟨pre, hpre, hne, hall, hval⟩ := toDigitsCore_spec (n + 1) n [] (Nat.lt_succ_self n)
  unfold Nat.toDigits
  rw [hpre, List.append_nil]
  refine ⟨hne, hall, ?_⟩
  rw [hval 0]
  simp

/-- Parsing the decimal text of a 64-bit integer gives the integer back. -/
theorem parseInt64_fmtInt (n : Int) (h : isInt64 n) : parseInt64 (fmtInt n) = some n := by
  unfold isInt64 at h
  cases n with
  | ofNat k =>
    obtain ⟨hne, hall, hval⟩ := toDigits_spec k
    have hk : k < 2 ^ 63 := by
      have h2 := h.2
      simp only [Int.ofNat_eq_coe] at h2
      omega
    unfold parseInt64 fmtInt
    simp only
    cases hd : Nat.toDigits 10 k with
    | nil => exact absurd hd hne
    | cons c cs =>
      have hc : c ≠ '-' := (hall c (by rw [hd]; exact List.mem_cons_self _ _)).2
      have hall2 : (c :: cs).all Char.isDigit = true := by
        rw [List.all_eq_true]
        intro x hx
        exact (hall x (by rw [hd]; exact hx)).1
      have hv : digitsValue (c :: cs) 0 = k := by rw [← hd]; exact hval
      unfold digitsValue at hv
      split
      · rename_i ds heq
        simp only [List.cons.injEq] at heq
        exact absurd heq.1.symm (fun e => hc e.symm)
      · simp only [ne_eq, not_false_eq_true, true_and, hall2, hv, hk, if_true]
        rfl
  | negSucc k =>
    obtain ⟨hne, hall, hval⟩ := toDigits_spec (k + 1)
    have hk : k + 1 ≤ 2 ^ 63 := by
      have h1 := h.1
      rw [Int.negSucc_eq] at h1
      omega
    have hall2 : (Nat.toDigits 10 (k + 1)).all Char.isDigit = true := by
      rw [List.all_eq_true]
      intro x hx
      exact (hall x hx).1
    unfold digitsValue at hval
    unfold parseInt64 fmtInt
    simp only [ne_eq, hne, not_false_eq_true, hall2, hval, hk, and_self, if_true]
    rfl

theorem storeAccountData_type (st : AccountData × Bool) (v : JSON) :
    storeAccountDataMember st ("type", v) =
      ({ st.1 with Type_ := (decodeString v st.1.Type_).1 }, st.2 || (decodeString v st.1.Type_).2) := by
  rfl

theorem storeAccountData_id (st : AccountData × Bool) (v : JSON) :
    storeAccountDataMember st ("id", v) =
      ({ st.1 with ID := (decodeString v st.1.ID).1 }, st.2 || (decodeString v st.1.ID).2) := by
  rfl

theorem storeAccountData_organisation_id (st : AccountData × Bool) (v : JSON) :
    storeAccountDataMember st ("organisation_id", v) =
      ({ st.1 with OrganisationID := (decodeString v st.1.OrganisationID).1 }, st.2 || (decodeString v st.1.OrganisationID).2) := by
  rfl

theorem storeAccountData_version (st : AccountData × Bool) (v : JSON) :
    storeAccountDataMember st ("version", v) =
      ({ st.1 with Version := (decodeInt v st.1.Version).1 }, st.2 || (decodeInt v st.1.Version).2) := by
  rfl

theorem storeAccountData_attributes (st : AccountData × Bool) (v : JSON) :
    storeAccountDataMember st ("attributes", v) =
      ({ st.1 with Attributes := (decodePtr AccountAttributes.zero decodeAttributes v st.1.Attributes).1 }, st.2 || (decodePtr AccountAttributes.zero decodeAttributes v st.1.Attributes).2) := by
  rfl

theorem storeAccountData_created_on (st : AccountData × Bool) (v : JSON) :
    storeAccountDataMember st ("created_on", v) =
      ({ st.1 with CreatedOn := (decodeString v st.1.CreatedOn).1 }, st.2 || (decodeString v st.1.CreatedOn).2) := by
  rfl

theorem foldAccountData_created_on (st : AccountData × Bool) (v : String) (h0 : st.1.CreatedOn = "") :
    (omitEmptyStr "created_on" v).foldl storeAccountDataMember st = ({ st.1 with CreatedOn := v }, st.2) := by
  unfold omitEmptyStr
  by_cases hv : v = ""
  · rw [if_pos hv, hv, ← h0]
    rfl
  · rw [if_neg hv]
    simp only [List.foldl_cons, List.foldl_nil, storeAccountData_created_on, decodeString, Bool.or_false]

theorem storeAccountData_modified_on (st : AccountData × Bool) (v : JSON) :
    storeAccountDataMember st ("modified_on", v) =
      ({ st.1 with ModifiedOn := (decodeString v st.1.ModifiedOn).1 }, st.2 || (decodeString v st.1.ModifiedOn).2) := by
  rfl

theorem foldAccountData_modified_on (st : AccountData × Bool) (v : String) (h0 : st.1.ModifiedOn = "") :
    (omitEmptyStr "modified_on" v).foldl storeAccountDataMember st = ({ st.1 with ModifiedOn := v }, st.2) := by
  unfold omitEmptyStr
  by_cases hv : v = ""
  · rw [if_pos hv, hv, ← h0]
    rfl
  · rw [if_neg hv]
    simp only [List.foldl_cons, List.foldl_nil, storeAccountData_modified_on, decodeString, Bool.or_false]

theorem decodePtr_encodeAttributes (o : Option AccountAttributes)
    (h : ∀ a, o = some a → a.AlternativeNames ≠ some []) :
    decodePtr AccountAttributes.zero decodeAttributes (encodeAttributesPtr o) none
      = (o, false) := by
  cases o with
  | none => rfl
  | some a =>
    have hr := decode_encodeAttributes a (h a rfl)
    have hobj : ∃ kvs, encodeAttributes a = JSON.obj kvs := ⟨_, rfl⟩
    obtain ⟨kvs, hk⟩ := hobj
    rw [hk] at hr
    simp only [encodeAttributesPtr, hk, decodePtr, Option.getD_none, hr]

/-- Decoding the JSON form of a record gives the record back. -/
theorem decode_encodeAccountData (d : AccountData) (h : d.faithful) :
    decodeAccountData (encodeAccountData d) AccountData.zero = (d, false) := by
  unfold decodeAccountData decodeStruct encodeAccountData
  simp only [List.foldl_append, List.foldl_cons, List.foldl_nil]
  rw [storeAccountData_type, storeAccountData_id, storeAccountData_organisation_id,
    storeAccountData_version, storeAccountData_attributes,
    foldAccountData_created_on _ _ rfl, foldAccountData_modified_on _ _ rfl]
  simp only [AccountData.zero, decodeString, decodeInt, parseInt64_fmtInt d.Version h.1,
    decodePtr_encodeAttributes d.Attributes h.2, Bool.or_false]

theorem decodeAccountDataPtr_encode (o : Option AccountData) (h : ∀ d, o = some d → d.faithful) :
    decodeAccountDataPtr (encodeAccountDataPtr o) none = (o, false) := by
  cases o with
  | none => rfl
  | some d =>
    have hr := decode_encodeAccountData d (h d rfl)
    have hobj : ∃ kvs, encodeAccountData d = JSON.obj kvs := ⟨_, rfl⟩
    obtain ⟨kvs, hk⟩ := hobj
    rw [hk] at hr
    simp only [encodeAccountDataPtr, decodeAccountDataPtr, hk, decodePtr, Option.getD_none, hr]

theorem storeAccount_data (st : Account × Bool) (v : JSON) :
    storeAccountMember st ("data", v) =
      (⟨(decodeAccountDataPtr v st.1.Data).1⟩, st.2 || (decodeAccountDataPtr v st.1.Data).2) := by
  rfl

/-- Decoding the JSON form of an account into a new `Account` gives the account
back. -/
theorem decode_encodeAccount (a : Account) (h : ∀ d, a.Data = some d → d.faithful) :
    decodeAccount (encodeAccount a) ⟨none⟩ = (a, false) := by
  unfold decodeAccount decodeStruct encodeAccount
  simp only [List.foldl_cons, List.foldl_nil, storeAccount_data,
    decodeAccountDataPtr_encode a.Data h, Bool.or_false]

/-! ### Parsing a URL with a query -/

theorem cutFirst_not_mem (sep : Char) (s : List Char) (h : sep ∉ s) : cutFirst sep s = (s, []) := by
  induction s with
  | nil => rfl
  | cons c cs ih =>
    have hc : c ≠ sep := fun e => h (e ▸ List.mem_cons_self _ _)
    unfold cutFirst
    rw [if_neg hc, ih (fun e => h (List.mem_cons_of_mem _ e))]

theorem cutFirst_append (sep : Char) (a b : List Char) (h : sep ∉ a) :
    cutFirst sep (a ++ sep :: b) = (a, b) := by
  induction a with
  | nil => simp [cutFirst]
  | cons c cs ih =>
    have hc : c ≠ sep := fun e => h (e ▸ List.mem_cons_self _ _)
    simp only [List.cons_append]
    unfold cutFirst
    rw [if_neg hc, ih (fun e => h (List.mem_cons_of_mem _ e))]

/-- The scan for a scheme stops at a question mark. -/
theorem getschemeScan_append (q : List Char) (p : List Char) : ∀ (first : Bool) (acc : List Char),
    getschemeScan first acc (p ++ '?' :: q) =
      match getschemeScan first acc p with
      | Except.error e => Except.error e
      | Except.ok none => Except.ok none
      | Except.ok (some found) => Except.ok (some (found.1, found.2 ++ '?' :: q)) := by
  induction p with
  | nil =>
    intro first acc
    simp only [List.nil_append, getschemeScan]
    have h1 : Char.isAlpha '?' = false := by decide
    have h2 : ¬ (Char.isDigit '?' = true ∨ '?' = '+' ∨ '?' = '-' ∨ '?' = '.') := by decide
    have h3 : '?' ≠ ':' := by decide
    simp [h1, h2, h3]
  | cons c cs ih =>
    intro first acc
    simp only [List.cons_append]
    unfold getschemeScan
    by_cases h1 : c.isAlpha = true
    · simp only [h1, if_true]
      exact ih false (c :: acc)
    · simp only [h1, if_false, Bool.false_eq_true]
      by_cases h2 : (c.isDigit = true ∨ c = '+' ∨ c = '-' ∨ c = '.')
      · simp only [h2, if_true]
        cases first with
        | true => simp
        | false =>
          simp only [Bool.false_eq_true, if_false]
          exact ih false (c :: acc)
      · simp only [h2, if_false]
        by_cases h3 : c = ':'
        · simp only [h3, if_true]
          cases first <;> simp
        · simp only [h3, if_false]

/-- What follows the scheme is part of the text scanned. -/
theorem getschemeScan_rest (p : List Char) : ∀ (first : Bool) (acc : List Char)
    (found : List Char × List Char),
    getschemeScan first acc p = Except.ok (some found) → ∀ c ∈ found.2, c ∈ p := by
  induction p with
  | nil =>
    intro first acc found h
    simp [getschemeScan] at h
  | cons c cs ih =>
    intro first acc found h
    unfold getschemeScan at h
    by_cases h1 : c.isAlpha = true
    · simp only [h1, if_true] at h
      intro x hx
      exact List.mem_cons_of_mem _ (ih _ _ _ h x hx)
    · simp only [h1, if_false, Bool.false_eq_true] at h
      by_cases h2 : (c.isDigit = true ∨ c = '+' ∨ c = '-' ∨ c = '.')
      · simp only [h2, if_true] at h
        cases first with
        | true => simp at h
        | false =>
          simp only [Bool.false_eq_true, if_false] at h
          intro x hx
          exact List.mem_cons_of_mem _ (ih _ _ _ h x hx)
      · simp only [h2, if_false] at h
        by_cases h3 : c = ':'
        · simp only [h3, if_true] at h
          cases first with
          | true => simp at h
          | false =>
            simp only [Bool.false_eq_true, if_false, Except.ok.injEq, Option.some.injEq] at h
            intro x hx
            rw [← h] at hx
            exact List.mem_cons_of_mem _ hx
        · simp only [h3, if_false] at h
          simp at h

theorem setPath_withQuery (u : URL) (p q : String) :
    (u.withQuery q).setPath p = (u.setPath p).map (fun v => v.withQuery q) := by
  unfold URL.setPath
  cases unescape p Encoding.encodePath with
  | error e => rfl
  | ok path =>
    simp only
    by_cases h : escape path Encoding.encodePath = p
    · rw [if_pos h, if_pos h]; rfl
    · rw [if_neg h, if_neg h]; rfl

/-- The query plays no part in what `parse` does after splitting it off. -/
theorem parseAfterQuery_withQuery (u : URL) (q : String) (rest : List Char) :
    parseAfterQuery (u.withQuery q) rest = (parseAfterQuery u rest).map (fun v => v.withQuery q) := by
  unfold parseAfterQuery
  have hs : (u.withQuery q).Scheme = u.Scheme := rfl
  rw [hs]
  by_cases h1 : rest.head? ≠ some '/' ∧ u.Scheme ≠ ""
  · rw [if_pos h1, if_pos h1]; rfl
  · rw [if_neg h1, if_neg h1]
    by_cases h2 : rest.head? ≠ some '/' ∧ ':' ∈ (cutFirst '/' rest).1
    · rw [if_pos h2, if_pos h2]; rfl
    · rw [if_neg h2, if_neg h2]
      split
      · rename_i afterSlashes
        by_cases h3 : u.Scheme ≠ "" ∨ afterSlashes.head? ≠ some '/'
        · rw [if_pos h3, if_pos h3]
          cases parseAuthority (breakFirst '/' afterSlashes).1 with
          | error e => rfl
          | ok uh =>
            simp only
            exact setPath_withQuery { u with User := uh.1, Host := uh.2 } _ q
        · rw [if_neg h3, if_neg h3]
          exact setPath_withQuery u _ q
      · exact setPath_withQuery u _ q

theorem getLast?_append_cons (a : List Char) (c : Char) (b : List Char) :
    (a ++ c :: b).getLast? = (c :: b).getLast? := by
  induction a with
  | nil => rfl
  | cons x xs ih =>
    cases xs with
    | nil => exact List.getLast?_cons_cons
    | cons y ys =>
      rw [List.cons_append, List.cons_append, List.getLast?_cons_cons]
      exact ih

/-- Parsing a text with a query: the part before the question mark is parsed
as it would be alone, and the query is what follows. -/
theorem parseNoFragment_query (p q : List Char) (hp : '?' ∉ p) (hstar : p ≠ ['*'])
    (hq : ∀ c ∈ q, c ≠ '?' ∧ ¬ (c.toNat < 0x20 ∨ c.toNat = 0x7F)) (hqne : q ≠ []) :
    parseNoFragment (p ++ '?' :: q) =
      (parseNoFragment p).map (fun v => v.withQuery (String.mk q)) := by
  unfold parseNoFragment
  have hany : (p ++ '?' :: q).any (fun c => c.toNat < 0x20 || c.toNat = 0x7F)
      = p.any (fun c => c.toNat < 0x20 || c.toNat = 0x7F) := by
    rw [List.any_append, List.any_cons]
    have hq2 : q.any (fun c => c.toNat < 0x20 || c.toNat = 0x7F) = false := by
      rw [List.any_eq_false]
      intro c hc
      have := (hq c hc).2
      simpa using this
    rw [hq2]
    have : ('?'.toNat < 0x20 || '?'.toNat = 0x7F) = false := by decide
    simp [this]
  rw [hany]
  by_cases hctl : p.any (fun c => c.toNat < 0x20 || c.toNat = 0x7F) = true
  · rw [if_pos hctl, if_pos hctl]; rfl
  · rw [if_neg hctl, if_neg hctl]
    have hne : p ++ '?' :: q ≠ ['*'] := by
      intro e
      have : '?' ∈ p ++ '?' :: q := by simp
      rw [e] at this
      simp at this
    rw [if_neg hne, if_neg hstar]
    unfold getscheme
    rw [getschemeScan_append q p true []]
    cases hsc : getschemeScan true [] p with
    | error e => rfl
    | ok found =>
      have hlastq : (q.getLast? ≠ some '?') := by
        intro e
        exact (hq '?' (List.mem_of_getLast?_eq_some e)).1 rfl
      cases found with
      | none =>
        simp only
        have h1 : ¬ ((p ++ '?' :: q).getLast? = some '?' ∧ (p ++ '?' :: q).count '?' = 1) := by
          intro h
          rw [getLast?_append_cons] at h
          cases q with
          | nil => exact hqne rfl
          | cons x xs =>
            rw [List.getLast?_cons_cons] at h
            exact hlastq h.1
        have h2 : ¬ (p.getLast? = some '?' ∧ p.count '?' = 1) := by
          intro h
          exact hp (List.mem_of_getLast?_eq_some h.1)
        rw [if_neg h1, if_neg h2, cutFirst_append '?' p q hp, cutFirst_not_mem '?' p hp]
        exact parseAfterQuery_withQuery { Scheme := String.mk (List.map Char.toLower []) }
          (String.mk q) p
      | some fr =>
        simp only
        have hfr : '?' ∉ fr.2 := fun e => hp (getschemeScan_rest p true [] fr hsc '?' e)
        have h1 : ¬ ((fr.2 ++ '?' :: q).getLast? = some '?' ∧
            (fr.2 ++ '?' :: q).count '?' = 1) := by
          intro h
          rw [getLast?_append_cons] at h
          cases q with
          | nil => exact hqne rfl
          | cons x xs =>
            rw [List.getLast?_cons_cons] at h
            exact hlastq h.1
        have h2 : ¬ (fr.2.getLast? = some '?' ∧ fr.2.count '?' = 1) := by
          intro h
          exact hfr (List.mem_of_getLast?_eq_some h.1)
        rw [if_neg h1, if_neg h2, cutFirst_append '?' fr.2 q hfr, cutFirst_not_mem '?' fr.2 hfr]
        exact parseAfterQuery_withQuery { Scheme := String.mk (List.map Char.toLower fr.1) }
          (String.mk q) fr.2

/-- The same for `url.Parse`, for a text without a fragment. -/
theorem urlParse_query (p q : String) (hp : ∀ c ∈ p.data, c ≠ '?' ∧ c ≠ '#') (hstar : p ≠ "*")
    (hq : ∀ c ∈ q.data, c ≠ '?' ∧ c ≠ '#' ∧ ¬ (c.toNat < 0x20 ∨ c.toNat = 0x7F)) (hqne : q ≠ "") :
    urlParse (p ++ "?" ++ q) = (urlParse p).map (fun v => v.withQuery q) := by
  have hd : (p ++ "?" ++ q).data = p.data ++ '?' :: q.data := by
    simp [String.data_append]
  have hnf : '#' ∉ p.data ++ '?' :: q.data := by
    intro h
    rcases List.mem_append.1 h with h1 | h1
    · exact (hp _ h1).2 rfl
    · rcases List.mem_cons.1 h1 with h2 | h2
      · revert h2; decide
      · exact (hq _ h2).2.1 rfl
  have hnp : '#' ∉ p.data := fun h => (hp _ h).2 rfl
  unfold urlParse
  rw [hd, cutFirst_not_mem '#' _ hnf, cutFirst_not_mem '#' _ hnp]
  simp only [if_true]
  rw [parseNoFragment_query p.data q.data (fun h => (hp _ h).1 rfl)
    (fun e => hstar (String.ext e))
    (fun c hc => ⟨(hq c hc).1, (hq c hc).2.2⟩)
    (fun e => hqne (String.ext e))]
  cases parseNoFragment p.data with
  | error e => rfl
  | ok u => rfl

/-! ### List -/

theorem listPath_eq (n m : Int) : listPath n m = accountsPath ++ "?" ++ listQuery n m := by
  unfold listPath listQuery
  apply String.ext
  simp [String.data_append]

theorem fmtInt_chars (n : Int) : (fmtInt n).data ≠ [] ∧
    ∀ c ∈ (fmtInt n).data, c.isDigit = true ∨ c = '-' := by
  cases n with
  | ofNat k =>
    obtain ⟨hne, hall, _⟩ := toDigits_spec k
    exact ⟨hne, fun c hc => Or.inl (hall c hc).1⟩
  | negSucc k =>
    obtain ⟨_, hall, _⟩ := toDigits_spec (k + 1)
    refine ⟨by simp [fmtInt], ?_⟩
    intro c hc
    simp only [fmtInt, List.mem_cons] at hc
    rcases hc with h | h
    · exact Or.inr h
    · exact Or.inl (hall c h).1

theorem digit_or_minus_clean (c : Char) (h : c.isDigit = true ∨ c = '-') :
    c ≠ '?' ∧ c ≠ '#' ∧ ¬ (c.toNat < 0x20 ∨ c.toNat = 0x7F) := by
  rcases h with h | h
  · have h1 : 48 ≤ c.val ∧ c.val ≤ 57 := by
      simpa [Char.isDigit] using h
    have h2 : 48 ≤ c.toNat ∧ c.toNat ≤ 57 := by
      unfold Char.toNat
      constructor
      · exact_mod_cast h1.1
      · exact_mod_cast h1.2
    refine ⟨?_, ?_, ?_⟩
    · intro e; rw [e] at h2; revert h2; decide
    · intro e; rw [e] at h2; revert h2; decide
    · omega
  · rw [h]; decide

theorem listQuery_clean (n m : Int) : listQuery n m ≠ "" ∧
    ∀ c ∈ (listQuery n m).data, c ≠ '?' ∧ c ≠ '#' ∧ ¬ (c.toNat < 0x20 ∨ c.toNat = 0x7F) := by
  constructor
  · intro e
    have := congrArg String.data e
    simp [listQuery, String.data_append] at this
  · intro c hc
    simp only [listQuery, String.data_append, List.mem_append] at hc
    rcases hc with ((h | h) | h) | h
    · revert c; decide
    · exact digit_or_minus_clean c ((fmtInt_chars n).2 c h)
    · revert c; decide
    · exact digit_or_minus_clean c ((fmtInt_chars m).2 c h)

/-- The path `List` asks for parses to the accounts path and the query. -/
theorem urlParse_listPath (n m : Int) :
    urlParse (listPath n m)
      = Except.ok (({ Path := accountsPath } : URL).withQuery (listQuery n m)) := by
  rw [listPath_eq, urlParse_query accountsPath (listQuery n m) (by decide) (by decide)
    (listQuery_clean n m).2 (listQuery_clean n m).1]
  have : urlParse accountsPath = Except.ok { Path := accountsPath } := by decide
  rw [this]
  rfl

/-- Resolving a relative path against a directory path, both without dot
elements: the relative path is appended. -/
theorem resolvePath_onto (basePath p : String)
    (hroot : basePath.data.head? = some '/') (hslash : hasSuffix basePath "/" = true)
    (hrel : p.data.head? ≠ some '/')
    (hdb : ∀ seg ∈ splitSlash basePath.data, seg ≠ ['.'] ∧ seg ≠ ['.', '.'])
    (hdp : ∀ seg ∈ splitSlash p.data, seg ≠ ['.'] ∧ seg ≠ ['.', '.']) :
    resolvePath basePath p = basePath ++ p := by
  obtain ⟨t, ht⟩ := (hasSuffix_iff _ _).1 hslash
  have ht2 : basePath.data = t ++ ['/'] := ht.symm
  have hbp : basePath = String.mk (t ++ ['/']) := String.ext ht2
  have hsegs : ∀ seg ∈ splitSlash (t ++ '/' :: p.data), seg ≠ ['.'] ∧ seg ≠ ['.', '.'] := by
    intro seg hm
    rw [splitSlash_append_slash] at hm
    rcases List.mem_append.1 hm with h1 | h1
    · apply hdb
      rw [ht2]
      have : t ++ ['/'] = t ++ '/' :: [] := rfl
      rw [this, splitSlash_append_slash]
      exact List.mem_append_left _ h1
    · exact hdp seg h1
  rw [hbp, resolvePath_plain t p hrel (by rw [← ht2]; exact hroot) hsegs]
  apply String.ext
  simp

/-- Resolving a relative path with a query: the path is appended to the base
path, the query is taken over. -/
theorem resolveReference_plain_query (base : URL) (p q : String) (hpne : p ≠ "")
    (hop : base.Opaque = "") (hraw : base.RawPath = "") (hfq : base.ForceQuery = false)
    (hf : base.Fragment = "")
    (hbase : ∀ c ∈ base.Path.data, pathChar c) (hroot : base.Path.data.head? = some '/')
    (hslash : hasSuffix base.Path "/" = true)
    (hp : ∀ c ∈ p.data, pathChar c) (hrel : p.data.head? ≠ some '/')
    (hdb : ∀ seg ∈ splitSlash base.Path.data, seg ≠ ['.'] ∧ seg ≠ ['.', '.'])
    (hdp : ∀ seg ∈ splitSlash p.data, seg ≠ ['.'] ∧ seg ≠ ['.', '.']) :
    base.ResolveReference (({ Path := p } : URL).withQuery q)
      = ({ base with Path := base.Path ++ p } : URL).withQuery q := by
  have hres := resolvePath_onto base.Path p hroot hslash hrel hdb hdp
  have hall : ∀ c ∈ (base.Path ++ p).data, pathChar c := by
    intro c hc
    rw [String.data_append] at hc
    rcases List.mem_append.1 hc with h1 | h1
    · exact hbase c h1
    · exact hp c h1
  have hrefEsc : ({ Path := p, RawQuery := q } : URL).EscapedPath = p :=
    escapedPath_plain { Path := p, RawQuery := q } rfl hp
  unfold URL.ResolveReference URL.withQuery
  simp only [ne_eq, not_true_eq_false, or_self, if_false, if_true, hrefEsc,
    escapedPath_plain base hraw hbase, hres, hpne, false_and]
  unfold URL.setPathIgnoringError
  rw [setPath_plain _ _ hall]
  cases base with
  | mk sch op us ho pa rp fq rq fr =>
    simp only at hop hraw hfq hf
    subst hop hraw hfq hf
    rfl

/-- The text of a URL with a query. -/
theorem urlString_withQuery (u : URL) (q : String) (hqne : q ≠ "") (hfq : u.ForceQuery = false)
    (hq : u.RawQuery = "") (hf : u.Fragment = "") :
    urlString (u.withQuery q) = urlString u ++ "?" ++ q := by
  have hesc : (u.withQuery q).EscapedPath = u.EscapedPath := rfl
  unfold urlString
  rw [hesc]
  simp only [URL.withQuery, hfq, hq, hf, hqne, ne_eq, not_true_eq_false, not_false_eq_true,
    if_false, if_true, or_true, or_false, or_self, Bool.false_eq_true, String.append_empty,
    String.append_assoc]

theorem decodeElements_fresh {α : Type} (zero : α) (dec : JSON → α → α × Bool) (vs : List JSON) :
    decodeElements zero dec vs [] =
      (vs.map (fun v => (dec v zero).1), vs.any (fun v => (dec v zero).2)) := by
  induction vs with
  | nil => rfl
  | cons v rest ih => simp only [decodeElements, ih, List.map_cons, List.any_cons]

theorem storeAccountList_data (st : AccountList × Bool) (v : JSON) :
    storeAccountListMember st ("data", v) =
      (⟨(decodeSlice none decodeAccountDataPtr v st.1.Data).1⟩,
        st.2 || (decodeSlice none decodeAccountDataPtr v st.1.Data).2) := by
  rfl

/-- Decoding the envelope of a list through `&acc`. -/
theorem decodeAccountListPtr_envelope (vs : List JSON) :
    decodeAccountListPtr (JSON.obj [("data", JSON.arr vs)]) (some ⟨none⟩) =
      (some ⟨some (vs.map (fun v => (decodeAccountDataPtr v none).1))⟩,
        vs.any (fun v => (decodeAccountDataPtr v none).2)) := by
  simp only [decodeAccountListPtr, decodePtr, Option.getD_some, decodeAccountList, decodeStruct,
    List.foldl_cons, List.foldl_nil, storeAccountList_data, decodeSlice, Option.getD_none,
    decodeElements_fresh, Bool.false_or]

/-- The outcome of `Do` when the network answers with a status in 200..299 and a body
that starts with a JSON value. -/
theorem Do_decodes {τ : Type} (hr : ResponseDecoder) (c : Client) (cx : Context) (req : Request)
    (d : JSON → τ → τ × Bool) (v0 : τ) (resp : Response) (b : Body) (j : JSON)
    (hctx : req.ctx = Context.background)
    (hnet : c.httpClient.roundTrip req = Except.ok resp) (hs : is2xx resp.StatusCode)
    (hb : resp.Body = some b) (hj : decodeStream b = Except.ok j) :
    c.Do hr (some cx) req (some d) v0 =
      Run.ret ⟨some resp, if (d j v0).2 then some (Error.plain Err.unmarshalType) else none,
        (d j v0).1, [req]⟩ := by
  unfold is2xx at hs
  unfold Client.Do HTTPClient.Do CheckResponse
  simp only [hctx, Context.background, hnet, hs, and_self, if_true, hb, hj]

theorem decodeStream_object (b : Body) (kvs : List (String × JSON)) (rest : List Char)
    (h : scanValue b.data = some (JSON.obj kvs, rest)) : decodeStream b = Except.ok (JSON.obj kvs) := by
  unfold decodeStream
  rw [h]

/-- The request `NewRequest` builds for `List`, on a client whose base URL has
only scheme, authority and a plain path that ends with a slash. -/
theorem NewRequest_list (c : Client) (n m : Int) (u : URL)
    (hop : c.baseURL.Opaque = "") (hraw : c.baseURL.RawPath = "")
    (hfq : c.baseURL.ForceQuery = false) (hq : c.baseURL.RawQuery = "")
    (hf : c.baseURL.Fragment = "")
    (hbase : ∀ ch ∈ c.baseURL.Path.data, pathChar ch)
    (hroot : c.baseURL.Path.data.head? = some '/')
    (hslash : hasSuffix c.baseURL.Path "/" = true)
    (hdb : ∀ seg ∈ splitSlash c.baseURL.Path.data, seg ≠ ['.'] ∧ seg ≠ ['.', '.'])
    (hclean : ∀ ch ∈ (urlString c.baseURL).data, ch ≠ '?' ∧ ch ≠ '#')
    (hre : urlParse (urlString c.baseURL ++ accountsPath) = Except.ok u) :
    c.NewRequest marshalAccount "GET" (listPath n m) none = Except.ok (listRequest u n m) := by
  have hp : ∀ ch ∈ accountsPath.data, pathChar ch := by decide
  have hres := resolveReference_plain_query c.baseURL accountsPath (listQuery n m) (by decide)
    hop hraw hfq hf hbase hroot hslash hp (by decide) hdb (by decide)
  have hall : ∀ ch ∈ (c.baseURL.Path ++ accountsPath).data, pathChar ch := by
    intro ch hc
    rw [String.data_append] at hc
    rcases List.mem_append.1 hc with h1 | h1
    · exact hbase ch h1
    · exact hp ch h1
  have hroot2 : (c.baseURL.Path ++ accountsPath).data.head? = some '/' := by
    rw [String.data_append]
    cases hd : c.baseURL.Path.data with
    | nil => rw [hd] at hroot; simp at hroot
    | cons x xs => rw [hd] at hroot; simpa using hroot
  have hstr : urlString ({ c.baseURL with Path := c.baseURL.Path ++ accountsPath } : URL)
      = urlString c.baseURL ++ accountsPath := by
    have h1 := urlString_plain ({ c.baseURL with Path := c.baseURL.Path ++ accountsPath } : URL)
      hop hraw hfq hq hf hall hroot2
    have h2 := urlString_plain c.baseURL hop hraw hfq hq hf hbase hroot
    rw [h2, String.append_assoc]
    exact h1
  have hstr2 : urlString (({ c.baseURL with Path := c.baseURL.Path ++ accountsPath } : URL).withQuery
      (listQuery n m)) = urlString c.baseURL ++ accountsPath ++ "?" ++ listQuery n m := by
    have h3 := urlString_withQuery
      ({ c.baseURL with Path := c.baseURL.Path ++ accountsPath } : URL) (listQuery n m)
      (listQuery_clean n m).1 hfq hq hf
    rw [hstr] at h3
    exact h3
  have hpre : ∀ ch ∈ (urlString c.baseURL ++ accountsPath).data, ch ≠ '?' ∧ ch ≠ '#' := by
    intro ch hc
    rw [String.data_append] at hc
    have hacc : ∀ x ∈ accountsPath.data, x ≠ '?' ∧ x ≠ '#' := by decide
    rcases List.mem_append.1 hc with h1 | h1
    · exact hclean ch h1
    · exact hacc ch h1
  have hstar : urlString c.baseURL ++ accountsPath ≠ "*" := by
    intro e
    have h1 := congrArg String.length e
    rw [String.length_append] at h1
    have h2 : accountsPath.length = 21 := by decide
    have h3 : "*".length = 1 := by decide
    omega
  have hparse2 := urlParse_query (urlString c.baseURL ++ accountsPath) (listQuery n m) hpre hstar
    (listQuery_clean n m).2 (listQuery_clean n m).1
  rw [hre] at hparse2
  unfold Client.NewRequest URL.Parse
  rw [urlParse_listPath]
  simp only [hres, hstr2, httpNewRequest, hparse2]
  rfl

/-- C8: for all integers `n` and `m`, on a client whose base URL has only
scheme, authority and a plain path ending with a slash, `List(ctx, n, m)` with
a non-nil context sends one request: a GET whose URL is the client's base
URL followed by `organisation/accounts`, with the query
`page[number]=n&page[size]=m`. If the answer has a status in 200..299 and its
body is the envelope with the member `data` holding an array of k values that
each decode into a record without error, `List` returns a nil error and the
list of the k decoded records in the order of the array. -/
theorem C8_list_sends_get_and_decodes_in_order (hr : ResponseDecoder) (s : AccountsService)
    (cx : Context) (n m : Int) (u : URL) (resp : Response) (b : Body) (vs : List JSON)
    (rest : List Char)
    (hop : s.client.baseURL.Opaque = "") (hraw : s.client.baseURL.RawPath = "")
    (hfq : s.client.baseURL.ForceQuery = false) (hq : s.client.baseURL.RawQuery = "")
    (hf : s.client.baseURL.Fragment = "")
    (hbase : ∀ ch ∈ s.client.baseURL.Path.data, pathChar ch)
    (hroot : s.client.baseURL.Path.data.head? = some '/')
    (hslash : hasSuffix s.client.baseURL.Path "/" = true)
    (hdb : ∀ seg ∈ splitSlash s.client.baseURL.Path.data, seg ≠ ['.'] ∧ seg ≠ ['.', '.'])
    (hclean : ∀ ch ∈ (urlString s.client.baseURL).data, ch ≠ '?' ∧ ch ≠ '#')
    (hre : urlParse (urlString s.client.baseURL ++ accountsPath) = Except.ok u)
    (hnet : s.client.httpClient.roundTrip (listRequest u n m) = Except.ok resp)
    (hs : is2xx resp.StatusCode) (hb : resp.Body = some b)
    (hbody : scanValue b.data = some (JSON.obj [("data", JSON.arr vs)], rest))
    (hrec : ∀ v ∈ vs, (decodeAccountDataPtr v none).2 = false) :
    s.List hr (some cx) n m =
        Run.ret ⟨some ⟨some (vs.map (fun v => (decodeAccountDataPtr v none).1))⟩, some resp, none,
          [listRequest u n m]⟩
      ∧ (listRequest u n m).Method = "GET"
      ∧ (listRequest u n m).URL.RawQuery = "page[number]=" ++ fmtInt n ++ "&page[size]=" ++ fmtInt m
      ∧ (vs.map (fun v => (decodeAccountDataPtr v none).1)).length = vs.length := by
  refine ⟨?_, rfl, rfl, by simp⟩
  have hany : vs.any (fun v => (decodeAccountDataPtr v none).2) = false := by
    rw [List.any_eq_false]
    intro v hv
    simp [hrec v hv]
  unfold AccountsService.List
  rw [NewRequest_list s.client n m u hop hraw hfq hq hf hbase hroot hslash hdb hclean hre]
  simp only
  rw [Do_decodes hr s.client cx (listRequest u n m) decodeAccountListPtr _ resp b _ rfl hnet hs hb
    (decodeStream_object b _ rest hbody)]
  simp only [decodeAccountListPtr_envelope, hany, Bool.false_eq_true, if_false]

/-- C8, witness: `List(0, 0)` against a server that answers 200 with the body
`{"data":[]}`: a result of length zero and no error. -/
theorem C8_list_sends_get_and_decodes_in_order_witness :
    (AccountsService.mk (localClient (respondWith 200 bodyEmptyList))).List decodeResponseFields
        (some Context.background) 0 0
      = Run.ret ⟨some ⟨some []⟩,
          some ⟨200, some ⟨bodyEmptyList, none⟩, some (listRequest localAccountsURL 0 0)⟩,
          none, [listRequest localAccountsURL 0 0]⟩ :=
  (C8_list_sends_get_and_decodes_in_order decodeResponseFields
    (AccountsService.mk (localClient (respondWith 200 bodyEmptyList))) Context.background 0 0
    localAccountsURL
    ⟨200, some ⟨bodyEmptyList, none⟩, some (listRequest localAccountsURL 0 0)⟩
    ⟨bodyEmptyList, none⟩ [] []
    rfl rfl rfl rfl rfl (by decide) (by decide) (by decide) (by decide) (by decide) (by decide)
    rfl (by decide) rfl (by decide) (by simp)).1

/-! ### The encoder's text read back by the scanner -/

theorem renderString_append (s : String) (rest : List Char) :
    renderString s ++ rest = '"' :: renderChars s.data ('"' :: rest) := by
  unfold renderString renderChars
  simp only [List.cons_append, List.cons.injEq, true_and]
  induction s.data with
  | nil => rfl
  | cons c cs ih => simp only [List.foldr_cons, List.append_assoc, ih]

theorem renderChar_ne_nil (c : Char) : 1 ≤ (renderChar c).length := by
  unfold renderChar
  repeat' split
  all_goals simp

theorem renderChars_length (cs tail : List Char) :
    cs.length + tail.length ≤ (renderChars cs tail).length := by
  induction cs with
  | nil => simp [renderChars]
  | cons c rest ih =>
    have h := renderChar_ne_nil c
    simp only [renderChars, List.foldr_cons, List.length_append, List.length_cons] at ih ⊢
    omega

theorem hexVal_lowerHex : ∀ k, k < 16 → hexVal (lowerHex k) = some k := by
  decide

theorem getu4_low (n : Nat) (h : n < 0x80) :
    getu4 '0' '0' (lowerHex (n / 16)) (lowerHex (n % 16)) = some n := by
  unfold getu4
  have h0 : hexVal '0' = some 0 := by decide
  rw [h0, hexVal_lowerHex (n / 16) (by omega), hexVal_lowerHex (n % 16) (Nat.mod_lt n (by decide))]
  simp only [Option.some.injEq]
  omega

/-- The scanner reads one written character back. -/
theorem parseStringBody_renderChar (fuel : Nat) (c : Char) (more acc : List Char) :
    parseStringBody (fuel + 1) (renderChar c ++ more) acc = parseStringBody fuel more (c :: acc) := by
  unfold renderChar
  by_cases h1 : c = '"'
  · rw [if_pos h1, h1]; rfl
  · rw [if_neg h1]
    by_cases h2 : c = '\\'
    · rw [if_pos h2, h2]; rfl
    · rw [if_neg h2]
      by_cases h3 : c = '\n'
      · rw [if_pos h3, h3]; rfl
      · rw [if_neg h3]
        by_cases h4 : c = '\r'
        · rw [if_pos h4, h4]; rfl
        · rw [if_neg h4]
          by_cases h5 : c = '\t'
          · rw [if_pos h5, h5]; rfl
          · rw [if_neg h5]
            by_cases h6 : c.toNat < 0x20 ∨ c = '<' ∨ c = '>' ∨ c = '&'
            · rw [if_pos h6]
              have hn : c.toNat < 0x80 := by
                rcases h6 with h | h | h | h
                · omega
                · rw [h]; decide
                · rw [h]; decide
                · rw [h]; decide
              simp only [List.cons_append, List.nil_append]
              have hb : ('\\' : Char) ≠ '"' := by decide
              have hu : ('u' : Char) = 'u' := rfl
              simp only [parseStringBody, hb, if_false, if_true, getu4_low c.toNat hn]
              rw [if_neg (by omega), Char.ofNat_toNat]
            · rw [if_neg h6]
              by_cases h7 : c.toNat = 0x2028
              · rw [if_pos h7]
                have hc : c = Char.ofNat 0x2028 := by rw [← h7, Char.ofNat_toNat]
                rw [hc]
                rfl
              · rw [if_neg h7]
                by_cases h8 : c.toNat = 0x2029
                · rw [if_pos h8]
                  have hc : c = Char.ofNat 0x2029 := by rw [← h8, Char.ofNat_toNat]
                  rw [hc]
                  rfl
                · rw [if_neg h8]
                  have h9 : ¬ c.toNat < 0x20 := fun h => h6 (Or.inl h)
                  simp only [List.cons_append, List.nil_append, parseStringBody, h1, h2, h9,
                    if_false]
                  rfl

/-- The scanner reads a written string back. -/
theorem parseStringBody_renderChars (cs : List Char) : ∀ (fuel : Nat) (rest acc : List Char),
    cs.length + 1 ≤ fuel →
    parseStringBody fuel (renderChars cs ('"' :: rest)) acc
      = some (String.mk (acc.reverse ++ cs), rest) := by
  induction cs with
  | nil =>
    intro fuel rest acc h
    cases fuel with
    | zero => omega
    | succ f => simp [renderChars, parseStringBody]
  | cons c more ih =>
    intro fuel rest acc h
    cases fuel with
    | zero => omega
    | succ f =>
      have h2 : more.length + 1 ≤ f := by simpa using h
      have hr : renderChars (c :: more) ('"' :: rest)
          = renderChar c ++ renderChars more ('"' :: rest) := rfl
      rw [hr, parseStringBody_renderChar, ih f rest (c :: acc) h2]
      simp

theorem okRest_facts (rest : List Char) (h : okRest rest) :
    (∀ c, rest.head? = some c → c.isDigit = false ∧ c ≠ '.' ∧ c ≠ 'e' ∧ c ≠ 'E') := by
  intro c hc
  rcases h c hc with e | e | e | e <;> rw [e] <;> decide

theorem spanDigits_append (ds rest : List Char) (hd : ∀ c ∈ ds, c.isDigit = true)
    (hr : ∀ c, rest.head? = some c → c.isDigit = false) :
    spanDigits (ds ++ rest) = (ds, rest) := by
  induction ds with
  | nil =>
    cases rest with
    | nil => rfl
    | cons c cs =>
      have := hr c rfl
      simp [spanDigits, this]
  | cons d more ih =>
    have h1 := hd d (List.mem_cons_self _ _)
    have h2 := ih (fun c hc => hd c (List.mem_cons_of_mem _ hc))
    rw [List.cons_append, spanDigits, if_pos h1, h2]

theorem parseFrac_okRest (rest : List Char) (h : okRest rest) : parseFrac rest = some ([], rest) := by
  cases rest with
  | nil => rfl
  | cons c cs =>
    have := (okRest_facts _ h c rfl).2.1
    simp [parseFrac, this]

theorem parseExp_okRest (rest : List Char) (h : okRest rest) : parseExp rest = some ([], rest) := by
  cases rest with
  | nil => rfl
  | cons c cs =>
    have h1 := (okRest_facts _ h c rfl).2.2
    simp [parseExp, h1.1, h1.2]

theorem digitChar_nonzero : ∀ k, k < 10 → k ≠ 0 → Nat.digitChar k ≠ '0' := by
  decide

/-- The digits of a number start with a zero only for zero itself. -/
theorem toDigitsCore_head (fuel : Nat) : ∀ (n : Nat) (ds : List Char), n < fuel →
    (n = 0 → Nat.toDigitsCore 10 fuel n ds = '0' :: ds) ∧
    (n ≠ 0 → ∃ d more, Nat.toDigitsCore 10 fuel n ds = d :: more ∧ d ≠ '0') := by
  induction fuel with
  | zero => intro n ds h; exact absurd h (Nat.not_lt_zero n)
  | succ fuel ih =>
    intro n ds h
    unfold Nat.toDigitsCore
    simp only
    by_cases hz : n / 10 = 0
    · rw [if_pos hz]
      constructor
      · intro h0
        rw [h0]
        rfl
      · intro hne
        have hlt : n < 10 := by omega
        have hm : n % 10 = n := Nat.mod_eq_of_lt hlt
        rw [hm]
        exact ⟨_, _, rfl, digitChar_nonzero n hlt hne⟩
    · rw [if_neg hz]
      constructor
      · intro h0
        rw [h0] at hz
        exact absurd rfl hz
      · intro _
        exact (ih (n / 10) (Nat.digitChar (n % 10) :: ds) (by omega)).2 hz

theorem toDigits_head (n : Nat) :
    (n = 0 → Nat.toDigits 10 n = ['0']) ∧
    (n ≠ 0 → ∃ d more, Nat.toDigits 10 n = d :: more ∧ d ≠ '0') :=
  toDigitsCore_head (n + 1) n [] (Nat.lt_succ_self n)

/-- The scanner reads the decimal digits of a natural number as the integer part
of a number. -/
theorem parseIntPart_toDigits (n : Nat) (rest : List Char) (h : okRest rest) :
    parseIntPart (Nat.toDigits 10 n ++ rest) = some (Nat.toDigits 10 n, rest) := by
  obtain ⟨_, hall, _⟩ := toDigits_spec n
  by_cases h0 : n = 0
  · rw [(toDigits_head n).1 h0]
    rfl
  · obtain ⟨d, more, hd, hne⟩ := (toDigits_head n).2 h0
    rw [hd] at hall ⊢
    have hdig := (hall d (List.mem_cons_self _ _)).1
    have hs := spanDigits_append more rest
      (fun c hc => (hall c (List.mem_cons_of_mem _ hc)).1)
      (fun c hc => (okRest_facts _ h c hc).1)
    simp only [List.cons_append, parseIntPart, hne, if_false, hdig, if_true, hs]

/-- The scanner reads the decimal text of an integer back as a number. -/
theorem parseNumber_fmtInt (n : Int) (rest : List Char) (h : okRest rest) :
    parseNumber ((fmtInt n).data ++ rest) = some (fmtInt n, rest) := by
  cases n with
  | ofNat k =>
    obtain ⟨hne, hall, _⟩ := toDigits_spec k
    have hsign : parseSign (Nat.toDigits 10 k ++ rest) = ([], Nat.toDigits 10 k ++ rest) := by
      cases hd : Nat.toDigits 10 k with
      | nil => exact absurd hd hne
      | cons c cs =>
        have hc : c ≠ '-' := (hall c (by rw [hd]; exact List.mem_cons_self _ _)).2
        simp [parseSign, hc]
    unfold parseNumber fmtInt
    simp only [hsign, parseIntPart_toDigits k rest h, parseFrac_okRest rest h,
      parseExp_okRest rest h, List.nil_append, List.append_nil]
  | negSucc k =>
    have hsign : parseSign ('-' :: (Nat.toDigits 10 (k + 1) ++ rest))
        = (['-'], Nat.toDigits 10 (k + 1) ++ rest) := rfl
    unfold parseNumber fmtInt
    simp only [List.cons_append, hsign, parseIntPart_toDigits (k + 1) rest h,
      parseFrac_okRest rest h, parseExp_okRest rest h, List.append_nil, List.singleton_append,
      List.nil_append]

theorem skipWs_cons (c : Char) (cs : List Char) (h : isSpace c = false) :
    skipWs (c :: cs) = c :: cs := by
  simp [skipWs, h]

theorem fmtInt_head (n : Int) : ∃ c cs, (fmtInt n).data = c :: cs ∧ (c.isDigit = true ∨ c = '-') := by
  obtain ⟨hne, hall⟩ := fmtInt_chars n
  cases hd : (fmtInt n).data with
  | nil => exact absurd hd hne
  | cons c cs => exact ⟨c, cs, rfl, hall c (by rw [hd]; exact List.mem_cons_self _ _)⟩

theorem digit_or_minus_head (c : Char) (h : c.isDigit = true ∨ c = '-') :
    isSpace c = false ∧ c ≠ ']' ∧ c ≠ '{' ∧ c ≠ '[' ∧ c ≠ '"' ∧ c ≠ 't' ∧ c ≠ 'f' ∧ c ≠ 'n' := by
  rcases h with h | h
  · have h1 : 48 ≤ c.val ∧ c.val ≤ 57 := by
      simpa [Char.isDigit] using h
    have h2 : 48 ≤ c.toNat ∧ c.toNat ≤ 57 := by
      unfold Char.toNat
      constructor
      · exact_mod_cast h1.1
      · exact_mod_cast h1.2
    have hne : ∀ d : Char, ¬ (48 ≤ d.toNat ∧ d.toNat ≤ 57) → c ≠ d := by
      intro d hd e
      rw [e] at h2
      exact hd h2
    refine ⟨?_, hne _ (by decide), hne _ (by decide), hne _ (by decide), hne _ (by decide),
      hne _ (by decide), hne _ (by decide), hne _ (by decide)⟩
    have e1 := hne ' ' (by decide)
    have e2 := hne '\t' (by decide)
    have e3 := hne '\r' (by decide)
    have e4 := hne '\n' (by decide)
    simp [isSpace, e1, e2, e3, e4]
  · rw [h]; decide

theorem Parses_num (n : Int) : Parses (JSON.num (fmtInt n)) := by
  obtain ⟨c, cs, hd, hc⟩ := fmtInt_head n
  have hf := digit_or_minus_head c hc
  refine ⟨⟨c, cs, hd, hf.1, hf.2.1⟩, ?_⟩
  intro rest fuel hok hfuel
  cases fuel with
  | zero => omega
  | succ f =>
    have hnum := parseNumber_fmtInt n rest hok
    simp only [render] at hnum ⊢
    rw [hd] at hnum ⊢
    simp only [List.cons_append] at hnum ⊢
    simp only [parseValue, skipWs_cons c _ hf.1, hf.2.2.1, hf.2.2.2.1, hf.2.2.2.2.1,
      hf.2.2.2.2.2.1, hf.2.2.2.2.2.2.1, hf.2.2.2.2.2.2.2, if_false, hnum]

theorem Parses_null : Parses JSON.null := by
  refine ⟨⟨'n', ['u', 'l', 'l'], rfl, by decide, by decide⟩, ?_⟩
  intro rest fuel _ hfuel
  cases fuel with
  | zero => omega
  | succ f => rfl

theorem Parses_bool (b : Bool) : Parses (JSON.bool b) := by
  cases b with
  | true =>
    refine ⟨⟨'t', ['r', 'u', 'e'], rfl, by decide, by decide⟩, ?_⟩
    intro rest fuel _ hfuel
    cases fuel with
    | zero => omega
    | succ f => rfl
  | false =>
    refine ⟨⟨'f', ['a', 'l', 's', 'e'], rfl, by decide, by decide⟩, ?_⟩
    intro rest fuel _ hfuel
    cases fuel with
    | zero => omega
    | succ f => rfl

/-- The scanner reads a written string literal back. -/
theorem parseString_render (s : String) (rest : List Char) :
    parseStringBody ((renderChars s.data ('"' :: rest)).length + 1)
        (renderChars s.data ('"' :: rest)) [] = some (s, rest) := by
  have hlen := renderChars_length s.data ('"' :: rest)
  rw [parseStringBody_renderChars s.data _ rest [] (by omega)]
  simp

theorem Parses_str (s : String) : Parses (JSON.str s) := by
  refine ⟨⟨'"', _, rfl, by decide, by decide⟩, ?_⟩
  intro rest fuel _ hfuel
  cases fuel with
  | zero => omega
  | succ f =>
    simp only [render, renderString_append]
    have h1 : skipWs ('"' :: renderChars s.data ('"' :: rest))
        = '"' :: renderChars s.data ('"' :: rest) := skipWs_cons _ _ (by decide)
    have h2 : ('"' : Char) ≠ '{' := by decide
    have h3 : ('"' : Char) ≠ '[' := by decide
    simp only [parseValue, h1, h2, h3, if_false, if_true, parseString_render]

theorem render_arr_cons (v : JSON) (vs : List JSON) :
    render (JSON.arr (v :: vs)) = '[' :: (render v ++ renderElements vs) := by
  simp only [render]

theorem render_obj_cons (k : String) (v : JSON) (kvs : List (String × JSON)) :
    render (JSON.obj ((k, v) :: kvs))
      = '{' :: (renderString k ++ ':' :: (render v ++ renderMembers kvs)) := by
  simp only [render]

theorem renderElements_head (vs : List JSON) (rest : List Char) :
    okRest (renderElements vs ++ rest) ∧
      ∃ c cs, renderElements vs ++ rest = c :: cs ∧ isSpace c = false := by
  cases vs with
  | nil =>
    simp only [renderElements, List.cons_append, List.nil_append]
    exact ⟨fun c hc => by simp at hc; simp [← hc], ⟨_, _, rfl, by decide⟩⟩
  | cons v more =>
    simp only [renderElements, List.cons_append]
    exact ⟨fun c hc => by simp at hc; simp [← hc], ⟨_, _, rfl, by decide⟩⟩

/-- The scanner reads the elements of a written array back. -/
theorem parseElements_render (vs : List JSON) : ∀ (v : JSON) (rest : List Char) (fuel : Nat),
    Parses v → (∀ w ∈ vs, Parses w) →
    (render v).length + (renderElements vs).length + 1 ≤ fuel →
    parseElements fuel (render v ++ (renderElements vs ++ rest)) = some (v :: vs, rest) := by
  induction vs with
  | nil =>
    intro v rest fuel hv _ hfuel
    cases fuel with
    | zero => omega
    | succ f =>
      have hp := hv.2 (renderElements [] ++ rest) f (renderElements_head [] rest).1 (by
        simp only [renderElements, List.length_singleton] at hfuel; omega)
      simp only [parseElements, hp]
      simp only [renderElements, List.cons_append, List.nil_append]
      have h1 : skipWs (']' :: rest) = ']' :: rest := skipWs_cons _ _ (by decide)
      have h2 : (']' : Char) ≠ ',' := by decide
      simp only [h1, h2, if_false, if_true]
  | cons w more ih =>
    intro v rest fuel hv hall hfuel
    cases fuel with
    | zero => omega
    | succ f =>
      have hlen : (renderElements (w :: more)).length
          = 1 + (render w).length + (renderElements more).length := by
        simp only [renderElements, List.length_cons, List.length_append]
        omega
      have hp := hv.2 (renderElements (w :: more) ++ rest) f
        (renderElements_head (w :: more) rest).1 (by omega)
      simp only [parseElements, hp]
      simp only [renderElements, List.cons_append, List.append_assoc]
      have h1 : skipWs (',' :: (render w ++ (renderElements more ++ rest)))
          = ',' :: (render w ++ (renderElements more ++ rest)) := skipWs_cons _ _ (by decide)
      have hrec := ih w rest f (hall w (List.mem_cons_self _ _))
        (fun x hx => hall x (List.mem_cons_of_mem _ hx)) (by omega)
      simp only [h1, if_true, hrec]

/-- An array reads back when its elements do. -/
theorem Parses_arr (vs : List JSON) (h : ∀ w ∈ vs, Parses w) : Parses (JSON.arr vs) := by
  cases vs with
  | nil =>
    refine ⟨⟨'[', [']'], rfl, by decide, by decide⟩, ?_⟩
    intro rest fuel _ hfuel
    cases fuel with
    | zero => omega
    | succ f => rfl
  | cons v more =>
    refine ⟨⟨'[', _, render_arr_cons v more, by decide, by decide⟩, ?_⟩
    intro rest fuel _ hfuel
    cases fuel with
    | zero => omega
    | succ f =>
      have hv := h v (List.mem_cons_self _ _)
      obtain ⟨c, cs, hc, hsp, hbr⟩ := hv.1
      rw [render_arr_cons] at hfuel ⊢
      simp only [List.length_cons, List.length_append] at hfuel
      have hrec := parseElements_render more v rest f hv
        (fun x hx => h x (List.mem_cons_of_mem _ hx)) (by omega)
      have h1 : skipWs ('[' :: (render v ++ renderElements more) ++ rest)
          = '[' :: (render v ++ (renderElements more ++ rest)) := by
        simp only [List.cons_append, List.append_assoc]
        exact skipWs_cons _ _ (by decide)
      have h2 : skipWs (render v ++ (renderElements more ++ rest))
          = c :: (cs ++ (renderElements more ++ rest)) := by
        rw [hc]
        exact skipWs_cons _ _ hsp
      have h3 : ('[' : Char) ≠ '{' := by decide
      rw [hc] at hrec
      simp only [List.cons_append] at hrec
      simp only [parseValue, h1, h3, if_false, if_true, h2, hbr, hrec]

theorem renderMembers_head (kvs : List (String × JSON)) (rest : List Char) :
    okRest (renderMembers kvs ++ rest) := by
  cases kvs with
  | nil =>
    simp only [renderMembers, List.cons_append, List.nil_append]
    exact fun c hc => by simp at hc; simp [← hc]
  | cons kv more =>
    simp only [renderMembers, List.cons_append]
    exact fun c hc => by simp at hc; simp [← hc]

/-- The scanner reads the members of a written object back. -/
theorem parseMembers_render (kvs : List (String × JSON)) : ∀ (k : String) (v : JSON)
    (rest : List Char) (fuel : Nat), Parses v → (∀ kv ∈ kvs, Parses kv.2) →
    (render v).length + (renderMembers kvs).length + 1 ≤ fuel →
    parseMembers fuel (renderString k ++ ':' :: (render v ++ (renderMembers kvs ++ rest)))
      = some ((k, v) :: kvs, rest) := by
  induction kvs with
  | nil =>
    intro k v rest fuel hv _ hfuel
    cases fuel with
    | zero => omega
    | succ f =>
      have hp := hv.2 (renderMembers [] ++ rest) f (renderMembers_head [] rest) (by
        simp only [renderMembers, List.length_singleton] at hfuel; omega)
      rw [renderString_append]
      have h1 : skipWs ('"' :: renderChars k.data ('"' :: ':' ::
          (render v ++ (renderMembers [] ++ rest))))
          = '"' :: renderChars k.data ('"' :: ':' :: (render v ++ (renderMembers [] ++ rest))) :=
        skipWs_cons _ _ (by decide)
      have h2 : skipWs (':' :: (render v ++ (renderMembers [] ++ rest)))
          = ':' :: (render v ++ (renderMembers [] ++ rest)) := skipWs_cons _ _ (by decide)
      simp only [parseMembers, h1, if_true, parseString_render, h2, hp]
      simp only [renderMembers, List.cons_append, List.nil_append]
      have h3 : skipWs ('}' :: rest) = '}' :: rest := skipWs_cons _ _ (by decide)
      have h4 : ('}' : Char) ≠ ',' := by decide
      simp only [h3, h4, if_false, if_true]
  | cons kv more ih =>
    intro k v rest fuel hv hall hfuel
    cases fuel with
    | zero => omega
    | succ f =>
      obtain ⟨k2, v2⟩ := kv
      have hlen : (renderMembers ((k2, v2) :: more)).length
          = 1 + (renderString k2).length + 1 + (render v2).length
            + (renderMembers more).length := by
        simp only [renderMembers, List.length_cons, List.length_append]
        omega
      have hp := hv.2 (renderMembers ((k2, v2) :: more) ++ rest) f
        (renderMembers_head ((k2, v2) :: more) rest) (by omega)
      rw [renderString_append]
      have h1 : skipWs ('"' :: renderChars k.data ('"' :: ':' ::
          (render v ++ (renderMembers ((k2, v2) :: more) ++ rest))))
          = '"' :: renderChars k.data ('"' :: ':' ::
            (render v ++ (renderMembers ((k2, v2) :: more) ++ rest))) :=
        skipWs_cons _ _ (by decide)
      have h2 : skipWs (':' :: (render v ++ (renderMembers ((k2, v2) :: more) ++ rest)))
          = ':' :: (render v ++ (renderMembers ((k2, v2) :: more) ++ rest)) :=
        skipWs_cons _ _ (by decide)
      simp only [parseMembers, h1, if_true, parseString_render, h2, hp]
      have hrec := ih k2 v2 rest f (hall (k2, v2) (List.mem_cons_self _ _))
        (fun x hx => hall x (List.mem_cons_of_mem _ hx)) (by omega)
      simp only [renderMembers, List.cons_append, List.append_assoc]
      have h3 : skipWs (',' :: (renderString k2 ++ ':' ::
          (render v2 ++ (renderMembers more ++ rest))))
          = ',' :: (renderString k2 ++ ':' :: (render v2 ++ (renderMembers more ++ rest))) :=
        skipWs_cons _ _ (by decide)
      simp only [h3, if_true, hrec]

/-- An object reads back when the values of its members do. -/
theorem Parses_obj (kvs : List (String × JSON)) (h : ∀ kv ∈ kvs, Parses kv.2) :
    Parses (JSON.obj kvs) := by
  cases kvs with
  | nil =>
    refine ⟨⟨'{', ['}'], rfl, by decide, by decide⟩, ?_⟩
    intro rest fuel _ hfuel
    cases fuel with
    | zero => omega
    | succ f => rfl
  | cons kv more =>
    obtain ⟨k, v⟩ := kv
    refine ⟨⟨'{', _, render_obj_cons k v more, by decide, by decide⟩, ?_⟩
    intro rest fuel _ hfuel
    cases fuel with
    | zero => omega
    | succ f =>
      have hv := h (k, v) (List.mem_cons_self _ _)
      rw [render_obj_cons] at hfuel ⊢
      simp only [List.length_cons, List.length_append] at hfuel
      have hrec := parseMembers_render more k v rest f hv
        (fun x hx => h x (List.mem_cons_of_mem _ hx)) (by omega)
      have h1 : skipWs ('{' :: (renderString k ++ ':' :: (render v ++ renderMembers more)) ++ rest)
          = '{' :: (renderString k ++ ':' :: (render v ++ (renderMembers more ++ rest))) := by
        simp only [List.cons_append, List.append_assoc]
        exact skipWs_cons _ _ (by decide)
      have hk : renderString k ++ ':' :: (render v ++ (renderMembers more ++ rest))
          = '"' :: renderChars k.data ('"' :: ':' :: (render v ++ (renderMembers more ++ rest))) :=
        renderString_append k _
      have h2 : skipWs (renderString k ++ ':' :: (render v ++ (renderMembers more ++ rest)))
          = '"' :: renderChars k.data ('"' :: ':' :: (render v ++ (renderMembers more ++ rest))) := by
        rw [hk]
        exact skipWs_cons _ _ (by decide)
      have h3 : ('"' : Char) ≠ '}' := by decide
      rw [hk] at hrec
      simp only [parseValue, h1, if_true, h2, h3, if_false, hrec]

/-- The stream decoder reads the text the encoder writes for a value that
reads back: the value, with the encoder's final newline left over. -/
theorem scanValue_render (v : JSON) (h : Parses v) :
    scanValue (String.mk (render v) ++ "\n") = some (v, ['\n']) := by
  unfold scanValue
  have hd : (String.mk (render v) ++ "\n").data = render v ++ ['\n'] := by
    simp [String.data_append]
  have hl : (String.mk (render v) ++ "\n").length = (render v).length + 1 := by
    rw [String.length_append]
    rfl
  rw [hd, hl]
  exact h.2 ['\n'] _ (fun c hc => by simp at hc; simp [← hc]) (by omega)

theorem Parses_encodeStrings (o : Option (List String)) : Parses (encodeStrings o) := by
  cases o with
  | none => exact Parses_null
  | some xs =>
    apply Parses_arr
    intro w hw
    obtain ⟨x, _, hx⟩ := List.mem_map.1 hw
    rw [← hx]
    exact Parses_str x

theorem Parses_omitEmptyStr (name value : String) :
    ∀ kv ∈ omitEmptyStr name value, Parses kv.2 := by
  intro kv h
  unfold omitEmptyStr at h
  split at h
  · simp at h
  · simp only [List.mem_singleton] at h
    rw [h]
    exact Parses_str value

theorem Parses_omitEmptyBool (name : String) (value : Bool) :
    ∀ kv ∈ omitEmptyBool name value, Parses kv.2 := by
  intro kv h
  unfold omitEmptyBool at h
  split at h
  · simp at h
  · simp only [List.mem_singleton] at h
    rw [h]
    exact Parses_bool value

theorem Parses_omitEmptyStrings (name : String) (value : Option (List String)) :
    ∀ kv ∈ omitEmptyStrings name value, Parses kv.2 := by
  intro kv h
  unfold omitEmptyStrings at h
  split at h
  · simp at h
  · simp at h
  · rename_i x xs
    simp only [List.mem_singleton] at h
    rw [h]
    exact Parses_encodeStrings (some (x :: xs))

theorem Parses_append (l1 l2 : List (String × JSON)) (h1 : ∀ kv ∈ l1, Parses kv.2)
    (h2 : ∀ kv ∈ l2, Parses kv.2) : ∀ kv ∈ l1 ++ l2, Parses kv.2 := by
  intro kv h
  rcases List.mem_append.1 h with h | h
  · exact h1 kv h
  · exact h2 kv h

theorem Parses_single (name : String) (v : JSON) (h : Parses v) :
    ∀ kv ∈ [(name, v)], Parses kv.2 := by
  intro kv hkv
  simp only [List.mem_singleton] at hkv
  rw [hkv]
  exact h

theorem Parses_encodeAttributes (a : AccountAttributes) : Parses (encodeAttributes a) := by
  apply Parses_obj
  repeat' apply Parses_append
  all_goals first
    | exact Parses_omitEmptyStr _ _
    | exact Parses_omitEmptyBool _ _
    | exact Parses_omitEmptyStrings _ _
    | exact Parses_single _ _ (Parses_str _)
    | exact Parses_single _ _ (Parses_encodeStrings _)

theorem Parses_encodeAttributesPtr (o : Option AccountAttributes) :
    Parses (encodeAttributesPtr o) := by
  cases o with
  | none => exact Parses_null
  | some a => exact Parses_encodeAttributes a

theorem Parses_encodeAccountData (d : AccountData) : Parses (encodeAccountData d) := by
  apply Parses_obj
  repeat' apply Parses_append
  · intro kv hkv
    simp only [List.mem_cons, List.mem_singleton, List.not_mem_nil, or_false] at hkv
    rcases hkv with h | h | h | h | h <;> rw [h]
    · exact Parses_str _
    · exact Parses_str _
    · exact Parses_str _
    · exact Parses_num _
    · exact Parses_encodeAttributesPtr _
  · exact Parses_omitEmptyStr _ _
  · exact Parses_omitEmptyStr _ _

theorem Parses_encodeAccount (a : Account) : Parses (encodeAccount a) := by
  apply Parses_obj
  apply Parses_single
  cases a.Data with
  | none => exact Parses_null
  | some d => exact Parses_encodeAccountData d

/-- A request built with a body carries the encoder's text, ended by a newline,
and the background context. -/
theorem NewRequest_body {β : Type} (c : Client) (marshal : β → Except Err String)
    (method path : String) (b : β) (req : Request)
    (h : c.NewRequest marshal method path (some b) = Except.ok req) :
    ∃ text, marshal b = Except.ok text ∧ req.Body = some (text ++ "\n") ∧
      req.ctx = Context.background := by
  unfold Client.NewRequest at h
  cases hp : c.baseURL.Parse path with
  | error e => rw [hp] at h; simp at h
  | ok requestURL =>
    rw [hp] at h
    cases hm : marshal b with
    | error e => simp only [hm] at h; simp at h
    | ok text =>
      simp only [hm] at h
      cases hn : httpNewRequest method (urlString requestURL) (some (text ++ "\n")) with
      | error e => rw [hn] at h; simp at h
      | ok r0 =>
        rw [hn] at h
        have hh := httpNewRequest_ok _ _ _ _ hn
        simp only [Option.isSome_some, if_true, Except.ok.injEq] at h
        rw [← h]
        exact ⟨text, rfl, hh.2.1, hh.2.2.1⟩

/-- C6, counterexample: the account has `AlternativeNames` set to an empty
slice that is not nil; the encoder leaves the member out (omitempty), and
decoding what it wrote gives an account whose `AlternativeNames` is nil, which
is not equal to the original. -/
theorem C6_counterexample :
    (scanValue (String.mk (render (encodeAccount accountNoAlternativeNames)) ++ "\n")).map
        (fun r => decodeAccount r.1 ⟨none⟩)
      = some (⟨some ⟨"accounts", "1", "2", 0,
          some { AccountAttributes.zero with Country := "GB", AlternativeNames := none },
          "", ""⟩⟩, false)
    ∧ (⟨some ⟨"accounts", "1", "2", 0,
          some { AccountAttributes.zero with Country := "GB", AlternativeNames := none },
          "", ""⟩⟩ : Account) ≠ accountNoAlternativeNames := by
  decide

/-- C6, amended: for every account record whose version fits a Go `int` and
whose `AlternativeNames` is nil or holds at least one name (every other
optional attribute omitted or populated), the stream decoder reads from the
text the encoder writes the JSON form of the record, and decoding that into a
new `Account` yields the record; hence `Create` with a non-nil context,
against a server that answers with a status in 200..299 and the body of the
request, returns the account it was given, and a nil error. -/
theorem C6_decode_of_encode_is_identity (a : Account) (h : ∀ d, a.Data = some d → d.faithful) :
    marshalAccount (some a) = Except.ok (String.mk (render (encodeAccount a))) ∧
    decodeStream ⟨String.mk (render (encodeAccount a)) ++ "\n", none⟩
      = Except.ok (encodeAccount a) ∧
    decodeAccount (encodeAccount a) ⟨none⟩ = (a, false) ∧
    ∀ (hr : ResponseDecoder) (s : AccountsService) (cx : Context) (req : Request)
      (resp : Response),
      s.client.NewRequest marshalAccount "POST" accountsPath (some (some a)) = Except.ok req →
      s.client.httpClient.roundTrip req = Except.ok resp →
      is2xx resp.StatusCode →
      resp.Body = some ⟨req.Body.getD "", none⟩ →
      s.Create hr (some cx) (some a) = Run.ret ⟨some a, some resp, none, [req]⟩ := by
  have hscan := scanValue_render (encodeAccount a) (Parses_encodeAccount a)
  have hstream : decodeStream ⟨String.mk (render (encodeAccount a)) ++ "\n", none⟩
      = Except.ok (encodeAccount a) :=
    decodeStream_object ⟨String.mk (render (encodeAccount a)) ++ "\n", none⟩ _ _ hscan
  have hdec := decode_encodeAccount a h
  refine ⟨rfl, hstream, hdec, ?_⟩
  intro hr s cx req resp hreq hnet hs hbody
  obtain ⟨text, hm, hb, hctx⟩ := NewRequest_body _ _ _ _ _ _ hreq
  have ht : text = String.mk (render (encodeAccount a)) := by
    simp only [marshalAccount, Except.ok.injEq] at hm
    exact hm.symm
  rw [hb, ht] at hbody
  simp only [Option.getD_some] at hbody
  unfold AccountsService.Create
  rw [hreq]
  simp only
  rw [Do_decodes hr s.client cx req decodeAccount _ resp _ _ hctx hnet hs hbody hstream]
  simp only [hdec, Bool.false_eq_true, if_false]

/-- C6, witness: the scenario of the repository's test: `Create` with the full
account against a server that echoes the request body returns the account. -/
theorem C6_decode_of_encode_is_identity_witness :
    (AccountsService.mk (localClient echoServer)).Create decodeResponseFields
        (some Context.background) (some expectedAccount)
      = Run.ret ⟨some expectedAccount,
          some ⟨200, some ⟨String.mk (render (encodeAccount expectedAccount)) ++ "\n", none⟩,
            some (createRequest expectedAccount)⟩,
          none, [createRequest expectedAccount]⟩ :=
  (C6_decode_of_encode_is_identity expectedAccount (by
      intro d hd
      cases hd
      exact ⟨by decide, fun x hx => by cases hx; decide⟩)).2.2.2
    decodeResponseFields (AccountsService.mk (localClient echoServer)) Context.background
    (createRequest expectedAccount)
    ⟨200, some ⟨String.mk (render (encodeAccount expectedAccount)) ++ "\n", none⟩,
      some (createRequest expectedAccount)⟩
    (by decide) rfl (by decide) rfl

/-! ### The scanner's fuel -/

theorem skipWs_length (cs : List Char) : (skipWs cs).length ≤ cs.length := by
  induction cs with
  | nil => simp [skipWs]
  | cons c cs ih =>
    simp only [skipWs]
    split
    · simp only [List.length_cons]; omega
    · simp

theorem skipWs_eq_cons_length (cs : List Char) (c : Char) (r : List Char)
    (h : skipWs cs = c :: r) : r.length < cs.length := by
  have := skipWs_length cs
  rw [h] at this
  simp only [List.length_cons] at this
  omega

theorem spanDigits_length (cs : List Char) : (spanDigits cs).2.length ≤ cs.length := by
  induction cs with
  | nil => simp [spanDigits]
  | cons c cs ih =>
    simp only [spanDigits]
    split
    · simp only [List.length_cons]; omega
    · simp

/-- A string literal ends after its first character at the earliest. -/
theorem parseStringBody_length : ∀ (f : Nat) (cs acc : List Char) (s : String) (r : List Char),
    parseStringBody f cs acc = some (s, r) → r.length < cs.length := by
  intro f
  induction f with
  | zero => intro cs acc s r h; simp [parseStringBody] at h
  | succ f ih =>
    intro cs acc s r h
    cases cs with
    | nil => simp [parseStringBody] at h
    | cons c rest =>
      simp only [parseStringBody] at h
      repeat' split at h
      all_goals first
        | (simp at h; done)
        | (have hlen := ih _ _ _ _ h; simp only [List.length_cons] at hlen ⊢; omega)
        | (simp only [Option.some.injEq, Prod.mk.injEq] at h; rw [← h.2]; simp)

/-- Fuel beyond the length of the input does not change what a string literal
reads as: the scanner of string literals never runs out of fuel. -/
theorem parseStringBody_fuel : ∀ (f g : Nat) (cs acc : List Char), cs.length < f → cs.length < g →
    parseStringBody f cs acc = parseStringBody g cs acc := by
  intro f
  induction f with
  | zero => intro g cs acc h; omega
  | succ f ih =>
    intro g cs acc hf hg
    cases g with
    | zero => omega
    | succ g =>
      cases cs with
      | nil => simp [parseStringBody]
      | cons c rest =>
        simp only [List.length_cons] at hf hg
        simp only [parseStringBody]
        repeat' split
        all_goals first
          | rfl
          | (apply ih <;> simp only [List.length_cons] at * <;> omega)

theorem parseNumber_length (cs : List Char) (lit : String) (r : List Char)
    (h : parseNumber cs = some (lit, r)) : r.length < cs.length := by
  unfold parseNumber at h
  have hsign : (parseSign cs).2.length ≤ cs.length := by
    cases cs with
    | nil => simp [parseSign]
    | cons c t =>
      simp only [parseSign]
      split <;> simp
  cases hi : parseIntPart (parseSign cs).2 with
  | none => rw [hi] at h; simp at h
  | some p =>
    obtain ⟨i, r1⟩ := p
    rw [hi] at h
    simp only at h
    have h1 : r1.length < (parseSign cs).2.length := by
      cases hs : (parseSign cs).2 with
      | nil => rw [hs] at hi; simp [parseIntPart] at hi
      | cons c t =>
        rw [hs] at hi
        simp only [parseIntPart] at hi
        split at hi
        · simp only [Option.some.injEq, Prod.mk.injEq] at hi
          rw [← hi.2]; simp
        · split at hi
          · simp only [Option.some.injEq, Prod.mk.injEq] at hi
            rw [← hi.2]
            have := spanDigits_length t
            simp only [List.length_cons]; omega
          · simp at hi
    cases hf : parseFrac r1 with
    | none => rw [hf] at h; simp at h
    | some p2 =>
      obtain ⟨fr, r2⟩ := p2
      rw [hf] at h
      simp only at h
      have h2 : r2.length ≤ r1.length := by
        cases r1 with
        | nil => simp [parseFrac] at hf; rw [← hf.2]
        | cons c t =>
          simp only [parseFrac] at hf
          split at hf
          · have := spanDigits_length t
            split at hf
            · simp at hf
            · rename_i ds r0 _ heq
              simp only [Option.some.injEq, Prod.mk.injEq] at hf
              rw [← hf.2]
              rw [heq] at this
              simp only [List.length_cons] at this ⊢; omega
          · simp only [Option.some.injEq, Prod.mk.injEq] at hf
            rw [← hf.2]
      cases he : parseExp r2 with
      | none => rw [he] at h; simp at h
      | some p3 =>
        obtain ⟨ex, r3⟩ := p3
        rw [he] at h
        simp only [Option.some.injEq, Prod.mk.injEq] at h
        have h3 : r3.length ≤ r2.length := by
          cases r2 with
          | nil => simp [parseExp] at he; rw [← he.2]
          | cons c t =>
            simp only [parseExp] at he
            split at he
            · cases t with
              | nil => simp at he
              | cons s0 r0 =>
                simp only at he
                split at he
                · have := spanDigits_length r0
                  split at he
                  · simp at he
                  · rename_i ds rr _ heq
                    simp only [Option.some.injEq, Prod.mk.injEq] at he
                    rw [← he.2]
                    rw [heq] at this
                    simp only [List.length_cons] at this ⊢; omega
                · have := spanDigits_length (s0 :: r0)
                  split at he
                  · simp at he
                  · rename_i ds rr _ heq
                    simp only [Option.some.injEq, Prod.mk.injEq] at he
                    rw [← he.2]
                    rw [heq] at this
                    simp only [List.length_cons] at this ⊢; omega
            · simp only [Option.some.injEq, Prod.mk.injEq] at he
              rw [← he.2]
        rw [← h.2]
        omega

/-- What a run of the scanner reads with some fuel, every run with at least as
much fuel as the number of characters it consumes reads too; and it consumes
at least one character. -/
theorem parse_fuel : ∀ (f : Nat),
    (∀ cs v r, parseValue f cs = some (v, r) →
      r.length < cs.length ∧ ∀ g, cs.length - r.length ≤ g → parseValue g cs = some (v, r)) ∧
    (∀ cs vs r, parseElements f cs = some (vs, r) →
      r.length < cs.length ∧
        ∀ g, cs.length - r.length ≤ g → parseElements g cs = some (vs, r)) ∧
    (∀ cs kvs r, parseMembers f cs = some (kvs, r) →
      r.length < cs.length ∧
        ∀ g, cs.length - r.length ≤ g → parseMembers g cs = some (kvs, r)) := by
  intro f
  induction f with
  | zero =>
    refine ⟨?_, ?_, ?_⟩
    · intro cs v r h; simp [parseValue] at h
    · intro cs vs r h; simp [parseElements] at h
    · intro cs kvs r h; simp [parseMembers] at h
  | succ f ih =>
    obtain ⟨ihV, ihE, ihM⟩ := ih
    refine ⟨?_, ?_, ?_⟩
    · intro cs v r h
      cases hws : skipWs cs with
      | nil => simp [parseValue, hws] at h
      | cons c rest =>
        have hrest := skipWs_eq_cons_length _ _ _ hws
        simp only [parseValue, hws] at h
        by_cases h1 : c = '{'
        · simp only [h1, if_true] at h
          cases hws2 : skipWs rest with
          | nil => simp [hws2] at h
          | cons d r0 =>
            have hr0 := skipWs_eq_cons_length _ _ _ hws2
            simp only [hws2] at h
            by_cases h2 : d = '}'
            · simp only [h2, if_true, Option.some.injEq, Prod.mk.injEq] at h
              obtain ⟨hv, hr⟩ := h
              subst hv; subst hr
              refine ⟨by omega, ?_⟩
              intro g hg
              cases g with
              | zero => omega
              | succ g => simp only [parseValue, hws, h1, if_true, hws2, h2]
            · simp only [h2, if_false] at h
              cases hm : parseMembers f (d :: r0) with
              | none => simp [hm] at h
              | some p =>
                obtain ⟨kvs, r2⟩ := p
                simp only [hm, Option.some.injEq, Prod.mk.injEq] at h
                obtain ⟨hv, hr⟩ := h
                subst hv; subst hr
                obtain ⟨hl, hg0⟩ := ihM _ _ _ hm
                simp only [List.length_cons] at hl
                refine ⟨by omega, ?_⟩
                intro g hg
                cases g with
                | zero => omega
                | succ g =>
                  have a := hg0 g (by simp only [List.length_cons]; omega)
                  simp only [parseValue, hws, h1, if_true, hws2, h2, if_false, a]
        · simp only [h1, if_false] at h
          by_cases h3 : c = '['
          · simp only [h3, if_true] at h
            subst h3
            cases hws2 : skipWs rest with
            | nil => simp [hws2] at h
            | cons d r0 =>
              have hr0 := skipWs_eq_cons_length _ _ _ hws2
              simp only [hws2] at h
              by_cases h2 : d = ']'
              · simp only [h2, if_true, Option.some.injEq, Prod.mk.injEq] at h
                obtain ⟨hv, hr⟩ := h
                subst hv; subst hr
                refine ⟨by omega, ?_⟩
                intro g hg
                cases g with
                | zero => omega
                | succ g => simp only [parseValue, hws, h1, if_true, if_false, hws2, h2]
              · simp only [h2, if_false] at h
                cases hm : parseElements f (d :: r0) with
                | none => simp [hm] at h
                | some p =>
                  obtain ⟨vs, r2⟩ := p
                  simp only [hm, Option.some.injEq, Prod.mk.injEq] at h
                  obtain ⟨hv, hr⟩ := h
                  subst hv; subst hr
                  obtain ⟨hl, hg0⟩ := ihE _ _ _ hm
                  simp only [List.length_cons] at hl
                  refine ⟨by omega, ?_⟩
                  intro g hg
                  cases g with
                  | zero => omega
                  | succ g =>
                    have a := hg0 g (by simp only [List.length_cons]; omega)
                    simp only [parseValue, hws, h1, if_true, hws2, h2, if_false, a]
          · simp only [h3, if_false] at h
            by_cases h4 : c = '"'
            · simp only [h4, if_true] at h
              subst h4
              cases hs : parseStringBody (rest.length + 1) rest [] with
              | none => simp [hs] at h
              | some p =>
                obtain ⟨str, r2⟩ := p
                simp only [hs, Option.some.injEq, Prod.mk.injEq] at h
                obtain ⟨hv, hr⟩ := h
                subst hv; subst hr
                have hl := parseStringBody_length _ _ _ _ _ hs
                refine ⟨by omega, ?_⟩
                intro g hg
                cases g with
                | zero => omega
                | succ g => simp only [parseValue, hws, h1, h3, if_true, if_false, hs]
            · simp only [h4, if_false] at h
              by_cases h5 : c = 't'
              · simp only [h5, if_true] at h
                subst h5
                by_cases h6 : rest.take 3 = ['r', 'u', 'e']
                · simp only [h6, if_true, Option.some.injEq, Prod.mk.injEq] at h
                  obtain ⟨hv, hr⟩ := h
                  subst hv; subst hr
                  refine ⟨by simp only [List.length_drop]; omega, ?_⟩
                  intro g hg
                  cases g with
                  | zero => simp only [List.length_drop] at hg; omega
                  | succ g =>
                    simp only [parseValue, hws, h1, h3, h4, if_true, if_false, h6]
                · simp [h6] at h
              · simp only [h5, if_false] at h
                by_cases h7 : c = 'f'
                · simp only [h7, if_true] at h
                  subst h7
                  by_cases h6 : rest.take 4 = ['a', 'l', 's', 'e']
                  · simp only [h6, if_true, Option.some.injEq, Prod.mk.injEq] at h
                    obtain ⟨hv, hr⟩ := h
                    subst hv; subst hr
                    refine ⟨by simp only [List.length_drop]; omega, ?_⟩
                    intro g hg
                    cases g with
                    | zero => simp only [List.length_drop] at hg; omega
                    | succ g =>
                      simp only [parseValue, hws, h1, h3, h4, h5, if_true, if_false, h6]
                  · simp [h6] at h
                · simp only [h7, if_false] at h
                  by_cases h8 : c = 'n'
                  · simp only [h8, if_true] at h
                    subst h8
                    by_cases h6 : rest.take 3 = ['u', 'l', 'l']
                    · simp only [h6, if_true, Option.some.injEq, Prod.mk.injEq] at h
                      obtain ⟨hv, hr⟩ := h
                      subst hv; subst hr
                      refine ⟨by simp only [List.length_drop]; omega, ?_⟩
                      intro g hg
                      cases g with
                      | zero => simp only [List.length_drop] at hg; omega
                      | succ g =>
                        simp only [parseValue, hws, h1, h3, h4, h5, h7, if_true, if_false, h6]
                    · simp [h6] at h
                  · simp only [h8, if_false] at h
                    cases hn : parseNumber (c :: rest) with
                    | none => simp [hn] at h
                    | some p =>
                      obtain ⟨lit, r2⟩ := p
                      simp only [hn, Option.some.injEq, Prod.mk.injEq] at h
                      obtain ⟨hv, hr⟩ := h
                      subst hv; subst hr
                      have hl := parseNumber_length _ _ _ hn
                      simp only [List.length_cons] at hl
                      refine ⟨by omega, ?_⟩
                      intro g hg
                      cases g with
                      | zero => omega
                      | succ g =>
                        simp only [parseValue, hws, h1, h3, h4, h5, h7, h8, if_false, hn]
    · intro cs vs r h
      simp only [parseElements] at h
      cases hv : parseValue f cs with
      | none => simp [hv] at h
      | some p =>
        obtain ⟨v, r1⟩ := p
        simp only [hv] at h
        obtain ⟨hl1, hg1⟩ := ihV _ _ _ hv
        cases hws : skipWs r1 with
        | nil => simp [hws] at h
        | cons c r2 =>
          have hr2 := skipWs_eq_cons_length _ _ _ hws
          simp only [hws] at h
          by_cases hc : c = ','
          · simp only [hc, if_true] at h
            cases he : parseElements f r2 with
            | none => simp [he] at h
            | some q =>
              obtain ⟨vs2, r3⟩ := q
              simp only [he, Option.some.injEq, Prod.mk.injEq] at h
              obtain ⟨hvs, hr⟩ := h
              subst hvs; subst hr
              obtain ⟨hl3, hg3⟩ := ihE _ _ _ he
              refine ⟨by omega, ?_⟩
              intro g hg
              cases g with
              | zero => omega
              | succ g =>
                have a := hg1 g (by omega)
                have b := hg3 g (by omega)
                simp only [parseElements, a, hws, hc, if_true, b]
          · simp only [hc, if_false] at h
            by_cases hb : c = ']'
            · simp only [hb, if_true, Option.some.injEq, Prod.mk.injEq] at h
              subst hb
              obtain ⟨hvs, hr⟩ := h
              subst hvs; subst hr
              refine ⟨by omega, ?_⟩
              intro g hg
              cases g with
              | zero => omega
              | succ g =>
                have a := hg1 g (by omega)
                simp only [parseElements, a, hws, hc, if_false, if_true]
            · simp [hb] at h
    · intro cs kvs r h
      simp only [parseMembers] at h
      cases hws0 : skipWs cs with
      | nil => simp [hws0] at h
      | cons q rest =>
        have hrest := skipWs_eq_cons_length _ _ _ hws0
        simp only [hws0] at h
        by_cases hq : q = '"'
        · simp only [hq, if_true] at h
          cases hs : parseStringBody (rest.length + 1) rest [] with
          | none => simp [hs] at h
          | some p0 =>
            obtain ⟨k, r0⟩ := p0
            have hl0 := parseStringBody_length _ _ _ _ _ hs
            simp only [hs] at h
            cases hws1 : skipWs r0 with
            | nil => simp [hws1] at h
            | cons colon r1 =>
              have hr1 := skipWs_eq_cons_length _ _ _ hws1
              simp only [hws1] at h
              by_cases hcol : colon = ':'
              · simp only [hcol, if_true] at h
                cases hv : parseValue f r1 with
                | none => simp [hv] at h
                | some p =>
                  obtain ⟨v, r2⟩ := p
                  simp only [hv] at h
                  obtain ⟨hl1, hg1⟩ := ihV _ _ _ hv
                  cases hws : skipWs r2 with
                  | nil => simp [hws] at h
                  | cons c r3 =>
                    have hr3 := skipWs_eq_cons_length _ _ _ hws
                    simp only [hws] at h
                    by_cases hc : c = ','
                    · simp only [hc, if_true] at h
                      cases he : parseMembers f r3 with
                      | none => simp [he] at h
                      | some q2 =>
                        obtain ⟨kvs2, r4⟩ := q2
                        simp only [he, Option.some.injEq, Prod.mk.injEq] at h
                        obtain ⟨hvs, hr⟩ := h
                        subst hvs; subst hr
                        obtain ⟨hl3, hg3⟩ := ihM _ _ _ he
                        refine ⟨by omega, ?_⟩
                        intro g hg
                        cases g with
                        | zero => omega
                        | succ g =>
                          have a := hg1 g (by omega)
                          have b := hg3 g (by omega)
                          simp only [parseMembers, hws0, hq, if_true, hs, hws1, hcol, a, hws, hc, b]
                    · simp only [hc, if_false] at h
                      by_cases hb : c = '}'
                      · simp only [hb, if_true, Option.some.injEq, Prod.mk.injEq] at h
                        subst hb
                        obtain ⟨hvs, hr⟩ := h
                        subst hvs; subst hr
                        refine ⟨by omega, ?_⟩
                        intro g hg
                        cases g with
                        | zero => omega
                        | succ g =>
                          have a := hg1 g (by omega)
                          simp only [parseMembers, hws0, hq, if_true, hs, hws1, hcol, a, hws, hc,
                            if_false]
                      · simp [hb] at h
              · simp [hcol] at h
        · simp [hq] at h

/-- The fuel of `scanValue` is enough: whatever the scanner reads from a text
with any amount of fuel, `scanValue` reads. -/
theorem scanValue_complete (s : String) (f : Nat) (v : JSON) (r : List Char)
    (h : parseValue f s.data = some (v, r)) : scanValue s = some (v, r) := by
  unfold scanValue
  have hlen : s.length = s.data.length := rfl
  exact ((parse_fuel f).1 _ _ _ h).2 _ (by omega)

/-- A text is rejected by `parseDocument` exactly when no amount of fuel makes
the scanner read it as one JSON value with white space around it only. -/
theorem parseDocument_none_iff (s : String) :
    parseDocument s = none ↔
      ∀ f v r, parseValue f s.data = some (v, r) → skipWs r ≠ [] := by
  unfold parseDocument
  constructor
  · intro h f v r hp hr
    rw [scanValue_complete s f v r hp] at h
    simp [hr] at h
  · intro h
    cases hs : scanValue s with
    | none => rfl
    | some p =>
      obtain ⟨v, r⟩ := p
      have := h _ v r hs
      simp [this]

/-! ### The response an error refers to -/

/-- C11, at the failing input: the response has status 500, was caused by the
request `fetchRequest`, and its body is `{"Response":{"StatusCode":200}}`.
`CheckResponse` decodes the body into the `ErrorResponse` whose `Response` is the
response itself, so afterwards the response, and the error that refers to
it, have the status 200 and not 500. -/
theorem C11_body_changes_status :
    CheckResponse decodeResponseFields ⟨500, some ⟨bodyStatusCode, none⟩, some fetchRequest⟩
        = Run.ret (⟨200, some ⟨bodyStatusCode, none⟩, some fetchRequest⟩,
            some ⟨RespRef.orig, ""⟩)
      ∧ ErrorResponse.status ⟨RespRef.orig, ""⟩
          ⟨200, some ⟨bodyStatusCode, none⟩, some fetchRequest⟩ = some 200
      ∧ (200 : Int) ≠ 500 := by
  decide

/-- The body `{"Response":null,"Response":{}}` makes the error refer to a
response the decoder allocated, with status 0 and no request, instead of the
response handed to `CheckResponse`. -/
theorem CheckResponse_replaces_response :
    CheckResponse decodeResponseFields ⟨500, some ⟨bodyFreshResponse, none⟩, some fetchRequest⟩
      = Run.ret (⟨500, some ⟨bodyFreshResponse, none⟩, some fetchRequest⟩,
          some ⟨RespRef.fresh Response.zero, ""⟩) := by
  decide

/-! ### The result of Create, Fetch and List -/

/-- Whenever `Create` returns a nil error, the account it returns is not nil. -/
theorem Create_result_not_nil (hr : ResponseDecoder) (s : AccountsService) (ctx : Option Context)
    (account : Option Account) (res : AccountResult)
    (h : s.Create hr ctx account = Run.ret res) (he : res.err = none) : res.acc ≠ none := by
  unfold AccountsService.Create at h
  split at h
  · simp only [Run.ret.injEq] at h
    rw [← h] at he
    simp at he
  · split at h
    · simp at h
    · rename_i r _
      split at h
      · simp only [Run.ret.injEq] at h
        rw [← h] at he
        simp at he
      · simp only [Run.ret.injEq] at h
        rw [← h]
        simp

/-- Whenever `Fetch` returns a nil error, the account it returns is not nil. -/
theorem Fetch_result_not_nil (hr : ResponseDecoder) (s : AccountsService) (ctx : Option Context)
    (accountID : String) (res : AccountResult)
    (h : s.Fetch hr ctx accountID = Run.ret res) (he : res.err = none) : res.acc ≠ none := by
  unfold AccountsService.Fetch at h
  split at h
  · simp only [Run.ret.injEq] at h
    rw [← h] at he
    simp at he
  · split at h
    · simp at h
    · rename_i r _
      split at h
      · simp only [Run.ret.injEq] at h
        rw [← h] at he
        simp at he
      · simp only [Run.ret.injEq] at h
        rw [← h]
        simp

/-- When `Do` with a target returns a nil error, it returns a response whose body
starts with a JSON value, and the target holds what that value decodes to. -/
theorem Do_nil_error {τ : Type} (hr : ResponseDecoder) (c : Client) (ctx : Option Context)
    (req : Request) (d : JSON → τ → τ × Bool) (v0 : τ) (r : DoResult τ)
    (h : c.Do hr ctx req (some d) v0 = Run.ret r) (he : r.err = none) :
    ∃ resp b j, r.resp = some resp ∧ resp.Body = some b ∧ decodeStream b = Except.ok j ∧
      r.v = (d j v0).1 ∧ (d j v0).2 = false := by
  unfold Client.Do at h
  cases ctx with
  | none =>
    simp only [Run.ret.injEq] at h
    rw [← h] at he
    simp at he
  | some cx =>
    simp only at h
    cases hd : c.httpClient.Do req with
    | mk res sent =>
      rw [hd] at h
      cases res with
      | error e =>
        simp only at h
        cases hce : cx.err with
        | some ce =>
          rw [hce] at h
          simp only [Run.ret.injEq] at h
          rw [← h] at he
          simp at he
        | none =>
          rw [hce] at h
          simp only [Run.ret.injEq] at h
          rw [← h] at he
          simp at he
      | ok resp =>
        simp only at h
        cases hc : CheckResponse hr resp with
        | panic => rw [hc] at h; simp at h
        | ret p =>
          obtain ⟨resp1, oe⟩ := p
          rw [hc] at h
          cases oe with
          | some e =>
            simp only [closeBody] at h
            cases hb : resp1.Body with
            | none => rw [hb] at h; simp at h
            | some b =>
              rw [hb] at h
              simp only [Run.ret.injEq] at h
              rw [← h] at he
              simp at he
          | none =>
            simp only at h
            cases hb : resp1.Body with
            | none => rw [hb] at h; simp at h
            | some b =>
              rw [hb] at h
              simp only at h
              cases hj : decodeStream b with
              | error e =>
                rw [hj] at h
                simp only [Run.ret.injEq] at h
                rw [← h] at he
                simp at he
              | ok j =>
                rw [hj] at h
                simp only [Run.ret.injEq] at h
                rw [← h] at he ⊢
                simp only at he ⊢
                cases hf : (d j v0).2 with
                | true => rw [hf] at he; simp at he
                | false => exact ⟨resp1, b, j, rfl, hb, hj, rfl, hf⟩

/-- Whenever `List` returns a nil error and a nil list, the body of the response
starts with the JSON value null: on every other body that decodes, the list
`List` returns is not nil. -/
theorem List_nil_only_on_null (hr : ResponseDecoder) (s : AccountsService) (ctx : Option Context)
    (n m : Int) (res : AccountListResult)
    (h : s.List hr ctx n m = Run.ret res) (he : res.err = none) (hn : res.acc = none) :
    ∃ resp b, res.resp = some resp ∧ resp.Body = some b ∧
      decodeStream b = Except.ok JSON.null := by
  unfold AccountsService.List at h
  cases hq : s.client.NewRequest marshalAccount "GET" (listPath n m) none with
  | error e =>
    rw [hq] at h
    simp only [Run.ret.injEq] at h
    rw [← h] at he
    simp at he
  | ok request =>
    rw [hq] at h
    simp only at h
    cases hdo : s.client.Do hr ctx request (some decodeAccountListPtr)
        (some (⟨none⟩ : AccountList)) with
    | panic => rw [hdo] at h; simp at h
    | ret r =>
      rw [hdo] at h
      simp only at h
      cases hre : r.err with
      | some e =>
        rw [hre] at h
        simp only [Run.ret.injEq] at h
        rw [← h] at he
        simp at he
      | none =>
        rw [hre] at h
        simp only [Run.ret.injEq] at h
        obtain ⟨resp, b, j, h1, h2, h3, h4, _⟩ := Do_nil_error hr _ _ _ _ _ r hdo hre
        rw [← h] at hn ⊢
        simp only at hn ⊢
        refine ⟨resp, b, h1, h2, ?_⟩
        rw [h4] at hn
        cases j with
        | null => exact h3
        | bool x => simp [decodeAccountListPtr, decodePtr] at hn
        | num x => simp [decodeAccountListPtr, decodePtr] at hn
        | str x => simp [decodeAccountListPtr, decodePtr] at hn
        | arr x => simp [decodeAccountListPtr, decodePtr] at hn
        | obj x => simp [decodeAccountListPtr, decodePtr] at hn

/-- C12, at the failing input: `List(ctx, 0, 0)` against a server that answers
200 with the body `null`. The body decodes without error, through `&acc`, and
sets the pointer `acc` to nil: `List` returns a nil list together with a nil
error. `Fetch` against the same server, which hands `acc` itself to `Do`,
returns an account that is not nil. -/
theorem C12_list_returns_nil_on_null :
    (AccountsService.mk (localClient (respondWith 200 bodyNull))).List decodeResponseFields
        (some Context.background) 0 0
      = Run.ret ⟨none,
          some ⟨200, some ⟨bodyNull, none⟩, some (listRequest localAccountsURL 0 0)⟩,
          none, [listRequest localAccountsURL 0 0]⟩
    ∧ (AccountsService.mk (localClient (respondWith 200 bodyNull))).Fetch decodeResponseFields
        (some Context.background) "1"
      = Run.ret ⟨some ⟨none⟩, some ⟨200, some ⟨bodyNull, none⟩, some fetchRequest⟩,
          none, [fetchRequest]⟩ := by
  decide

/-! ### The message of an error -/

/-- Members of an error envelope never make the decoding fail. -/
theorem storeErrorMember_envelope (hr : ResponseDecoder) (kvs : List (String × JSON))
    (st : ErrState) (h : isEnvelope hr (JSON.obj kvs)) :
    (kvs.foldl (storeErrorMember hr) st).failed = st.failed := by
  induction kvs generalizing st with
  | nil => rfl
  | cons kv rest ih =>
    simp only [List.foldl_cons]
    have hrest : isEnvelope hr (JSON.obj rest) :=
      ⟨fun x hx => h.1 x (List.mem_cons_of_mem _ hx), fun x hx => h.2 x (List.mem_cons_of_mem _ hx)⟩
    rw [ih _ hrest]
    unfold storeErrorMember
    by_cases h1 : keyMatches "error_message" kv.1 = true
    · rw [if_pos h1]
      rcases h.1 kv (List.mem_cons_self _ _) h1 with hn | ⟨s, hs⟩
      · rw [hn]
      · rw [hs]
    · rw [if_neg h1]
      by_cases h2 : keyMatches "Response" kv.1 = true
      · rw [if_pos h2]
        rcases h.2 kv (List.mem_cons_self _ _) h2 with hn | hall
        · rw [hn]
        · cases hv : kv.2 with
          | null => rfl
          | bool x => cases st.ref <;> simp [← hv, hall]
          | num x => cases st.ref <;> simp [← hv, hall]
          | str x => cases st.ref <;> simp [← hv, hall]
          | arr x => cases st.ref <;> simp [← hv, hall]
          | obj x => cases st.ref <;> simp [← hv, hall]
      · rw [if_neg h2]

/-- A body that is an error envelope decodes without error, and the message
stored is the envelope's error_message. -/
theorem unmarshal_envelope (hr : ResponseDecoder) (data : String) (ref : RespRef) (r : Response)
    (v : JSON) (hp : parseDocument data = some v) (hv : isEnvelope hr v) :
    (unmarshalErrorResponse hr data ⟨ref, ""⟩ r).2.2 = none ∧
      (unmarshalErrorResponse hr data ⟨ref, ""⟩ r).1.ErrorMessage = envelopeMessage v := by
  unfold unmarshalErrorResponse
  rw [hp]
  cases v with
  | null => exact ⟨rfl, rfl⟩
  | obj kvs =>
    simp only [storeErrorMember_envelope hr kvs _ hv, Bool.false_eq_true, if_false, envelopeMessage,
      true_and]
    exact storeErrorMember_msg hr kvs _
  | bool x => exact absurd hv (by simp [isEnvelope])
  | num x => exact absurd hv (by simp [isEnvelope])
  | str x => exact absurd hv (by simp [isEnvelope])
  | arr x => exact absurd hv (by simp [isEnvelope])

/-- The JSON text of an object with the one member error_message, as the encoder
writes it, is read back as that object. -/
theorem parseDocument_error_message (s : String) :
    parseDocument (String.mk (render (JSON.obj [("error_message", JSON.str s)])))
      = some (JSON.obj [("error_message", JSON.str s)]) := by
  have hP := Parses_obj [("error_message", JSON.str s)]
    (Parses_single "error_message" (JSON.str s) (Parses_str s))
  have h := hP.2 [] (2 * (render (JSON.obj [("error_message", JSON.str s)])).length + 2)
    (fun c hc => by simp at hc) (by omega)
  rw [List.append_nil] at h
  unfold parseDocument scanValue
  have hl : (String.mk (render (JSON.obj [("error_message", JSON.str s)]))).length
      = (render (JSON.obj [("error_message", JSON.str s)])).length := rfl
  rw [hl]
  simp only [h]
  rfl

/-- C2: for every response with a status outside 200..299, `CheckResponse`
returns an error whose message is settled by the body. An empty body gives the
empty message. A body that holds the JSON text of an object with the one member
error_message, a string `s`, gives the message `s`; more generally a body that
is an error envelope (null, or an object whose error_message members hold
strings or null, whatever other members it has) gives the envelope's
error_message, which is empty for `{}`. A non-empty body that is not a JSON
document, or is a JSON value other than an object or null, or is an object
whose error_message is neither a string nor null, gives the raw body text.
Every non-empty body falls under one of the two: `json.Unmarshal` decodes it
and the message is the document's error_message, or it fails and the message
is the raw body text. -/
theorem C2_message_determined_by_body (hr : ResponseDecoder) (r : Response) (b : Body)
    (hs : ¬ is2xx r.StatusCode) (hb : r.Body = some b) :
    ∃ r1 e, CheckResponse hr r = Run.ret (r1, some e) ∧
      (b.data = "" → e.ErrorMessage = "") ∧
      (b.err = none → ∀ s : String,
        b.data = String.mk (render (JSON.obj [("error_message", JSON.str s)])) →
        e.ErrorMessage = s) ∧
      (b.err = none → ∀ v, parseDocument b.data = some v → isEnvelope hr v →
        e.ErrorMessage = envelopeMessage v) ∧
      (b.err = none → b.data ≠ "" →
        (parseDocument b.data = none ∨
          (∃ v, parseDocument b.data = some v ∧ v ≠ JSON.null ∧ ∀ kvs, v ≠ JSON.obj kvs) ∨
          (∃ kvs, parseDocument b.data = some (JSON.obj kvs) ∧
            ∃ kv ∈ kvs, keyMatches "error_message" kv.1 = true ∧ kv.2 ≠ JSON.null ∧
              ∀ s, kv.2 ≠ JSON.str s)) →
        e.ErrorMessage = b.data) ∧
      (b.data ≠ "" → b.err = none →
        (unmarshalErrorResponse hr b.data ⟨RespRef.orig, ""⟩ r).2.2 = none →
        ∃ v, parseDocument b.data = some v ∧ e.ErrorMessage = envelopeMessage v) ∧
      (b.data ≠ "" → b.err = none →
        (unmarshalErrorResponse hr b.data ⟨RespRef.orig, ""⟩ r).2.2 ≠ none →
        e.ErrorMessage = b.data) := by
  obtain ⟨r1, e, hcr, h1, h2, h3⟩ := CheckResponse_message_cases hr r b hs hb
  have hne : ∀ v, parseDocument b.data = some v → b.data ≠ "" := by
    intro v hp he
    rw [he] at hp
    have hn : parseDocument "" = none := by decide
    rw [hn] at hp
    exact Option.noConfusion hp
  have henv : b.err = none → ∀ v, parseDocument b.data = some v → isEnvelope hr v →
      e.ErrorMessage = envelopeMessage v := by
    intro he v hp hv
    obtain ⟨w, hw, hm⟩ := h2 (hne v hp) he (unmarshal_envelope hr b.data RespRef.orig r v hp hv).1
    rw [hp] at hw
    rw [hm, ← Option.some.inj hw]
  refine ⟨r1, e, hcr, h1, ?_, henv, ?_, h2, h3⟩
  · intro he s hd
    have hp : parseDocument b.data = some (JSON.obj [("error_message", JSON.str s)]) := by
      rw [hd]
      exact parseDocument_error_message s
    have hv : isEnvelope hr (JSON.obj [("error_message", JSON.str s)]) := by
      refine ⟨?_, ?_⟩
      · intro kv hkv _
        simp only [List.mem_singleton] at hkv
        rw [hkv]
        exact Or.inr ⟨s, rfl⟩
      · intro kv hkv hk
        simp only [List.mem_singleton] at hkv
        rw [hkv] at hk
        have hf : keyMatches "Response" "error_message" = false := by decide
        rw [hf] at hk
        exact Bool.noConfusion hk
    rw [henv he _ hp hv]
    have hk : keyMatches "error_message" "error_message" = true := by decide
    simp only [envelopeMessage, List.foldl_cons, List.foldl_nil, hk, if_true]
  · intro he hd hbad
    apply h3 hd he
    unfold unmarshalErrorResponse
    rcases hbad with hp | ⟨v, hp, hnull, hobj⟩ | ⟨kvs, hp, hkv⟩
    · rw [hp]; simp
    · rw [hp]
      cases v with
      | null => exact absurd rfl hnull
      | obj kvs => exact absurd rfl (hobj kvs)
      | bool x => simp
      | num x => simp
      | str x => simp
      | arr x => simp
    · rw [hp]
      simp only [storeErrorMember_bad_message hr kvs _ hkv, if_true]
      simp

/-- C2, witness: status 404 with the body `{"error_message":"boom"}` gives the
message `boom`, and, the scenario of the spec, status 404 with the body `{}`
gives the empty message. -/
theorem C2_message_determined_by_body_witness :
    (∃ r1 e, CheckResponse decodeResponseFields ⟨404, some ⟨bodyBoom, none⟩, none⟩
        = Run.ret (r1, some e) ∧ e.ErrorMessage = "boom") ∧
    (∃ r1 e, CheckResponse decodeResponseFields ⟨404, some ⟨bodyEmptyObject, none⟩, none⟩
        = Run.ret (r1, some e) ∧ e.ErrorMessage = "") := by
  constructor
  · obtain ⟨r1, e, h, _, hmsg, _⟩ :=
      C2_message_determined_by_body decodeResponseFields ⟨404, some ⟨bodyBoom, none⟩, none⟩
        ⟨bodyBoom, none⟩ (by decide) rfl
    exact ⟨r1, e, h, hmsg rfl "boom" (by decide)⟩
  · obtain ⟨r1, e, h, _, _, henv, _⟩ :=
      C2_message_determined_by_body decodeResponseFields
        ⟨404, some ⟨bodyEmptyObject, none⟩, none⟩ ⟨bodyEmptyObject, none⟩ (by decide) rfl
    have h2 : parseDocument bodyEmptyObject = some (JSON.obj []) := by decide
    have hv : isEnvelope decodeResponseFields (JSON.obj []) :=
      ⟨fun kv hkv => by simp at hkv, fun kv hkv => by simp at hkv⟩
    exact ⟨r1, e, h, henv rfl _ h2 hv⟩

/-! ### Parsing the text of a plain URL -/

/-- The scan for a scheme reads a run of letters up to the colon. -/
theorem getschemeScan_alpha (s rest : List Char) : ∀ (first : Bool) (acc : List Char),
    (∀ c ∈ s, c.isAlpha = true) → (s ≠ [] ∨ first = false) →
    getschemeScan first acc (s ++ ':' :: rest) = Except.ok (some (acc.reverse ++ s, rest)) := by
  induction s with
  | nil =>
    intro first acc _ hf
    have hfirst : first = false := by
      rcases hf with h | h
      · exact absurd rfl h
      · exact h
    have h1 : Char.isAlpha ':' = false := by decide
    have h2 : ¬ (Char.isDigit ':' = true ∨ ':' = '+' ∨ ':' = '-' ∨ ':' = '.') := by decide
    simp only [List.nil_append, getschemeScan, h1, h2, hfirst, Bool.false_eq_true, if_false,
      if_true, List.append_nil]
  | cons c cs ih =>
    intro first acc h _
    have hc := h c (List.mem_cons_self _ _)
    rw [show (c :: cs) ++ ':' :: rest = c :: (cs ++ ':' :: rest) from rfl]
    unfold getschemeScan
    rw [if_pos hc, ih false (c :: acc) (fun d hd => h d (List.mem_cons_of_mem _ hd)) (Or.inr rfl)]
    simp

theorem breakFirst_append (sep : Char) (a t : List Char) (h : sep ∉ a) :
    breakFirst sep (a ++ sep :: t) = (a, sep :: t) := by
  induction a with
  | nil => simp [breakFirst]
  | cons c cs ih =>
    have hc : c ≠ sep := fun e => h (e ▸ List.mem_cons_self _ _)
    simp only [List.cons_append]
    unfold breakFirst
    rw [if_neg hc, ih (fun e => h (List.mem_cons_of_mem _ e))]

theorem cutLast_not_mem (sep : Char) (s : List Char) (h : sep ∉ s) : cutLast sep s = none := by
  induction s with
  | nil => rfl
  | cons c cs ih =>
    have hc : c ≠ sep := fun e => h (e ▸ List.mem_cons_self _ _)
    unfold cutLast
    rw [ih (fun e => h (List.mem_cons_of_mem _ e))]
    simp [hc]

theorem percent_not_hostChar (s : List Char) (h : ∀ c ∈ s, hostChar c) : '%' ∉ s := by
  intro hm
  have := (h '%' hm).2.1
  revert this
  decide

theorem unescapeCheck_host (s : List Char) (h : ∀ c ∈ s, hostChar c) :
    unescapeCheck Encoding.encodeHost s = true := by
  induction s with
  | nil => rfl
  | cons c cs ih =>
    have hc := h c (List.mem_cons_self _ _)
    have hcs : ∀ d ∈ cs, hostChar d := fun d hd => h d (List.mem_cons_of_mem _ hd)
    have hp : c ≠ '%' := fun e => percent_not_hostChar _ h (e ▸ List.mem_cons_self _ _)
    have hs := hc.2.1
    have hi := ih hcs
    unfold unescapeCheck
    split <;> simp_all

theorem unescape_host (s : List Char) (h : ∀ c ∈ s, hostChar c) :
    unescape (String.mk s) Encoding.encodeHost = Except.ok (String.mk s) := by
  have hp := percent_not_hostChar s h
  unfold unescape
  rw [unescapeCheck_host s h]
  simp [hp]

/-- A host of plain characters, with a decimal port if it has a colon, is
taken as it is. -/
theorem parseHost_plain (host : List Char) (h : ∀ c ∈ host, hostChar c)
    (hport : ∀ a port, cutLast ':' host = some (a, port) → port.all Char.isDigit = true) :
    parseHost host = Except.ok (String.mk host) := by
  unfold parseHost
  split
  · rename_i t
    exact absurd rfl (h '[' (List.mem_cons_self _ _)).2.2
  · cases hc : cutLast ':' host with
    | none => exact unescape_host host h
    | some p =>
      obtain ⟨a, port⟩ := p
      simp only [validOptionalPort, hport a port hc, decide_True, Bool.and_self, Bool.true_eq_false,
        if_false]
      exact unescape_host host h

theorem parseAuthority_plain (host : List Char) (h : ∀ c ∈ host, hostChar c)
    (hport : ∀ a port, cutLast ':' host = some (a, port) → port.all Char.isDigit = true) :
    parseAuthority host = Except.ok (none, String.mk host) := by
  have hat : '@' ∉ host := by
    intro hm
    have := (h '@' hm).2.1
    revert this
    decide
  unfold parseAuthority
  rw [cutLast_not_mem '@' host hat, parseHost_plain host h hport]

/-- A host whose port, if any, is not empty keeps its colon in `http.NewRequest`. -/
theorem removeEmptyPort_plain (host : String)
    (hport : ∀ a port, cutLast ':' host.data = some (a, port) → port ≠ []) :
    removeEmptyPort host = host := by
  unfold removeEmptyPort
  split
  · rename_i a heq
    exact absurd rfl (hport a [] heq)
  · rfl

/-- A property of ASCII characters can be checked code by code. -/
theorem ascii_cases (P : Char → Prop) (h : ∀ n : Fin 128, P (Char.ofNat n.val)) (c : Char)
    (hc : c.toNat < 128) : P c := by
  have := h ⟨c.toNat, hc⟩
  simpa [Char.ofNat_toNat] using this

theorem pathChar_clean (c : Char) (h : pathChar c) :
    c ≠ '?' ∧ c ≠ '#' ∧ ¬ (c.toNat < 0x20 ∨ c.toNat = 0x7F) :=
  ascii_cases
    (fun c => shouldEscape c Encoding.encodePath = false →
      c ≠ '?' ∧ c ≠ '#' ∧ ¬ (c.toNat < 0x20 ∨ c.toNat = 0x7F))
    (by decide) c h.1 h.2

theorem hostChar_clean (c : Char) (h : hostChar c) :
    c ≠ '?' ∧ c ≠ '#' ∧ c ≠ '/' ∧ ¬ (c.toNat < 0x20 ∨ c.toNat = 0x7F) :=
  ascii_cases
    (fun c => shouldEscape c Encoding.encodeHost = false →
      c ≠ '?' ∧ c ≠ '#' ∧ c ≠ '/' ∧ ¬ (c.toNat < 0x20 ∨ c.toNat = 0x7F))
    (by decide) c h.1 h.2.1

theorem isLower_range (c : Char) (h : c.isLower = true) : 97 ≤ c.toNat ∧ c.toNat ≤ 122 := by
  have h1 : 97 ≤ c.val ∧ c.val ≤ 122 := by
    simpa [Char.isLower] using h
  unfold Char.toNat
  constructor
  · exact_mod_cast h1.1
  · exact_mod_cast h1.2

theorem isLower_clean (c : Char) (h : c.isLower = true) :
    c.isAlpha = true ∧ c.toLower = c ∧ c ≠ '?' ∧ c ≠ '#' ∧
      ¬ (c.toNat < 0x20 ∨ c.toNat = 0x7F) := by
  have hr := isLower_range c h
  refine ⟨by simp [Char.isAlpha, h], ?_, ?_, ?_, by omega⟩
  · unfold Char.toLower
    have : ¬ (c.toNat ≥ 65 ∧ c.toNat ≤ 90) := by omega
    simp only [this, if_false]
  · intro e; rw [e] at hr; revert hr; decide
  · intro e; rw [e] at hr; revert hr; decide

/-- The text `scheme://host/path` of plain parts parses to these parts. -/
theorem urlParse_plain (scheme host path : List Char) (hsne : scheme ≠ [])
    (hs : ∀ c ∈ scheme, c.isLower = true) (hh : ∀ c ∈ host, hostChar c)
    (hport : ∀ a port, cutLast ':' host = some (a, port) → port.all Char.isDigit = true)
    (hp : ∀ c ∈ path, pathChar c) (hroot : path.head? = some '/') :
    urlParse (String.mk (scheme ++ ':' :: '/' :: '/' :: (host ++ path)))
      = Except.ok { Scheme := String.mk scheme, Host := String.mk host, Path := String.mk path } := by
  obtain ⟨t, ht⟩ : ∃ t, path = '/' :: t := by
    cases path with
    | nil => simp at hroot
    | cons c t => simp only [List.head?_cons, Option.some.injEq] at hroot; exact ⟨t, by rw [hroot]⟩
  have hclean : ∀ c ∈ '/' :: '/' :: (host ++ path),
      c ≠ '?' ∧ c ≠ '#' ∧ ¬ (c.toNat < 0x20 ∨ c.toNat = 0x7F) := by
    intro c hc
    rcases List.mem_cons.1 hc with h1 | h1
    · rw [h1]; decide
    · rcases List.mem_cons.1 h1 with h2 | h2
      · rw [h2]; decide
      · rcases List.mem_append.1 h2 with h3 | h3
        · have := hostChar_clean c (hh c h3)
          exact ⟨this.1, this.2.1, this.2.2.2⟩
        · exact pathChar_clean c (hp c h3)
  have hall : ∀ c ∈ scheme ++ ':' :: '/' :: '/' :: (host ++ path),
      c ≠ '?' ∧ c ≠ '#' ∧ ¬ (c.toNat < 0x20 ∨ c.toNat = 0x7F) := by
    intro c hc
    rcases List.mem_append.1 hc with h1 | h1
    · have := isLower_clean c (hs c h1)
      exact ⟨this.2.2.1, this.2.2.2.1, this.2.2.2.2⟩
    · rcases List.mem_cons.1 h1 with h2 | h2
      · rw [h2]; decide
      · exact hclean c h2
  have hnohash : '#' ∉ scheme ++ ':' :: '/' :: '/' :: (host ++ path) :=
    fun hm => (hall _ hm).2.1 rfl
  have hnoq : '?' ∉ '/' :: '/' :: (host ++ path) := fun hm => (hclean _ hm).1 rfl
  have hany : (scheme ++ ':' :: '/' :: '/' :: (host ++ path)).any
      (fun c => c.toNat < 0x20 || c.toNat = 0x7F) = false := by
    rw [List.any_eq_false]
    intro c hc
    have := (hall c hc).2.2
    simpa using this
  have hstar : scheme ++ ':' :: '/' :: '/' :: (host ++ path) ≠ ['*'] := by
    intro e
    have := congrArg List.length e
    simp only [List.length_append, List.length_cons, List.length_singleton, List.length_nil]
      at this
    omega
  have hscheme : getscheme (scheme ++ ':' :: '/' :: '/' :: (host ++ path))
      = Except.ok (scheme, '/' :: '/' :: (host ++ path)) := by
    unfold getscheme
    rw [getschemeScan_alpha scheme _ true [] (fun c hc => (isLower_clean c (hs c hc)).1)
      (Or.inl hsne)]
    rfl
  have hlower : scheme.map Char.toLower = scheme := by
    rw [List.map_congr_left (fun c hc => (isLower_clean c (hs c hc)).2.1)]
    exact List.map_id _
  have hlast : ¬ (('/' :: '/' :: (host ++ path)).getLast? = some '?' ∧
      ('/' :: '/' :: (host ++ path)).count '?' = 1) := by
    intro h
    exact hnoq (List.mem_of_getLast?_eq_some h.1)
  have hslashhost : '/' ∉ host := fun hm => (hostChar_clean _ (hh _ hm)).2.2.1 rfl
  have hsne2 : String.mk scheme ≠ "" := by
    intro e
    exact hsne (congrArg String.data e)
  have hafter : parseAfterQuery
      ({ Scheme := String.mk scheme, RawQuery := String.mk [] } : URL)
      ('/' :: '/' :: (host ++ path))
      = Except.ok
        ({ Scheme := String.mk scheme, Host := String.mk host, Path := String.mk path } : URL) := by
    unfold parseAfterQuery
    simp only [List.head?_cons, ne_eq, not_true_eq_false, false_and, if_false, hsne2,
      not_false_eq_true, true_or, if_true]
    rw [ht, breakFirst_append '/' host t hslashhost, ← ht]
    simp only [parseAuthority_plain host hh hport]
    rw [setPath_plain _ (String.mk path) hp]
  unfold urlParse
  simp only [cutFirst_not_mem '#' _ hnohash]
  unfold parseNoFragment
  simp only [hany, Bool.false_eq_true, if_false, hstar, hscheme, hlast, hlower,
    cutFirst_not_mem '?' _ hnoq, hafter, if_true]

/-- A text whose first path element has no colon has no scheme. -/
theorem getschemeScan_no_colon (p : List Char) : ∀ (first : Bool) (acc : List Char),
    ':' ∉ (cutFirst '/' p).1 → getschemeScan first acc p = Except.ok none := by
  induction p with
  | nil => intro first acc _; rfl
  | cons c cs ih =>
    intro first acc h
    by_cases hsl : c = '/'
    · rw [hsl]
      have h1 : Char.isAlpha '/' = false := by decide
      have h2 : ¬ (Char.isDigit '/' = true ∨ '/' = '+' ∨ '/' = '-' ∨ '/' = '.') := by decide
      have h3 : ('/' : Char) ≠ ':' := by decide
      simp only [getschemeScan, h1, h2, h3, Bool.false_eq_true, if_false]
    · have hcut : (cutFirst '/' (c :: cs)).1 = c :: (cutFirst '/' cs).1 := by
        simp only [cutFirst, hsl, if_false]
      rw [hcut] at h
      have hc : c ≠ ':' := fun e => h (e ▸ List.mem_cons_self _ _)
      have hcs : ':' ∉ (cutFirst '/' cs).1 := fun e => h (List.mem_cons_of_mem _ e)
      unfold getschemeScan
      by_cases h1 : c.isAlpha = true
      · rw [if_pos h1]
        exact ih false _ hcs
      · rw [if_neg h1]
        by_cases h2 : c.isDigit = true ∨ c = '+' ∨ c = '-' ∨ c = '.'
        · rw [if_pos h2]
          by_cases h3 : first = true
          · rw [if_pos h3]
          · rw [if_neg h3]
            exact ih false _ hcs
        · rw [if_neg h2, if_neg hc]

/-- A relative path of plain characters whose first element has no colon
parses to a URL that has only this path. -/
theorem urlParse_relative (p : String) (hp : ∀ c ∈ p.data, pathChar c)
    (hrel : p.data.head? ≠ some '/') (hcolon : ':' ∉ (cutFirst '/' p.data).1) :
    urlParse p = Except.ok { Path := p } := by
  have hnohash : '#' ∉ p.data := fun hm => (pathChar_clean _ (hp _ hm)).2.1 rfl
  have hnoq : '?' ∉ p.data := fun hm => (pathChar_clean _ (hp _ hm)).1 rfl
  have hany : p.data.any (fun c => c.toNat < 0x20 || c.toNat = 0x7F) = false := by
    rw [List.any_eq_false]
    intro c hc
    have := (pathChar_clean c (hp c hc)).2.2
    simpa using this
  have hstar : p.data ≠ ['*'] := by
    intro e
    have := hp '*' (by rw [e]; exact List.mem_singleton_self _)
    revert this
    decide
  have hscheme : getscheme p.data = Except.ok ([], p.data) := by
    unfold getscheme
    rw [getschemeScan_no_colon p.data true [] hcolon]
  have hlast : ¬ (p.data.getLast? = some '?' ∧ p.data.count '?' = 1) := by
    intro h
    exact hnoq (List.mem_of_getLast?_eq_some h.1)
  have hafter : parseAfterQuery
      ({ Scheme := String.mk ([].map Char.toLower), RawQuery := String.mk [] } : URL) p.data
      = Except.ok ({ Path := p } : URL) := by
    unfold parseAfterQuery
    have h1 : ¬ (p.data.head? ≠ some '/' ∧
        ({ Scheme := String.mk ([].map Char.toLower), RawQuery := String.mk [] } : URL).Scheme
          ≠ "") := by
      intro h
      exact h.2 rfl
    have h2 : ¬ (p.data.head? ≠ some '/' ∧ ':' ∈ (cutFirst '/' p.data).1) :=
      fun h => hcolon h.2
    rw [if_neg h1, if_neg h2]
    split
    · rename_i afterSlashes heq
      rw [heq] at hrel
      simp at hrel
    · rw [setPath_plain _ (String.mk p.data) hp]
      rfl
  unfold urlParse
  simp only [cutFirst_not_mem '#' _ hnohash]
  unfold parseNoFragment
  simp only [hany, Bool.false_eq_true, if_false, hstar, hscheme, hlast,
    cutFirst_not_mem '?' _ hnoq, hafter, if_true]

/-- The text of scheme and host, for a plain host and no user. -/
theorem urlHead_plain (scheme host : String) (hsne : scheme ≠ "")
    (hh : ∀ c ∈ host.data, hostChar c) :
    (urlHead scheme none host).data = scheme.data ++ ':' :: '/' :: '/' :: host.data := by
  have hesc : escape host Encoding.encodeHost = host := by
    unfold escape
    rw [escapeChars_plain Encoding.encodeHost host.data (fun c hc => ⟨(hh c hc).1, (hh c hc).2.1⟩)]
  unfold urlHead
  by_cases hhost : host = ""
  · simp [hsne, hhost, String.data_append]
  · simp [hsne, hhost, hesc, String.data_append]

/-- Occurrences of `v1/` in a text that ends with a slash followed by another
text: none of them spans the joint. -/
theorem countSub_append (t p : List Char) :
    countSub ['v', '1', '/'] (t ++ '/' :: p)
      = countSub ['v', '1', '/'] (t ++ ['/']) + countSub ['v', '1', '/'] p := by
  induction t with
  | nil =>
    simp [countSub, List.isPrefixOf]
  | cons c cs ih =>
    have hpre : List.isPrefixOf ['v', '1', '/'] (c :: (cs ++ '/' :: p))
        = List.isPrefixOf ['v', '1', '/'] (c :: (cs ++ ['/'])) := by
      cases cs with
      | nil => simp [List.isPrefixOf]
      | cons d ds =>
        cases ds with
        | nil => simp [List.isPrefixOf]
        | cons e es => simp [List.isPrefixOf]
    rw [show (c :: cs) ++ '/' :: p = c :: (cs ++ '/' :: p) from rfl,
      show (c :: cs) ++ ['/'] = c :: (cs ++ ['/']) from rfl,
      show countSub ['v', '1', '/'] (c :: (cs ++ '/' :: p))
        = (if List.isPrefixOf ['v', '1', '/'] (c :: (cs ++ '/' :: p)) then 1 else 0)
          + countSub ['v', '1', '/'] (cs ++ '/' :: p) from rfl,
      show countSub ['v', '1', '/'] (c :: (cs ++ ['/']))
        = (if List.isPrefixOf ['v', '1', '/'] (c :: (cs ++ ['/'])) then 1 else 0)
          + countSub ['v', '1', '/'] (cs ++ ['/']) from rfl,
      hpre, ih]
    omega

theorem countSub_suffix (sub t : List Char) (hsub : sub ≠ []) : 1 ≤ countSub sub (t ++ sub) := by
  induction t with
  | nil =>
    cases sub with
    | nil => exact absurd rfl hsub
    | cons c cs =>
      have hpre : List.isPrefixOf (c :: cs) (c :: cs) = true := by
        rw [List.isPrefixOf_iff_prefix]
      simp only [List.nil_append, countSub, hpre, if_true]
      omega
  | cons c cs ih =>
    rw [show (c :: cs) ++ sub = c :: (cs ++ sub) from rfl]
    unfold countSub
    omega

/-- A URL that has only scheme, host and path is settled by the three. -/
theorem URL_plain_eq (u : URL) (path : String) (hop : u.Opaque = "") (huser : u.User = none)
    (hraw : u.RawPath = "") (hfq : u.ForceQuery = false) (hq : u.RawQuery = "")
    (hf : u.Fragment = "") :
    ({ Scheme := u.Scheme, Host := u.Host, Path := path } : URL) = { u with Path := path } := by
  cases u
  simp only at hop huser hraw hfq hq hf
  simp only [hop, huser, hraw, hfq, hq, hf]

/-- C5, amended: for every client built by `NewClient` whose base URL is a scheme
of lower-case letters, a host of characters that stand for themselves (with
a decimal, non-empty port if it has a colon, and no user information) and an
absolute path of unescaped path characters, and for every relative path `p`
of such characters that does not start with a slash and has no colon in its
first element, where neither path has a `.` or `..` element, `NewRequest`
(given a valid method and a body that encodes) succeeds and its request URL is
the client's base URL with `p` appended to the path: its text is the text of
the base URL followed by `p`. The base URL ends with `/v1/`, so `v1/` occurs in
it at least once, and it occurs in the request URL as often as in the base
URL and in `p` together: exactly once when it occurs once in the base URL and
not in `p`. -/
theorem C5_request_url_is_base_then_path {β : Type} (D : HTTPClient) (baseURL : String)
    (httpClient : Option HTTPClient) (c : Client) (marshal : β → Except Err String)
    (method p : String) (body : Option β)
    (hclient : NewClient D baseURL httpClient = Except.ok c)
    (hsne : c.baseURL.Scheme ≠ "") (hslower : ∀ ch ∈ c.baseURL.Scheme.data, ch.isLower = true)
    (huser : c.baseURL.User = none)
    (hhost : ∀ ch ∈ c.baseURL.Host.data, hostChar ch)
    (hport : ∀ a port, cutLast ':' c.baseURL.Host.data = some (a, port) →
      port ≠ [] ∧ port.all Char.isDigit = true)
    (hop : c.baseURL.Opaque = "") (hraw : c.baseURL.RawPath = "")
    (hfq : c.baseURL.ForceQuery = false) (hq : c.baseURL.RawQuery = "")
    (hf : c.baseURL.Fragment = "")
    (hbase : ∀ ch ∈ c.baseURL.Path.data, pathChar ch)
    (hroot : c.baseURL.Path.data.head? = some '/')
    (hdb : ∀ seg ∈ splitSlash c.baseURL.Path.data, seg ≠ ['.'] ∧ seg ≠ ['.', '.'])
    (hp : ∀ ch ∈ p.data, pathChar ch) (hrel : p.data.head? ≠ some '/')
    (hcolon : ':' ∉ (cutFirst '/' p.data).1)
    (hdp : ∀ seg ∈ splitSlash p.data, seg ≠ ['.'] ∧ seg ≠ ['.', '.'])
    (hm : validMethod (if method = "" then "GET" else method) = true)
    (hmar : ∀ b, body = some b → ∃ text, marshal b = Except.ok text) :
    (∃ req, c.NewRequest marshal method p body = Except.ok req ∧
      req.URL = { c.baseURL with Path := c.baseURL.Path ++ p } ∧
      urlString req.URL = urlString c.baseURL ++ p ∧
      countSub "v1/".data (urlString req.URL).data
        = countSub "v1/".data (urlString c.baseURL).data + countSub "v1/".data p.data ∧
      (countSub "v1/".data (urlString c.baseURL).data = 1 → countSub "v1/".data p.data = 0 →
        countSub "v1/".data (urlString req.URL).data = 1)) ∧
    hasSuffix (urlString c.baseURL) "/v1/" = true ∧
    1 ≤ countSub "v1/".data (urlString c.baseURL).data := by
  obtain ⟨u, _, hcb⟩ := NewClient_inv D baseURL httpClient c hclient
  have hv1 : hasSuffix c.baseURL.Path "/v1/" = true := by
    rw [hcb]
    exact normalisePath_hasSuffix u.Path
  have hslash : hasSuffix c.baseURL.Path "/" = true := by
    rw [hasSuffix_iff] at hv1 ⊢
    exact List.IsSuffix.trans (⟨['/', 'v', '1'], rfl⟩ : "/".data <:+ "/v1/".data) hv1
  have hres := resolveReference_plain c.baseURL p hop hraw hfq hq hf hbase hroot hslash hp hrel
    hdb hdp
  have hall : ∀ ch ∈ (c.baseURL.Path ++ p).data, pathChar ch := by
    intro ch hc
    rw [String.data_append] at hc
    rcases List.mem_append.1 hc with h1 | h1
    · exact hbase ch h1
    · exact hp ch h1
  have hroot2 : (c.baseURL.Path ++ p).data.head? = some '/' := by
    rw [String.data_append]
    cases hd : c.baseURL.Path.data with
    | nil => rw [hd] at hroot; simp at hroot
    | cons x xs => rw [hd] at hroot; simpa using hroot
  have hbasestr := urlString_plain c.baseURL hop hraw hfq hq hf hbase hroot
  have hstr : urlString ({ c.baseURL with Path := c.baseURL.Path ++ p } : URL)
      = urlString c.baseURL ++ p := by
    have h1 := urlString_plain ({ c.baseURL with Path := c.baseURL.Path ++ p } : URL)
      hop hraw hfq hq hf hall hroot2
    rw [hbasestr, String.append_assoc]
    exact h1
  have hhead := urlHead_plain c.baseURL.Scheme c.baseURL.Host hsne hhost
  have htext : urlString c.baseURL ++ p
      = String.mk (c.baseURL.Scheme.data ++ ':' :: '/' :: '/' ::
          (c.baseURL.Host.data ++ (c.baseURL.Path ++ p).data)) := by
    apply String.ext
    rw [hbasestr, huser]
    simp only [String.data_append, hhead, List.append_assoc, List.cons_append]
  have hre : urlParse (urlString c.baseURL ++ p)
      = Except.ok { c.baseURL with Path := c.baseURL.Path ++ p } := by
    rw [htext, urlParse_plain c.baseURL.Scheme.data c.baseURL.Host.data (c.baseURL.Path ++ p).data
      (fun e => hsne (String.ext e)) hslower hhost (fun a port h => (hport a port h).2) hall hroot2]
    exact congrArg Except.ok (URL_plain_eq c.baseURL _ hop huser hraw hfq hq hf)
  have hrem : removeEmptyPort c.baseURL.Host = c.baseURL.Host :=
    removeEmptyPort_plain _ (fun a port h => (hport a port h).1)
  have hv1s : hasSuffix (urlString c.baseURL) "/v1/" = true := by
    rw [hbasestr, hasSuffix_iff, String.data_append]
    rw [hasSuffix_iff] at hv1
    obtain ⟨t, ht⟩ := hv1
    exact ⟨(urlHead c.baseURL.Scheme c.baseURL.User c.baseURL.Host).data ++ t, by
      rw [← ht]; simp⟩
  obtain ⟨t, ht⟩ := (hasSuffix_iff _ _).1 hv1s
  have ht2 : (urlString c.baseURL).data = (t ++ ['/']) ++ ['v', '1', '/'] := by
    rw [← ht]
    simp
  have hcount : countSub "v1/".data (urlString c.baseURL ++ p).data
      = countSub "v1/".data (urlString c.baseURL).data + countSub "v1/".data p.data := by
    have h3 : (urlString c.baseURL).data = (t ++ ['/', 'v', '1']) ++ ['/'] := by
      rw [ht2]; simp
    rw [String.data_append, h3, List.append_assoc]
    exact countSub_append (t ++ ['/', 'v', '1']) p.data
  have hone : 1 ≤ countSub "v1/".data (urlString c.baseURL).data := by
    rw [ht2]
    exact countSub_suffix _ _ (by decide)
  refine ⟨?_, hv1s, hone⟩
  have hnew : ∀ buf, httpNewRequest method (urlString c.baseURL ++ p) buf
      = Except.ok ⟨if method = "" then "GET" else method,
          { c.baseURL with Path := c.baseURL.Path ++ p }, [], buf, Context.background⟩ := by
    intro buf
    simp only [httpNewRequest, hm, hre, Bool.true_eq_false, if_false, hrem]
  have hfacts : urlString ({ c.baseURL with Path := c.baseURL.Path ++ p } : URL)
        = urlString c.baseURL ++ p ∧
      countSub "v1/".data (urlString ({ c.baseURL with Path := c.baseURL.Path ++ p } : URL)).data
        = countSub "v1/".data (urlString c.baseURL).data + countSub "v1/".data p.data ∧
      (countSub "v1/".data (urlString c.baseURL).data = 1 → countSub "v1/".data p.data = 0 →
        countSub "v1/".data
          (urlString ({ c.baseURL with Path := c.baseURL.Path ++ p } : URL)).data = 1) := by
    rw [hstr]
    exact ⟨rfl, hcount, fun h1 h0 => by rw [hcount, h1, h0]⟩
  unfold Client.NewRequest URL.Parse
  rw [urlParse_relative p hp hrel hcolon]
  simp only [hres, hstr]
  cases body with
  | none =>
    simp only [hnew, Option.isSome_none, Bool.false_eq_true, if_false]
    exact ⟨_, rfl, rfl, hfacts.1, hfacts.2.1, hfacts.2.2⟩
  | some b =>
    obtain ⟨text, htx⟩ := hmar b rfl
    simp only [htx, hnew, Option.isSome_some, if_true]
    exact ⟨_, rfl, rfl, hfacts.1, hfacts.2.1, hfacts.2.2⟩

/-- C5, witness: the request of the repository's test, `test` on the client for
`http://localhost`: its URL is `http://localhost/v1/test`, with `v1/` exactly once. -/
theorem C5_request_url_is_base_then_path_witness :
    ∃ req, (localClient (respondWith 200 "")).NewRequest marshalAccount "GET" "test" none
        = Except.ok req ∧
      req.URL = { Scheme := "http", Host := "localhost", Path := "/v1/test" } ∧
      urlString req.URL = "http://localhost/v1/test" ∧
      countSub "v1/".data (urlString req.URL).data = 1 := by
  obtain ⟨⟨req, h1, h2, h3, _, h5⟩, _, _⟩ :=
    C5_request_url_is_base_then_path (respondWith 200 "") "http://localhost" none
      (localClient (respondWith 200 "")) marshalAccount "GET" "test" none
      (by
        rw [NewClient_ok (respondWith 200 "") "http://localhost" none
          { Scheme := "http", Host := "localhost" } (by decide)]
        rfl)
      (by decide) (by decide) rfl (by decide)
      (fun a port h => by
        have hn : cutLast ':' (localClient (respondWith 200 "")).baseURL.Host.data = none := by
          decide
        rw [hn] at h
        exact Option.noConfusion h)
      rfl rfl rfl rfl rfl (by decide)
      (by decide) (by decide) (by decide) (by decide) (by decide) (by decide) (by decide)
      (fun b hb => by simp at hb)
  exact ⟨req, h1, h2, h3, h5 (by decide) (by decide)⟩

end Form3
